import Mathlib

/-!
# Proof-of-authority snapshot (`consensus/poi/snapshot.go`)

A shallow embedding of the snapshot state machine of the `poi` consensus
engine, followed by theorems about it.

Modelling conventions.

* A Go `map[K]V` is a `GoMap K V`: a list of bindings read with first-match
  semantics.  `set` and `delete` remove every binding of the key they touch, so
  the meaning of a map never depends on shadowed bindings, and `len` counts
  distinct keys.
* `common.Address` and `common.Hash` are the big-endian values of their byte
  arrays; the 8-byte header nonce is its big-endian value as well.
* `uint64` block numbers are natural numbers; additions that can wrap in the
  source are reduced modulo `2 ^ 64`.
* `header.Number.Uint64()` is the field `Header.Number`.
* A Go run-time panic (integer division by zero) is the error
  `Error.panicDivideByZero`.
* `ecrecover` lives outside `snapshot.go`; every function that calls it takes
  it as a parameter.
-/

namespace Poi

/-! ## Go maps -/

/-- A Go map: bindings in a list, the first binding of a key is the live one. -/
structure GoMap (K V : Type) where
  entries : List (K × V)
deriving DecidableEq, Repr

namespace GoMap

variable {K V : Type} [DecidableEq K]

/-- The empty map, `make(map[K]V)`. -/
def empty : GoMap K V := ⟨[]⟩

/-- First-match lookup in a list of bindings. -/
def lookupList (k : K) : List (K × V) → Option V
  | [] => none
  | e :: es => if e.1 = k then some e.2 else lookupList k es

/-- The lookup `v, ok := m[k]`. -/
def get? (m : GoMap K V) (k : K) : Option V := lookupList k m.entries

/-- The test `_, ok := m[k]`. -/
def has (m : GoMap K V) (k : K) : Bool := (m.get? k).isSome

/-- The statement `delete(m, k)`. -/
def delete (m : GoMap K V) (k : K) : GoMap K V :=
  ⟨m.entries.filter (fun e => !decide (e.1 = k))⟩

/-- The assignment `m[k] = v`. -/
def set (m : GoMap K V) (k : K) (v : V) : GoMap K V :=
  ⟨(k, v) :: (m.delete k).entries⟩

/-- The distinct keys of the map. -/
def keys (m : GoMap K V) : List K := (m.entries.map Prod.fst).dedup

/-- The builtin `len(m)`. -/
def len (m : GoMap K V) : Nat := m.keys.length

/-- Does a `range` over the map meet the value `v`? -/
def hasValue [DecidableEq V] (m : GoMap K V) (v : V) : Bool :=
  m.keys.any (fun k => decide (m.get? k = some v))

end GoMap

/-! ## Data model -/

/-- The type `common.Address`. -/
abbrev Address := Nat

/-- The type `common.Hash`. -/
abbrev Hash := Nat

/-- The bound of `uint64`. -/
def u64 : Nat := 2 ^ 64

/-- A single vote of an authorized signer. -/
structure Vote where
  Signer : Address
  Block : Nat
  Address : Poi.Address
  Authorize : Bool
deriving DecidableEq, Repr

/-- The running score of the votes on one account. `Votes` is a Go `int`; it
counts entries of the vote slice, whose length Go keeps below the largest
`int`, so the increment in `cast` is modelled without wrap-around. -/
structure Tally where
  Authorize : Bool
  Votes : Int
deriving DecidableEq, Repr

/-- The health status of a signer. -/
inductive SignerHealth where
  | Healthy
  | Unhealthy
deriving DecidableEq, Repr

/-- The fields of `params.PoiConfig` the snapshot reads. -/
structure PoiConfig where
  Period : Nat
  Epoch : Nat
deriving DecidableEq, Repr

/-- The fields of `types.Header` the snapshot reads; `Extra` stands for the
extra-data carrying the seal and `Hash` for the value of `header.Hash()`. -/
structure Header where
  Number : Nat
  Coinbase : Address
  Nonce : Nat
  Extra : Nat
  Hash : Poi.Hash
deriving DecidableEq, Repr

/-- The errors of the package, the errors of signature recovery and the
run-time panic of an integer division by zero. -/
inductive Error where
  | errInvalidVotingChain
  | errUnauthorizedSigner
  | errRecentlySigned
  | errInvalidVote
  | errInvalidPerformance
  | errRecover (code : Nat)
  | panicDivideByZero
deriving DecidableEq, Repr

deriving instance DecidableEq for Except

/-- Modelled from the spec: the constant `nonceAuthVote` is declared outside
the given sources; the spec gives `NONCE_AUTH = 0xFFFFFFFFFFFFFFFF`. -/
def nonceAuthVote : Nat := 0xffffffffffffffff

/-- Modelled from the spec: the constant `nonceDropVote` is declared outside
the given sources; the spec gives `NONCE_DROP = 0x0000000000000000`. -/
def nonceDropVote : Nat := 0

/-- The state of the authorization voting at a given point in time. The
signature cache only speeds up `ecrecover` and is left out. -/
structure Snapshot where
  config : PoiConfig
  Number : Nat
  Hash : Poi.Hash
  Signers : GoMap Address Unit
  Recents : GoMap Nat Address
  Votes : List Vote
  Tally : GoMap Address Tally
  Health : GoMap Address SignerHealth
  Performance : GoMap Address Int
deriving DecidableEq, Repr

/-- The loop of `newSnapshot` over the configured signers. -/
def initSigners : Snapshot → List Address → Snapshot
  | snap, [] => snap
  | snap, signer :: rest =>
    initSigners
      { snap with
        Signers := snap.Signers.set signer ()
        Health := snap.Health.set signer SignerHealth.Healthy
        Performance := snap.Performance.set signer 0 }
      rest

/-- The constructor `newSnapshot`. -/
def newSnapshot (config : PoiConfig) (number : Nat) (hash : Hash)
    (signers : List Address) : Snapshot :=
  initSigners
    { config := config
      Number := number
      Hash := hash
      Signers := GoMap.empty
      Recents := GoMap.empty
      Votes := []
      Tally := GoMap.empty
      Health := GoMap.empty
      Performance := GoMap.empty }
    signers

/-- The method `copy`: a deep copy, which for values is the same snapshot. -/
def Snapshot.copy (s : Snapshot) : Snapshot :=
  { config := s.config
    Number := s.Number
    Hash := s.Hash
    Signers := s.Signers
    Recents := s.Recents
    Votes := s.Votes
    Tally := s.Tally
    Health := s.Health
    Performance := s.Performance }

/-- The method `validVote`. -/
def Snapshot.validVote (s : Snapshot) (address : Address) (authorize : Bool) : Bool :=
  let signer := s.Signers.has address
  (signer && !authorize) || (!signer && authorize)

/-- The method `cast`: the updated snapshot and the returned flag. -/
def Snapshot.cast (s : Snapshot) (address : Address) (authorize : Bool) :
    Snapshot × Bool :=
  if !s.validVote address authorize then (s, false)
  else
    match s.Tally.get? address with
    | some old => ({ s with Tally := s.Tally.set address { old with Votes := old.Votes + 1 } }, true)
    | none => ({ s with Tally := s.Tally.set address { Authorize := authorize, Votes := 1 } }, true)

/-- The method `uncast`: the updated snapshot and the returned flag. -/
def Snapshot.uncast (s : Snapshot) (address : Address) (authorize : Bool) :
    Snapshot × Bool :=
  match s.Tally.get? address with
  | none => (s, false)
  | some tally =>
    if tally.Authorize ≠ authorize then (s, false)
    else if tally.Votes > 1 then
      ({ s with Tally := s.Tally.set address { tally with Votes := tally.Votes - 1 } }, true)
    else ({ s with Tally := s.Tally.delete address }, true)

/-- Lines 217-219 and 276-278 of `apply`: drop the oldest recent signer. -/
def Snapshot.expireRecent (snap : Snapshot) (number : Nat) : Snapshot :=
  let limit := snap.Signers.len / 2 + 1
  if number ≥ limit then { snap with Recents := snap.Recents.delete (number - limit) }
  else snap

/-- Lines 236-245 of `apply`: the first earlier vote of `signer` on `coinbase`
is uncast and removed from the list; the loop stops there. -/
def Snapshot.discardPrevious (snap : Snapshot) (signer coinbase : Address) : Snapshot :=
  match snap.Votes.find? (fun vote => decide (vote.Signer = signer) && decide (vote.Address = coinbase)) with
  | none => snap
  | some vote =>
    { (snap.uncast vote.Address vote.Authorize).1 with
      Votes := snap.Votes.eraseP
        (fun vote => decide (vote.Signer = signer) && decide (vote.Address = coinbase)) }

/-- Lines 280-290 of `apply`: walk the vote list from index `0`; a vote cast
by `address` is uncast and removed (the index stays), any other vote is kept.
The first argument is the part of the list not yet visited. -/
def purgeCastBy (address : Address) : List Vote → Snapshot → List Vote × Snapshot
  | [], snap => ([], snap)
  | vote :: rest, snap =>
    if vote.Signer = address then
      purgeCastBy address rest (snap.uncast vote.Address vote.Authorize).1
    else
      let r := purgeCastBy address rest snap
      (vote :: r.1, r.2)

/-- Lines 212-215 of `apply`: remove any votes on checkpoint blocks. -/
def Snapshot.clearEpoch (snap : Snapshot) (epoch number : Nat) : Snapshot :=
  if number % epoch = 0 then { snap with Votes := [], Tally := GoMap.empty } else snap

/-- Lines 256-263 of `apply`: tally up the new vote from the signer. -/
def Snapshot.tallyVote (snap : Snapshot) (signer : Address) (header : Header)
    (authorize : Bool) : Snapshot :=
  let r := snap.cast header.Coinbase authorize
  if r.2 then
    { r.1 with
      Votes := r.1.Votes ++
        [{ Signer := signer, Block := header.Number, Address := header.Coinbase,
           Authorize := authorize }] }
  else r.1

/-- Lines 210-263 of `apply`: one header up to and including the cast of its
vote. The modulus `number % epoch` panics when the epoch is zero. -/
def Snapshot.castHeader (ecrecover : Header → Except Error Address) (epoch : Nat)
    (snap : Snapshot) (header : Header) : Except Error Snapshot :=
  let number := header.Number
  if epoch = 0 then Except.error Error.panicDivideByZero
  else
    let snap := snap.clearEpoch epoch number
    let snap := snap.expireRecent number
    match ecrecover header with
    | Except.error err => Except.error err
    | Except.ok signer =>
      if !snap.Signers.has signer then Except.error Error.errUnauthorizedSigner
      else if snap.Recents.hasValue signer then Except.error Error.errRecentlySigned
      else
        let snap := { snap with Recents := snap.Recents.set number signer }
        let snap := snap.discardPrevious signer header.Coinbase
        if header.Nonce ≠ nonceAuthVote ∧ header.Nonce ≠ nonceDropVote then
          Except.error Error.errInvalidVote
        else
          Except.ok (snap.tallyVote signer header (decide (header.Nonce = nonceAuthVote)))

/-- The lookup `snap.Tally[address]`, the zero tally when there is none. -/
def Snapshot.tallyOf (snap : Snapshot) (address : Address) : Poi.Tally :=
  (snap.Tally.get? address).getD { Authorize := false, Votes := 0 }

/-- Lines 267-269 of `apply`: the voted account becomes a signer. -/
def Snapshot.admitSigner (snap : Snapshot) (coinbase : Address) : Snapshot :=
  { snap with
    Signers := snap.Signers.set coinbase ()
    Health := snap.Health.set coinbase SignerHealth.Healthy
    Performance := snap.Performance.set coinbase 0 }

/-- Lines 271-290 of `apply`: the voted account stops being a signer, the
recents shrink and the votes it cast are discarded. -/
def Snapshot.evict (snap : Snapshot) (header : Header) : Snapshot :=
  let snap :=
    { snap with
      Signers := snap.Signers.delete header.Coinbase
      Health := snap.Health.delete header.Coinbase
      Performance := snap.Performance.delete header.Coinbase }
  let snap := snap.expireRecent header.Number
  let r := purgeCastBy header.Coinbase snap.Votes snap
  { r.2 with Votes := r.1 }

/-- Lines 292-299 of `apply`: discard the votes around the changed account. -/
def Snapshot.purgeSubject (snap : Snapshot) (coinbase : Address) : Snapshot :=
  { snap with
    Votes := snap.Votes.filter (fun vote => !decide (vote.Address = coinbase))
    Tally := snap.Tally.delete coinbase }

/-- Lines 264-300 of `apply`: if the vote passed, update the list of signers. -/
def Snapshot.resolve (snap : Snapshot) (header : Header) : Snapshot :=
  let tally := snap.tallyOf header.Coinbase
  if tally.Votes > ((snap.Signers.len / 2 : Nat) : Int) then
    let snap := if tally.Authorize then snap.admitSigner header.Coinbase else snap.evict header
    snap.purgeSubject header.Coinbase
  else snap

/-- The body of the loop of `apply` for one header. -/
def Snapshot.applyHeader (ecrecover : Header → Except Error Address) (epoch : Nat)
    (snap : Snapshot) (header : Header) : Except Error Snapshot :=
  match snap.castHeader ecrecover epoch header with
  | Except.error err => Except.error err
  | Except.ok snap => Except.ok (snap.resolve header)

/-- The loop of `apply` over the headers. -/
def applyHeaders (ecrecover : Header → Except Error Address) (epoch : Nat) :
    Snapshot → List Header → Except Error Snapshot
  | snap, [] => Except.ok snap
  | snap, header :: rest =>
    match snap.applyHeader ecrecover epoch header with
    | Except.error err => Except.error err
    | Except.ok snap => applyHeaders ecrecover epoch snap rest

/-- The method `MarkHealthy`: the snapshot after the call. -/
def Snapshot.MarkHealthy (s : Snapshot) (signer : Address) : Snapshot :=
  if s.Signers.has signer then { s with Health := s.Health.set signer SignerHealth.Healthy }
  else s

/-- The method `MarkUnhealthy`: the snapshot after the call. -/
def Snapshot.MarkUnhealthy (s : Snapshot) (signer : Address) : Snapshot :=
  if s.Signers.has signer then { s with Health := s.Health.set signer SignerHealth.Unhealthy }
  else s

/-- The method `IsHealthy`. -/
def Snapshot.IsHealthy (s : Snapshot) (signer : Address) : Bool :=
  match s.Health.get? signer with
  | some health => decide (health = SignerHealth.Healthy)
  | none => false

/-- The method `SetPerformance`: the snapshot after the call and the returned
error, `none` standing for `nil`. The argument is an `int64`. -/
def Snapshot.SetPerformance (s : Snapshot) (signer : Address) (performance : Int) :
    Snapshot × Option Error :=
  if !s.Signers.has signer then (s, some Error.errUnauthorizedSigner)
  else if performance < 0 then (s, some Error.errInvalidPerformance)
  else ({ s with Performance := s.Performance.set signer performance }, none)

/-- The method `GetPerformance`: the stored value, zero when there is none. -/
def Snapshot.GetPerformance (s : Snapshot) (signer : Address) : Int :=
  (s.Performance.get? signer).getD 0

/-! ## The scheduler -/

/-- Insertion of `x` into a list sorted by `less`. -/
def insertBy {α : Type} (less : α → α → Bool) (x : α) : List α → List α
  | [] => [x]
  | y :: l => if less x y then x :: y :: l else y :: insertBy less x l

/-- The library sorts `sort.Slice` and `slices.SortFunc`. The snapshot calls
them on pairwise distinct elements that `less` orders linearly, so the sorted
list is determined by the elements; it is computed here by insertion. -/
def sortBy {α : Type} (less : α → α → Bool) : List α → List α
  | [] => []
  | x :: l => insertBy less x (sortBy less l)

/-- The method `signers`, the map `Signers` being iterated in the order
`order`. `common.Address.Cmp` compares the byte arrays, that is the values. -/
def Snapshot.signersIn (_s : Snapshot) (order : List Address) : List Address :=
  sortBy (fun a b => decide (a < b)) order

/-- The method `signers`, the map being iterated in the order of its keys. -/
def Snapshot.signers (s : Snapshot) : List Address := s.signersIn s.Signers.keys

/-- A signer address and its performance, for sorting. -/
structure SignerInfo where
  Address : Poi.Address
  Performance : Int
deriving DecidableEq, Repr

/-- The comparison function of `GetActiveSigners`: performance descending,
then address ascending in byte order. -/
def lessInfo (a b : SignerInfo) : Bool :=
  if a.Performance ≠ b.Performance then decide (a.Performance > b.Performance)
  else decide (a.Address < b.Address)

/-- Lines 381-389 of `GetActiveSigners`: the healthy signers with their
performance, the map `Signers` being iterated in the order `order`. -/
def Snapshot.signerInfosIn (s : Snapshot) (order : List Address) : List SignerInfo :=
  (order.filter (fun signer => s.IsHealthy signer)).map
    (fun signer => SignerInfo.mk signer (s.GetPerformance signer))

/-- The method `GetActiveSigners`, the map `Signers` being iterated in the
order `order`. -/
def Snapshot.activeSignersIn (s : Snapshot) (order : List Address) : List Address :=
  (sortBy lessInfo (s.signerInfosIn order)).map SignerInfo.Address

/-- The method `GetActiveSigners`, the map being iterated in the order of its
keys. -/
def Snapshot.GetActiveSigners (s : Snapshot) : List Address :=
  s.activeSignersIn s.Signers.keys

/-- The loop of `inturn`: the offset of the first occurrence of `signer`, the
length of the list when there is none. -/
def inturnOffset (signer : Address) : List Address → Nat
  | [] => 0
  | a :: rest => if a ≠ signer then inturnOffset signer rest + 1 else 0

/-- The method `inturn`. The modulus `number % len(signers)` panics when no
signer is active. -/
def Snapshot.inturn (s : Snapshot) (number : Nat) (signer : Address) : Except Error Bool :=
  let signers := s.GetActiveSigners
  let offset := inturnOffset signer signers
  if signers.length = 0 then Except.error Error.panicDivideByZero
  else Except.ok (decide (number % signers.length = offset))

/-- The loop of `GetBackupSigner`: the index of the first occurrence of
`signer`, `none` standing for `-1`. -/
def inTurnIndex (signer : Address) : List Address → Option Nat
  | [] => none
  | a :: rest => if a = signer then some 0 else (inTurnIndex signer rest).map (· + 1)

/-- The method `GetBackupSigner`; the zero address is `0`, and an index read
`activeSigners[i]` is within the bounds wherever the source makes one. -/
def Snapshot.GetBackupSigner (s : Snapshot) (_number : Nat) (inTurnSigner : Address) :
    Address × Bool :=
  let activeSigners := s.GetActiveSigners
  if activeSigners.length = 0 then (0, false)
  else
    match inTurnIndex inTurnSigner activeSigners with
    | none => (activeSigners.getD 0 0, true)
    | some i => (activeSigners.getD ((i + 1) % activeSigners.length) 0, true)

/-- Lines 194-198 of `apply`: every header follows its predecessor. -/
def contiguous : List Header → Bool
  | [] => true
  | [_] => true
  | h1 :: h2 :: rest =>
    if h2.Number ≠ (h1.Number + 1) % u64 then false else contiguous (h2 :: rest)

/-- The method `apply`. -/
def Snapshot.apply (ecrecover : Header → Except Error Address) (s : Snapshot)
    (headers : List Header) : Except Error Snapshot :=
  match headers with
  | [] => Except.ok s
  | first :: _ =>
    if !contiguous headers then Except.error Error.errInvalidVotingChain
    else if first.Number ≠ (s.Number + 1) % u64 then Except.error Error.errInvalidVotingChain
    else
      match applyHeaders ecrecover s.config.Epoch s.copy headers with
      | Except.error err => Except.error err
      | Except.ok snap =>
        Except.ok { snap with
          Number := (snap.Number + headers.length) % u64
          Hash := (headers.getLast?.map Header.Hash).getD 0 }

/-- The snapshot on which the signer of `header` is checked: after the epoch
clearing and the expiry of the oldest recent signer. -/
def Snapshot.atCheck (snap : Snapshot) (epoch : Nat) (header : Header) : Snapshot :=
  (snap.clearEpoch epoch header.Number).expireRecent header.Number

/-- The snapshot after the vote of `header`, sealed by `signer`, has been cast. -/
def Snapshot.voted (snap : Snapshot) (epoch : Nat) (header : Header) (signer : Address) :
    Snapshot :=
  (({ snap.atCheck epoch header with
      Recents := (snap.atCheck epoch header).Recents.set header.Number signer }).discardPrevious
    signer header.Coinbase).tallyVote signer header (decide (header.Nonce = nonceAuthVote))

/-- Lines 131-139 of `Status` in `api.go`: the pair of `start` and `numBlocks`
for the current height `current` (the variable `end` of the source). The
subtractions are those of `uint64`. `numBlocks` is the divisor of
`InturnPercent`. -/
def statusWindow (current : Nat) : Nat × Nat :=
  let numBlocks := 64
  let start := (current + u64 - numBlocks) % u64
  if numBlocks > current then (1, (current + u64 - 1) % u64)
  else (start, numBlocks)

/-- The calls `MarkUnhealthy` for the addresses of a list, one after the other. -/
def markAllUnhealthy : Snapshot → List Address → Snapshot
  | s, [] => s
  | s, a :: rest => markAllUnhealthy (s.MarkUnhealthy a) rest

/-- The snapshot with another number and another hash. -/
def Snapshot.withPlace (s : Snapshot) (number : Nat) (hash : Poi.Hash) : Snapshot :=
  { s with Number := number, Hash := hash }

/-- The snapshot with another health map and another performance map. -/
def Snapshot.withAdvisory (s : Snapshot) (health : GoMap Address SignerHealth)
    (performance : GoMap Address Int) : Snapshot :=
  { s with Health := health, Performance := performance }

/-- The snapshot with another number, hash, health map and performance map:
the fields that one header of `apply` does not read. -/
def Snapshot.withFrame (s : Snapshot) (number : Nat) (hash : Poi.Hash)
    (health : GoMap Address SignerHealth) (performance : GoMap Address Int) : Snapshot :=
  { s with Number := number, Hash := hash, Health := health, Performance := performance }

/-! ## Predicates of the theorems -/

/-- The number of votes in `votes` whose subject is `x`. -/
def votesOn (x : Address) (votes : List Vote) : Nat :=
  votes.countP (fun v => decide (v.Address = x))

/-- A vote list and a tally are coherent under the direction `dir` that valid
votes take: every vote has the direction of its subject, an account without
tally has no vote, and a tally has the direction of its account and counts the
votes on it, of which there is at least one. -/
def Coherent (dir : Address → Bool) (votes : List Vote) (tally : GoMap Address Tally) :
    Prop :=
  (∀ v ∈ votes, v.Authorize = dir v.Address) ∧
  (∀ x, tally.get? x = none → votesOn x votes = 0) ∧
  (∀ x t, tally.get? x = some t →
    t.Authorize = dir x ∧ t.Votes = (votesOn x votes : Int) ∧ 0 < votesOn x votes)

/-- The direction of a valid vote on `x`: authorize exactly the non-signers. -/
def voteDir (signers : GoMap Address Unit) (x : Address) : Bool := !signers.has x

/-- Tally coherence of a snapshot. -/
def Snapshot.Coherent (s : Snapshot) : Prop :=
  Poi.Coherent (voteDir s.Signers) s.Votes s.Tally

/-- The number of votes in `votes` cast by `signer` on the subject `x`. -/
def votesByOn (signer x : Address) (votes : List Vote) : Nat :=
  votes.countP (fun v => decide (v.Signer = signer) && decide (v.Address = x))

/-- Every open vote was cast by a current signer. -/
def Snapshot.VotersAuthorized (s : Snapshot) : Prop :=
  ∀ v ∈ s.Votes, s.Signers.has v.Signer = true

/-- The recents window at height `n`: every key `k` of the recents satisfies
`n - K + 1 ≤ k ≤ n` with `K = len(signers)/2 + 1`, the lower bound clamped at
zero (the subtraction of natural numbers stops at zero). -/
def Snapshot.RecentsWindowAt (n : Nat) (s : Snapshot) : Prop :=
  ∀ k, s.Recents.has k = true → n + 1 - (s.Signers.len / 2 + 1) ≤ k ∧ k ≤ n

/-- The recents window of a snapshot at its own height. -/
def Snapshot.RecentsWindow (s : Snapshot) : Prop := s.RecentsWindowAt s.Number

/-- The headers are numbered `n + 1`, `n + 2`, ... -/
def numberedFrom : Nat → List Header → Prop
  | _, [] => True
  | n, header :: rest => header.Number = n + 1 ∧ numberedFrom (n + 1) rest

/-- Health and performance are well formed: the key sets of `Health` and of
`Performance` are the signer set, and the performance of every signer is not
negative. -/
def Snapshot.HealthPerfWF (s : Snapshot) : Prop :=
  (∀ a, s.Health.has a = s.Signers.has a) ∧
  (∀ a, s.Performance.has a = s.Signers.has a) ∧
  (∀ a, s.Signers.has a = true → 0 ≤ s.GetPerformance a)

/-- No two votes of the list share the same (signer, subject) pair. -/
def UniqueVotes (votes : List Vote) : Prop :=
  votes.Pairwise (fun v w => ¬ (v.Signer = w.Signer ∧ v.Address = w.Address))

/-- The snapshots reachable from a genesis snapshot by successful calls of
`apply`. -/
inductive Reachable (ecrecover : Header → Except Error Address) : Snapshot → Prop where
  | genesis (config : PoiConfig) (number : Nat) (hash : Hash) (signers : List Address) :
    Reachable ecrecover (newSnapshot config number hash signers)
  | step {S S' : Snapshot} (headers : List Header) :
    Reachable ecrecover S → S.apply ecrecover headers = Except.ok S' →
    Reachable ecrecover S'

/-- The snapshots reachable from a genesis snapshot by successful calls of
`apply`, together with the headers applied on the way, oldest first. -/
inductive ReachableBy (ecrecover : Header → Except Error Address) :
    List Header → Snapshot → Prop where
  | genesis (config : PoiConfig) (number : Nat) (hash : Hash) (signers : List Address) :
    ReachableBy ecrecover [] (newSnapshot config number hash signers)
  | step {past : List Header} {S S' : Snapshot} (headers : List Header) :
    ReachableBy ecrecover past S → S.apply ecrecover headers = Except.ok S' →
    ReachableBy ecrecover (past ++ headers) S'

/-! ## Worked examples -/

/-- A signature recovery for the worked examples: the extra-data of a header
names its sealer, `0` being a seal that cannot be recovered. -/
def recoverExtra (header : Header) : Except Error Address :=
  if header.Extra = 0 then Except.error (Error.errRecover 0) else Except.ok header.Extra

/-- The configuration of the worked examples (that of the package tests). -/
def testConfig : PoiConfig := { Period := 15, Epoch := 30000 }

/-- A header numbered `number`, sealed by `sealer`, voting `nonce` on `coinbase`. -/
def mkHeader (number : Nat) (sealer coinbase : Address) (nonce : Nat) : Header :=
  { Number := number, Coinbase := coinbase, Nonce := nonce, Extra := sealer,
    Hash := 1000 + number }

/-- The genesis snapshot of the signers `A = 1`, `B = 2`, `C = 3`. -/
def genesisABC : Snapshot := newSnapshot testConfig 0 0 [1, 2, 3]

/-- The snapshot reached from `genesisABC` by header 1, sealed by `A` with an
authorize vote on `D = 4`. -/
def afterFirstVote : Snapshot :=
  match genesisABC.apply recoverExtra [mkHeader 1 1 4 nonceAuthVote] with
  | Except.ok snap => snap
  | Except.error _ => genesisABC

/-- The genesis snapshot of the signers `A = 1`, `B = 2`, `C = 3`, `D = 4`. -/
def genesisABCD : Snapshot := newSnapshot testConfig 0 0 [1, 2, 3, 4]

/-- The snapshot reached from `genesisABCD` by header 1, in which `A` votes to
authorize `X = 9`, and headers 2 and 3, in which `B` and `C` vote to drop `A`. -/
def beforeEviction : Snapshot :=
  match genesisABCD.apply recoverExtra
      [mkHeader 1 1 9 nonceAuthVote, mkHeader 2 2 1 nonceDropVote,
       mkHeader 3 3 1 nonceDropVote] with
  | Except.ok snap => snap
  | Except.error _ => genesisABCD

/-- The snapshot reached from `beforeEviction` by header 4, in which `D` casts
the third drop vote on `A`, which evicts `A`. -/
def afterEviction : Snapshot :=
  match beforeEviction.apply recoverExtra [mkHeader 4 4 1 nonceDropVote] with
  | Except.ok snap => snap
  | Except.error _ => beforeEviction

/-- A snapshot of the signers `A`, `B`, `C` at block 2 under an epoch of 3
blocks, so that block 3 is a checkpoint. -/
def checkpointBase : Snapshot := newSnapshot { Period := 15, Epoch := 3 } 2 0 [1, 2, 3]

/-- The snapshot reached from `checkpointBase` by the checkpoint header 3,
sealed by `A` with an authorize vote on `D = 4`. -/
def afterCheckpoint : Snapshot :=
  match checkpointBase.apply recoverExtra [mkHeader 3 1 4 nonceAuthVote] with
  | Except.ok snap => snap
  | Except.error _ => checkpointBase

/-- The genesis snapshot of the single signer `A = 1`. -/
def genesisA : Snapshot := newSnapshot testConfig 0 0 [1]

/-- The genesis snapshot of the signers `A = 1`, `B = 2`. -/
def genesisAB : Snapshot := newSnapshot testConfig 0 0 [1, 2]

/-- The snapshot reached from `genesisAB` by header 1, in which `B` votes to
drop `A`, and header 2, which `A` seals with a drop vote against itself. -/
def afterSealerEvicted : Snapshot :=
  match genesisAB.apply recoverExtra
      [mkHeader 1 2 1 nonceDropVote, mkHeader 2 1 1 nonceDropVote] with
  | Except.ok snap => snap
  | Except.error _ => genesisAB

/-- The snapshot reached from `genesisABC` by headers 1 and 2, sealed by `A`
and `B` with authorize votes on `D = 4`, after which `D` is a signer. -/
def afterAdmission : Snapshot :=
  match genesisABC.apply recoverExtra
      [mkHeader 1 1 4 nonceAuthVote, mkHeader 2 2 4 nonceAuthVote] with
  | Except.ok snap => snap
  | Except.error _ => genesisABC

/-- The snapshot reached from `afterFirstVote` by header 2, sealed by `B` with
a drop vote on the stranger `0`, which is no valid vote and changes no signer. -/
def afterSecondSeal : Snapshot :=
  match afterFirstVote.apply recoverExtra [mkHeader 2 2 0 nonceDropVote] with
  | Except.ok snap => snap
  | Except.error _ => afterFirstVote

/-- The snapshot reached from `afterSecondSeal` by header 3, in which `A` votes
again to authorize `D = 4`. -/
def afterRevote : Snapshot :=
  match afterSecondSeal.apply recoverExtra [mkHeader 3 1 4 nonceAuthVote] with
  | Except.ok snap => snap
  | Except.error _ => afterSecondSeal

/-- The genesis snapshot of the signers `C = 3`, `A = 1`, `B = 2`, listed in
this order. -/
def genesisCAB : Snapshot := newSnapshot testConfig 0 0 [3, 1, 2]

/-- The first address of the package tests. -/
def addr11 : Address := 0x1111111111111111111111111111111111111111

/-- The second address of the package tests. -/
def addr22 : Address := 0x2222222222222222222222222222222222222222

/-- The third address of the package tests. -/
def addr33 : Address := 0x3333333333333333333333333333333333333333

/-- The fourth address of the package tests. -/
def addr44 : Address := 0x4444444444444444444444444444444444444444

/-- The snapshot of `TestGetActiveSigners`: four signers with the performances
50, 100, 100 and 25, the fourth marked unhealthy. -/
def activeTest : Snapshot :=
  (((((newSnapshot testConfig 0 0 [addr11, addr22, addr33, addr44]).SetPerformance
    addr11 50).1.SetPerformance addr22 100).1.SetPerformance addr33 100).1.SetPerformance
    addr44 25).1.MarkUnhealthy addr44

/-- The snapshot of `TestGetBackupSigner`: three signers with the performances
100, 50 and 25. -/
def backupTest : Snapshot :=
  ((((newSnapshot testConfig 0 0 [addr11, addr22, addr33]).SetPerformance
    addr11 100).1.SetPerformance addr22 50).1.SetPerformance addr33 25).1

/-- The snapshot of `TestGetBackupSigner` after the first signer is marked
unhealthy. -/
def backupTestOneDown : Snapshot := backupTest.MarkUnhealthy addr11

/-- The snapshot of `TestGetBackupSigner` after all signers are marked
unhealthy. -/
def backupTestAllDown : Snapshot :=
  ((backupTest.MarkUnhealthy addr11).MarkUnhealthy addr22).MarkUnhealthy addr33

/-- The snapshot of `TestSignerPerformance` and `TestSignerHealth`: the
genesis of the first two test addresses. -/
def performanceTest : Snapshot := newSnapshot testConfig 0 0 [addr11, addr22]

/-- The snapshot reached from `genesisABCD` by the four headers that end in the
eviction of `A`, in one call of `apply`. -/
def afterFourHeaders : Snapshot :=
  match genesisABCD.apply recoverExtra
      [mkHeader 1 1 9 nonceAuthVote, mkHeader 2 2 1 nonceDropVote,
       mkHeader 3 3 1 nonceDropVote, mkHeader 4 4 1 nonceDropVote] with
  | Except.ok snap => snap
  | Except.error _ => genesisABCD

/-- The snapshot `beforeEviction` with other advisory state: `A` marked
unhealthy and the performance of `B` set to 40. -/
def beforeEvictionDegraded : Snapshot :=
  ((beforeEviction.MarkUnhealthy 1).SetPerformance 2 40).1

namespace GoMap

variable {K V : Type} [DecidableEq K]

@[simp] theorem get?_empty (k : K) : (empty : GoMap K V).get? k = none := rfl

@[simp] theorem has_empty (k : K) : (empty : GoMap K V).has k = false := rfl

theorem lookupList_filter (k k' : K) (l : List (K × V)) :
    lookupList k' (l.filter (fun e => !decide (e.1 = k))) =
      if k' = k then none else lookupList k' l := by
  induction l with
  | nil => simp [lookupList]
  | cons e es ih =>
    rw [List.filter_cons]
    by_cases h : e.1 = k
    · by_cases h' : k' = k
      · simpa [h, h'] using ih
      · have hk : ¬ k = k' := fun hh => h' hh.symm
        simpa [h, h', hk, lookupList] using ih
    · by_cases h' : e.1 = k'
      · have : k' ≠ k := fun hh => h (h'.trans hh)
        simp [h, h', this, lookupList]
      · simpa [h, h', lookupList] using ih

theorem get?_delete (m : GoMap K V) (k k' : K) :
    (m.delete k).get? k' = if k' = k then none else m.get? k' :=
  lookupList_filter k k' m.entries

theorem get?_set (m : GoMap K V) (k k' : K) (v : V) :
    (m.set k v).get? k' = if k' = k then some v else m.get? k' := by
  by_cases h : k' = k
  · simp [get?, set, lookupList, h]
  · have h2 : k ≠ k' := fun hh => h hh.symm
    have := get?_delete m k k'
    simp only [get?] at this
    simp [get?, set, lookupList, h, h2, this]

@[simp] theorem get?_delete_self (m : GoMap K V) (k : K) : (m.delete k).get? k = none := by
  simp [get?_delete]

@[simp] theorem get?_set_self (m : GoMap K V) (k : K) (v : V) :
    (m.set k v).get? k = some v := by
  simp [get?_set]

theorem get?_delete_of_ne (m : GoMap K V) {k k' : K} (h : k' ≠ k) :
    (m.delete k).get? k' = m.get? k' := by
  simp [get?_delete, h]

theorem get?_set_of_ne (m : GoMap K V) {k k' : K} (v : V) (h : k' ≠ k) :
    (m.set k v).get? k' = m.get? k' := by
  simp [get?_set, h]

theorem has_delete (m : GoMap K V) (k k' : K) :
    (m.delete k).has k' = (decide (k' ≠ k) && m.has k') := by
  by_cases h : k' = k <;> simp [has, get?_delete, h]

theorem has_set (m : GoMap K V) (k k' : K) (v : V) :
    (m.set k v).has k' = (decide (k' = k) || m.has k') := by
  by_cases h : k' = k <;> simp [has, get?_set, h]

theorem lookupList_isSome (k : K) (l : List (K × V)) :
    (lookupList k l).isSome = true ↔ k ∈ l.map Prod.fst := by
  induction l with
  | nil => simp [lookupList]
  | cons e es ih =>
    by_cases h : e.1 = k
    · simp [lookupList, h]
    · have h2 : ¬ k = e.1 := fun hh => h hh.symm
      simp only [lookupList, h, if_false, ih, List.map_cons, List.mem_cons, h2, false_or]

theorem mem_keys (m : GoMap K V) (k : K) : k ∈ m.keys ↔ m.has k = true := by
  simp only [keys, List.mem_dedup, has, get?]
  exact (lookupList_isSome k m.entries).symm

theorem nodup_keys (m : GoMap K V) : m.keys.Nodup := List.nodup_dedup _

theorem len_eq_card (m : GoMap K V) : m.len = m.keys.toFinset.card := by
  rw [len, List.toFinset_card_of_nodup (nodup_keys m)]

theorem len_congr {V' : Type} (m : GoMap K V) (m' : GoMap K V')
    (h : ∀ k, m.has k = m'.has k) : m.len = m'.len := by
  rw [len_eq_card, len_eq_card]
  congr 1
  ext k
  simp only [List.mem_toFinset, mem_keys, h]

theorem keys_delete (m : GoMap K V) (k : K) :
    (m.delete k).keys.toFinset = m.keys.toFinset.erase k := by
  ext k'
  simp only [List.mem_toFinset, mem_keys, has_delete, Finset.mem_erase]
  simp

theorem keys_set (m : GoMap K V) (k : K) (v : V) :
    (m.set k v).keys.toFinset = insert k m.keys.toFinset := by
  ext k'
  simp only [List.mem_toFinset, mem_keys, has_set, Finset.mem_insert]
  simp

theorem len_delete (m : GoMap K V) (k : K) :
    (m.delete k).len = if m.has k = true then m.len - 1 else m.len := by
  rw [len_eq_card, len_eq_card, keys_delete]
  split
  · rename_i h
    rw [Finset.card_erase_of_mem]
    simpa [mem_keys] using h
  · rename_i h
    rw [Finset.erase_eq_of_not_mem]
    simpa [mem_keys] using h

theorem len_set (m : GoMap K V) (k : K) (v : V) :
    (m.set k v).len = if m.has k = true then m.len else m.len + 1 := by
  rw [len_eq_card, len_eq_card, keys_set]
  split
  · rename_i h
    rw [Finset.insert_eq_of_mem]
    simpa [mem_keys] using h
  · rename_i h
    rw [Finset.card_insert_of_not_mem]
    simpa [mem_keys] using h

theorem len_pos_of_has (m : GoMap K V) {k : K} (h : m.has k = true) : 0 < m.len := by
  rw [len]
  exact List.length_pos_of_mem ((mem_keys m k).2 h)

theorem hasValue_iff [DecidableEq V] (m : GoMap K V) (v : V) :
    m.hasValue v = true ↔ ∃ k, m.get? k = some v := by
  simp only [hasValue, List.any_eq_true, decide_eq_true_eq]
  constructor
  · rintro ⟨k, _, h⟩
    exact ⟨k, h⟩
  · rintro ⟨k, h⟩
    exact ⟨k, (mem_keys m k).2 (by simp [has, h]), h⟩

end GoMap

/-! ## Frame lemmas: which fields an operation leaves alone -/

namespace Snapshot

@[simp] theorem uncast_config (s : Snapshot) (a : Address) (b : Bool) :
    (s.uncast a b).1.config = s.config := by
  unfold Snapshot.uncast
  split
  · rfl
  · split_ifs <;> rfl

@[simp] theorem cast_config (s : Snapshot) (a : Address) (b : Bool) :
    (s.cast a b).1.config = s.config := by
  unfold Snapshot.cast
  split
  · rfl
  · split <;> rfl

@[simp] theorem uncast_Number (s : Snapshot) (a : Address) (b : Bool) :
    (s.uncast a b).1.Number = s.Number := by
  unfold Snapshot.uncast
  split
  · rfl
  · split_ifs <;> rfl

@[simp] theorem cast_Number (s : Snapshot) (a : Address) (b : Bool) :
    (s.cast a b).1.Number = s.Number := by
  unfold Snapshot.cast
  split
  · rfl
  · split <;> rfl

@[simp] theorem uncast_Hash (s : Snapshot) (a : Address) (b : Bool) :
    (s.uncast a b).1.Hash = s.Hash := by
  unfold Snapshot.uncast
  split
  · rfl
  · split_ifs <;> rfl

@[simp] theorem cast_Hash (s : Snapshot) (a : Address) (b : Bool) :
    (s.cast a b).1.Hash = s.Hash := by
  unfold Snapshot.cast
  split
  · rfl
  · split <;> rfl

@[simp] theorem uncast_Signers (s : Snapshot) (a : Address) (b : Bool) :
    (s.uncast a b).1.Signers = s.Signers := by
  unfold Snapshot.uncast
  split
  · rfl
  · split_ifs <;> rfl

@[simp] theorem cast_Signers (s : Snapshot) (a : Address) (b : Bool) :
    (s.cast a b).1.Signers = s.Signers := by
  unfold Snapshot.cast
  split
  · rfl
  · split <;> rfl

@[simp] theorem uncast_Recents (s : Snapshot) (a : Address) (b : Bool) :
    (s.uncast a b).1.Recents = s.Recents := by
  unfold Snapshot.uncast
  split
  · rfl
  · split_ifs <;> rfl

@[simp] theorem cast_Recents (s : Snapshot) (a : Address) (b : Bool) :
    (s.cast a b).1.Recents = s.Recents := by
  unfold Snapshot.cast
  split
  · rfl
  · split <;> rfl

@[simp] theorem uncast_Votes (s : Snapshot) (a : Address) (b : Bool) :
    (s.uncast a b).1.Votes = s.Votes := by
  unfold Snapshot.uncast
  split
  · rfl
  · split_ifs <;> rfl

@[simp] theorem cast_Votes (s : Snapshot) (a : Address) (b : Bool) :
    (s.cast a b).1.Votes = s.Votes := by
  unfold Snapshot.cast
  split
  · rfl
  · split <;> rfl

@[simp] theorem uncast_Health (s : Snapshot) (a : Address) (b : Bool) :
    (s.uncast a b).1.Health = s.Health := by
  unfold Snapshot.uncast
  split
  · rfl
  · split_ifs <;> rfl

@[simp] theorem cast_Health (s : Snapshot) (a : Address) (b : Bool) :
    (s.cast a b).1.Health = s.Health := by
  unfold Snapshot.cast
  split
  · rfl
  · split <;> rfl

@[simp] theorem uncast_Performance (s : Snapshot) (a : Address) (b : Bool) :
    (s.uncast a b).1.Performance = s.Performance := by
  unfold Snapshot.uncast
  split
  · rfl
  · split_ifs <;> rfl

@[simp] theorem cast_Performance (s : Snapshot) (a : Address) (b : Bool) :
    (s.cast a b).1.Performance = s.Performance := by
  unfold Snapshot.cast
  split
  · rfl
  · split <;> rfl

@[simp] theorem expireRecent_config (s : Snapshot) (n : Nat) :
    (s.expireRecent n).config = s.config := by
  unfold Snapshot.expireRecent
  simp only []
  split <;> rfl

@[simp] theorem expireRecent_Number (s : Snapshot) (n : Nat) :
    (s.expireRecent n).Number = s.Number := by
  unfold Snapshot.expireRecent
  simp only []
  split <;> rfl

@[simp] theorem expireRecent_Hash (s : Snapshot) (n : Nat) :
    (s.expireRecent n).Hash = s.Hash := by
  unfold Snapshot.expireRecent
  simp only []
  split <;> rfl

@[simp] theorem expireRecent_Signers (s : Snapshot) (n : Nat) :
    (s.expireRecent n).Signers = s.Signers := by
  unfold Snapshot.expireRecent
  simp only []
  split <;> rfl

@[simp] theorem expireRecent_Votes (s : Snapshot) (n : Nat) :
    (s.expireRecent n).Votes = s.Votes := by
  unfold Snapshot.expireRecent
  simp only []
  split <;> rfl

@[simp] theorem expireRecent_Tally (s : Snapshot) (n : Nat) :
    (s.expireRecent n).Tally = s.Tally := by
  unfold Snapshot.expireRecent
  simp only []
  split <;> rfl

@[simp] theorem expireRecent_Health (s : Snapshot) (n : Nat) :
    (s.expireRecent n).Health = s.Health := by
  unfold Snapshot.expireRecent
  simp only []
  split <;> rfl

@[simp] theorem expireRecent_Performance (s : Snapshot) (n : Nat) :
    (s.expireRecent n).Performance = s.Performance := by
  unfold Snapshot.expireRecent
  simp only []
  split <;> rfl

@[simp] theorem discardPrevious_config (s : Snapshot) (a c : Address) :
    (s.discardPrevious a c).config = s.config := by
  unfold Snapshot.discardPrevious
  split
  · rfl
  · simp

@[simp] theorem discardPrevious_Number (s : Snapshot) (a c : Address) :
    (s.discardPrevious a c).Number = s.Number := by
  unfold Snapshot.discardPrevious
  split
  · rfl
  · simp

@[simp] theorem discardPrevious_Hash (s : Snapshot) (a c : Address) :
    (s.discardPrevious a c).Hash = s.Hash := by
  unfold Snapshot.discardPrevious
  split
  · rfl
  · simp

@[simp] theorem discardPrevious_Signers (s : Snapshot) (a c : Address) :
    (s.discardPrevious a c).Signers = s.Signers := by
  unfold Snapshot.discardPrevious
  split
  · rfl
  · simp

@[simp] theorem discardPrevious_Recents (s : Snapshot) (a c : Address) :
    (s.discardPrevious a c).Recents = s.Recents := by
  unfold Snapshot.discardPrevious
  split
  · rfl
  · simp

@[simp] theorem discardPrevious_Health (s : Snapshot) (a c : Address) :
    (s.discardPrevious a c).Health = s.Health := by
  unfold Snapshot.discardPrevious
  split
  · rfl
  · simp

@[simp] theorem discardPrevious_Performance (s : Snapshot) (a c : Address) :
    (s.discardPrevious a c).Performance = s.Performance := by
  unfold Snapshot.discardPrevious
  split
  · rfl
  · simp

@[simp] theorem clearEpoch_config (s : Snapshot) (e n : Nat) :
    (s.clearEpoch e n).config = s.config := by
  unfold Snapshot.clearEpoch
  split <;> rfl

@[simp] theorem tallyVote_config (s : Snapshot) (a : Address) (h : Header) (b : Bool) :
    (s.tallyVote a h b).config = s.config := by
  unfold Snapshot.tallyVote
  simp only []
  split <;> simp

@[simp] theorem clearEpoch_Number (s : Snapshot) (e n : Nat) :
    (s.clearEpoch e n).Number = s.Number := by
  unfold Snapshot.clearEpoch
  split <;> rfl

@[simp] theorem tallyVote_Number (s : Snapshot) (a : Address) (h : Header) (b : Bool) :
    (s.tallyVote a h b).Number = s.Number := by
  unfold Snapshot.tallyVote
  simp only []
  split <;> simp

@[simp] theorem clearEpoch_Hash (s : Snapshot) (e n : Nat) :
    (s.clearEpoch e n).Hash = s.Hash := by
  unfold Snapshot.clearEpoch
  split <;> rfl

@[simp] theorem tallyVote_Hash (s : Snapshot) (a : Address) (h : Header) (b : Bool) :
    (s.tallyVote a h b).Hash = s.Hash := by
  unfold Snapshot.tallyVote
  simp only []
  split <;> simp

@[simp] theorem clearEpoch_Signers (s : Snapshot) (e n : Nat) :
    (s.clearEpoch e n).Signers = s.Signers := by
  unfold Snapshot.clearEpoch
  split <;> rfl

@[simp] theorem tallyVote_Signers (s : Snapshot) (a : Address) (h : Header) (b : Bool) :
    (s.tallyVote a h b).Signers = s.Signers := by
  unfold Snapshot.tallyVote
  simp only []
  split <;> simp

@[simp] theorem clearEpoch_Recents (s : Snapshot) (e n : Nat) :
    (s.clearEpoch e n).Recents = s.Recents := by
  unfold Snapshot.clearEpoch
  split <;> rfl

@[simp] theorem tallyVote_Recents (s : Snapshot) (a : Address) (h : Header) (b : Bool) :
    (s.tallyVote a h b).Recents = s.Recents := by
  unfold Snapshot.tallyVote
  simp only []
  split <;> simp

@[simp] theorem clearEpoch_Health (s : Snapshot) (e n : Nat) :
    (s.clearEpoch e n).Health = s.Health := by
  unfold Snapshot.clearEpoch
  split <;> rfl

@[simp] theorem tallyVote_Health (s : Snapshot) (a : Address) (h : Header) (b : Bool) :
    (s.tallyVote a h b).Health = s.Health := by
  unfold Snapshot.tallyVote
  simp only []
  split <;> simp

@[simp] theorem clearEpoch_Performance (s : Snapshot) (e n : Nat) :
    (s.clearEpoch e n).Performance = s.Performance := by
  unfold Snapshot.clearEpoch
  split <;> rfl

@[simp] theorem tallyVote_Performance (s : Snapshot) (a : Address) (h : Header) (b : Bool) :
    (s.tallyVote a h b).Performance = s.Performance := by
  unfold Snapshot.tallyVote
  simp only []
  split <;> simp

end Snapshot

@[simp] theorem purgeCastBy_config (a : Address) (vs : List Vote) (s : Snapshot) :
    (purgeCastBy a vs s).2.config = s.config := by
  induction vs generalizing s with
  | nil => rfl
  | cons v vs ih =>
    unfold purgeCastBy
    split
    · rw [ih]; simp
    · exact ih s

@[simp] theorem purgeCastBy_Number (a : Address) (vs : List Vote) (s : Snapshot) :
    (purgeCastBy a vs s).2.Number = s.Number := by
  induction vs generalizing s with
  | nil => rfl
  | cons v vs ih =>
    unfold purgeCastBy
    split
    · rw [ih]; simp
    · exact ih s

@[simp] theorem purgeCastBy_Hash (a : Address) (vs : List Vote) (s : Snapshot) :
    (purgeCastBy a vs s).2.Hash = s.Hash := by
  induction vs generalizing s with
  | nil => rfl
  | cons v vs ih =>
    unfold purgeCastBy
    split
    · rw [ih]; simp
    · exact ih s

@[simp] theorem purgeCastBy_Signers (a : Address) (vs : List Vote) (s : Snapshot) :
    (purgeCastBy a vs s).2.Signers = s.Signers := by
  induction vs generalizing s with
  | nil => rfl
  | cons v vs ih =>
    unfold purgeCastBy
    split
    · rw [ih]; simp
    · exact ih s

@[simp] theorem purgeCastBy_Recents (a : Address) (vs : List Vote) (s : Snapshot) :
    (purgeCastBy a vs s).2.Recents = s.Recents := by
  induction vs generalizing s with
  | nil => rfl
  | cons v vs ih =>
    unfold purgeCastBy
    split
    · rw [ih]; simp
    · exact ih s

@[simp] theorem purgeCastBy_Health (a : Address) (vs : List Vote) (s : Snapshot) :
    (purgeCastBy a vs s).2.Health = s.Health := by
  induction vs generalizing s with
  | nil => rfl
  | cons v vs ih =>
    unfold purgeCastBy
    split
    · rw [ih]; simp
    · exact ih s

@[simp] theorem purgeCastBy_Performance (a : Address) (vs : List Vote) (s : Snapshot) :
    (purgeCastBy a vs s).2.Performance = s.Performance := by
  induction vs generalizing s with
  | nil => rfl
  | cons v vs ih =>
    unfold purgeCastBy
    split
    · rw [ih]; simp
    · exact ih s

/-! ## The shape of one step of `apply` -/

theorem Snapshot.castHeader_eq {ecrecover : Header → Except Error Address} {epoch : Nat}
    (snap : Snapshot) {header : Header} {signer : Address} (hE : epoch ≠ 0)
    (hrec : ecrecover header = Except.ok signer) :
    snap.castHeader ecrecover epoch header =
      if snap.Signers.has signer = false then Except.error Error.errUnauthorizedSigner
      else if (snap.atCheck epoch header).Recents.hasValue signer = true then
        Except.error Error.errRecentlySigned
      else if header.Nonce ≠ nonceAuthVote ∧ header.Nonce ≠ nonceDropVote then
        Except.error Error.errInvalidVote
      else Except.ok (snap.voted epoch header signer) := by
  have hS : (snap.atCheck epoch header).Signers = snap.Signers := by
    simp [Snapshot.atCheck]
  rw [← hS]
  unfold Snapshot.castHeader
  simp only [hE, if_false, hrec]
  by_cases h1 : (snap.atCheck epoch header).Signers.has signer = true
  · have h1' := h1
    unfold Snapshot.atCheck at h1'
    simp only [h1, h1', Bool.not_true, Bool.false_eq_true, if_false]
    rfl
  · simp only [Bool.not_eq_true] at h1
    have h1' := h1
    unfold Snapshot.atCheck at h1'
    simp only [h1, h1', Bool.not_false, if_true]

theorem Snapshot.castHeader_ok {ecrecover : Header → Except Error Address} {epoch : Nat}
    {snap mid : Snapshot} {header : Header}
    (h : snap.castHeader ecrecover epoch header = Except.ok mid) :
    epoch ≠ 0 ∧ ∃ signer, ecrecover header = Except.ok signer ∧
      snap.Signers.has signer = true ∧
      (snap.atCheck epoch header).Recents.hasValue signer = false ∧
      (header.Nonce = nonceAuthVote ∨ header.Nonce = nonceDropVote) ∧
      mid = snap.voted epoch header signer := by
  have hE : epoch ≠ 0 := by
    intro h0
    simp [Snapshot.castHeader, h0] at h
  refine ⟨hE, ?_⟩
  cases hrec : ecrecover header with
  | error err => simp [Snapshot.castHeader, hE, hrec] at h
  | ok signer =>
    rw [Snapshot.castHeader_eq snap hE hrec] at h
    refine ⟨signer, rfl, ?_⟩
    split_ifs at h with h1 h2 h3
    · simp only [Bool.not_eq_false] at h1
      simp only [Bool.not_eq_true] at h2
      refine ⟨h1, h2, ?_, ?_⟩
      · by_cases ha : header.Nonce = nonceAuthVote
        · exact Or.inl ha
        · by_cases hd : header.Nonce = nonceDropVote
          · exact Or.inr hd
          · exact absurd ⟨ha, hd⟩ h3
      · injection h with h
        exact h.symm

theorem Snapshot.applyHeader_ok {ecrecover : Header → Except Error Address} {epoch : Nat}
    {snap next : Snapshot} {header : Header}
    (h : snap.applyHeader ecrecover epoch header = Except.ok next) :
    ∃ mid, snap.castHeader ecrecover epoch header = Except.ok mid ∧
      next = mid.resolve header := by
  unfold Snapshot.applyHeader at h
  split at h
  · cases h
  · rename_i mid hmid
    injection h with h
    exact ⟨mid, hmid, h.symm⟩

theorem Snapshot.apply_single (ecrecover : Header → Except Error Address) (s : Snapshot)
    (header : Header) :
    s.apply ecrecover [header] =
      if header.Number ≠ (s.Number + 1) % u64 then Except.error Error.errInvalidVotingChain
      else
        match s.applyHeader ecrecover s.config.Epoch header with
        | Except.error err => Except.error err
        | Except.ok snap =>
          Except.ok { snap with Number := (snap.Number + 1) % u64, Hash := header.Hash } := by
  unfold Snapshot.apply
  simp only [contiguous, Bool.not_true, Bool.false_eq_true, if_false, applyHeaders,
    Snapshot.copy]
  split
  · rfl
  · cases hh : s.applyHeader ecrecover s.config.Epoch header <;> simp [hh]

theorem Snapshot.atCheck_Signers (snap : Snapshot) (epoch : Nat) (header : Header) :
    (snap.atCheck epoch header).Signers = snap.Signers := by
  simp [Snapshot.atCheck]

theorem Snapshot.atCheck_Recents (snap : Snapshot) (epoch : Nat) (header : Header) :
    (snap.atCheck epoch header).Recents =
      if snap.Signers.len / 2 + 1 ≤ header.Number then
        snap.Recents.delete (header.Number - (snap.Signers.len / 2 + 1))
      else snap.Recents := by
  unfold Snapshot.atCheck Snapshot.expireRecent
  simp only [Snapshot.clearEpoch_Signers, Snapshot.clearEpoch_Recents, ge_iff_le]
  split <;> simp

theorem Snapshot.voted_Recents (snap : Snapshot) (epoch : Nat) (header : Header)
    (signer : Address) :
    (snap.voted epoch header signer).Recents =
      (snap.atCheck epoch header).Recents.set header.Number signer := by
  simp [Snapshot.voted]

theorem Snapshot.voted_Signers (snap : Snapshot) (epoch : Nat) (header : Header)
    (signer : Address) : (snap.voted epoch header signer).Signers = snap.Signers := by
  simp [Snapshot.voted, Snapshot.atCheck]

theorem Snapshot.expireRecent_get? (s : Snapshot) (n k : Nat) :
    (s.expireRecent n).Recents.get? k =
      if s.Signers.len / 2 + 1 ≤ n ∧ k = n - (s.Signers.len / 2 + 1) then none
      else s.Recents.get? k := by
  unfold Snapshot.expireRecent
  simp only [ge_iff_le]
  by_cases h : s.Signers.len / 2 + 1 ≤ n
  · simp [h, GoMap.get?_delete]
  · simp [h]

theorem Snapshot.expireRecent_get?_of_le (s : Snapshot) {n k : Nat} (h : n ≤ k) :
    (s.expireRecent n).Recents.get? k = s.Recents.get? k := by
  rw [Snapshot.expireRecent_get?]
  split
  · omega
  · rfl

theorem Snapshot.evict_Signers (snap : Snapshot) (header : Header) :
    (snap.evict header).Signers = snap.Signers.delete header.Coinbase := by
  simp [Snapshot.evict]

theorem Snapshot.evict_Health (snap : Snapshot) (header : Header) :
    (snap.evict header).Health = snap.Health.delete header.Coinbase := by
  simp [Snapshot.evict]

theorem Snapshot.evict_Performance (snap : Snapshot) (header : Header) :
    (snap.evict header).Performance = snap.Performance.delete header.Coinbase := by
  simp [Snapshot.evict]

theorem purgeCastBy_fst (a : Address) (vs : List Vote) (s : Snapshot) :
    (purgeCastBy a vs s).1 = vs.filter (fun vote => !decide (vote.Signer = a)) := by
  induction vs generalizing s with
  | nil => rfl
  | cons v vs ih =>
    unfold purgeCastBy
    by_cases h : v.Signer = a
    · simp [h, ih]
    · simp [h, ih]

theorem Snapshot.evict_Votes (snap : Snapshot) (header : Header) :
    (snap.evict header).Votes =
      snap.Votes.filter (fun vote => !decide (vote.Signer = header.Coinbase)) := by
  simp only [Snapshot.evict, Snapshot.expireRecent_Votes, purgeCastBy_fst]

theorem Snapshot.evict_Recents (snap : Snapshot) (header : Header) :
    (snap.evict header).Recents =
      ({ snap with Signers := snap.Signers.delete header.Coinbase }.expireRecent
        header.Number).Recents := by
  simp only [Snapshot.evict, purgeCastBy_Recents]
  unfold Snapshot.expireRecent
  simp only []
  split <;> rfl

theorem Snapshot.resolve_Recents_get?_of_le (snap : Snapshot) (header : Header) {k : Nat}
    (h : header.Number ≤ k) :
    (snap.resolve header).Recents.get? k = snap.Recents.get? k := by
  unfold Snapshot.resolve
  simp only []
  split
  · split
    · rfl
    · show (snap.evict header).Recents.get? k = _
      rw [Snapshot.evict_Recents, Snapshot.expireRecent_get?_of_le _ h]
  · rfl

/-! ## Tally coherence -/

theorem Snapshot.uncast_Tally (s : Snapshot) (a : Address) (b : Bool) :
    (s.uncast a b).1.Tally =
      match s.Tally.get? a with
      | none => s.Tally
      | some t =>
        if t.Authorize ≠ b then s.Tally
        else if t.Votes > 1 then s.Tally.set a { t with Votes := t.Votes - 1 }
        else s.Tally.delete a := by
  unfold Snapshot.uncast
  split
  · rfl
  · split_ifs <;> rfl

theorem Snapshot.validVote_iff (s : Snapshot) (a : Address) (b : Bool) :
    s.validVote a b = true ↔ b = voteDir s.Signers a := by
  unfold Snapshot.validVote voteDir
  cases s.Signers.has a <;> cases b <;> simp

theorem Snapshot.cast_Tally (s : Snapshot) (a : Address) (b : Bool) :
    (s.cast a b).1.Tally =
      if s.validVote a b = true then
        match s.Tally.get? a with
        | some old => s.Tally.set a { old with Votes := old.Votes + 1 }
        | none => s.Tally.set a { Authorize := b, Votes := 1 }
      else s.Tally := by
  unfold Snapshot.cast
  cases hv : s.validVote a b
  · simp
  · simp only [Bool.not_true, Bool.false_eq_true, if_false, if_true]
    split <;> rfl

theorem Snapshot.cast_snd (s : Snapshot) (a : Address) (b : Bool) :
    (s.cast a b).2 = s.validVote a b := by
  unfold Snapshot.cast
  cases hv : s.validVote a b
  · simp
  · simp only [Bool.not_true, Bool.false_eq_true, if_false]
    split <;> rfl

theorem find?_eraseP_split {α : Type} (p : α → Bool) :
    ∀ (l : List α) (v : α), l.find? p = some v →
      p v = true ∧ ∃ l₁ l₂, l = l₁ ++ v :: l₂ ∧ l.eraseP p = l₁ ++ l₂
  | [], v, h => by simp at h
  | a :: l, v, h => by
    cases hp : p a
    · rw [List.find?_cons, hp] at h
      obtain ⟨hv, l₁, l₂, h1, h2⟩ := find?_eraseP_split p l v h
      refine ⟨hv, a :: l₁, l₂, by simp [h1], ?_⟩
      rw [List.eraseP_cons_of_neg (by simp [hp]), h2]
      rfl
    · rw [List.find?_cons, hp] at h
      injection h with h
      subst h
      exact ⟨hp, [], l, rfl, by simp [hp]⟩

theorem votesOn_cons (x : Address) (v : Vote) (votes : List Vote) :
    votesOn x (v :: votes) = votesOn x votes + if v.Address = x then 1 else 0 := by
  unfold votesOn
  rw [List.countP_cons]
  simp

theorem votesOn_append (x : Address) (l₁ l₂ : List Vote) :
    votesOn x (l₁ ++ l₂) = votesOn x l₁ + votesOn x l₂ := by
  unfold votesOn
  rw [List.countP_append]

theorem votesOn_pos_iff (x : Address) (votes : List Vote) :
    0 < votesOn x votes ↔ ∃ v ∈ votes, v.Address = x := by
  unfold votesOn
  simp [List.countP_pos_iff]

theorem votesOn_eq_zero_iff (x : Address) (votes : List Vote) :
    votesOn x votes = 0 ↔ ∀ v ∈ votes, v.Address ≠ x := by
  unfold votesOn
  simp [List.countP_eq_zero]

theorem Coherent.perm {dir : Address → Bool} {votes votes' : List Vote}
    {tally : GoMap Address Tally} (hp : votes.Perm votes')
    (h : Coherent dir votes tally) : Coherent dir votes' tally := by
  have hc : ∀ x, votesOn x votes' = votesOn x votes := fun x =>
    (hp.countP_eq _).symm
  refine ⟨fun v hv => h.1 v (hp.mem_iff.2 hv), fun x hx => ?_, fun x t hx => ?_⟩
  · rw [hc]; exact h.2.1 x hx
  · rw [hc]; exact h.2.2 x t hx

/-- Removing a vote from the list and uncasting it keeps the tally coherent. -/
theorem Coherent.uncast_cons {dir : Address → Bool} {v : Vote} {votes : List Vote}
    (s : Snapshot) (h : Coherent dir (v :: votes) s.Tally) :
    Coherent dir votes (s.uncast v.Address v.Authorize).1.Tally := by
  obtain ⟨h1, h2, h3⟩ := h
  have hv : v.Authorize = dir v.Address := h1 v (List.mem_cons_self _ _)
  have hcount : votesOn v.Address (v :: votes) = votesOn v.Address votes + 1 := by
    simp [votesOn_cons]
  cases ht : s.Tally.get? v.Address with
  | none =>
    have := h2 _ ht
    omega
  | some t =>
    obtain ⟨ha, hn, _⟩ := h3 _ _ ht
    have hne : ¬ (t.Authorize ≠ v.Authorize) := by simp [ha, hv]
    rw [Snapshot.uncast_Tally, ht]
    simp only [hne, if_false]
    refine ⟨fun w hw => h1 w (List.mem_cons_of_mem _ hw), ?_, ?_⟩
    · intro x hx
      by_cases hxa : x = v.Address
      · subst hxa
        split_ifs at hx with hgt
        · simp at hx
        · rw [hcount] at hn
          push_cast at hn
          omega
      · have hx' : s.Tally.get? x = none := by
          split_ifs at hx
          · rwa [GoMap.get?_set_of_ne _ _ hxa] at hx
          · rwa [GoMap.get?_delete_of_ne _ hxa] at hx
        have := h2 x hx'
        rw [votesOn_cons] at this
        omega
    · intro x t' hx
      by_cases hxa : x = v.Address
      · subst hxa
        split_ifs at hx with hgt
        · rw [GoMap.get?_set_self] at hx
          injection hx with hx
          subst hx
          rw [hcount] at hn
          push_cast at hn
          refine ⟨ha, ?_, ?_⟩
          · show t.Votes - 1 = _
            omega
          · omega
        · simp at hx
      · have hx' : s.Tally.get? x = some t' := by
          split_ifs at hx
          · rwa [GoMap.get?_set_of_ne _ _ hxa] at hx
          · rwa [GoMap.get?_delete_of_ne _ hxa] at hx
        have := h3 x t' hx'
        rw [votesOn_cons] at this
        have hne' : ¬ v.Address = x := fun hh => hxa hh.symm
        simpa [hne'] using this

theorem Snapshot.discardPrevious_coherent {dir : Address → Bool} (s : Snapshot)
    (a c : Address) (h : Poi.Coherent dir s.Votes s.Tally) :
    Poi.Coherent dir (s.discardPrevious a c).Votes (s.discardPrevious a c).Tally := by
  unfold Snapshot.discardPrevious
  split
  · exact h
  · rename_i vote hfind
    obtain ⟨_, l₁, l₂, hl, he⟩ := find?_eraseP_split _ _ _ hfind
    simp only [he]
    apply Coherent.uncast_cons
    exact Coherent.perm (by rw [hl]; exact List.perm_middle) h

theorem Snapshot.tallyVote_Votes (s : Snapshot) (signer : Address) (header : Header)
    (b : Bool) :
    (s.tallyVote signer header b).Votes =
      if s.validVote header.Coinbase b = true then
        s.Votes ++ [Vote.mk signer header.Number header.Coinbase b]
      else s.Votes := by
  unfold Snapshot.tallyVote
  simp only [Snapshot.cast_snd]
  split <;> simp

theorem Snapshot.tallyVote_Tally (s : Snapshot) (signer : Address) (header : Header)
    (b : Bool) :
    (s.tallyVote signer header b).Tally = (s.cast header.Coinbase b).1.Tally := by
  unfold Snapshot.tallyVote
  simp only []
  split <;> rfl

theorem Snapshot.tallyVote_coherent (s : Snapshot) (signer : Address) (header : Header)
    (b : Bool) (h : s.Coherent) : (s.tallyVote signer header b).Coherent := by
  unfold Snapshot.Coherent at h ⊢
  rw [Snapshot.tallyVote_Signers, Snapshot.tallyVote_Votes, Snapshot.tallyVote_Tally,
    Snapshot.cast_Tally]
  by_cases hv : s.validVote header.Coinbase b = true
  · simp only [hv, if_true]
    have hb : b = voteDir s.Signers header.Coinbase := (Snapshot.validVote_iff _ _ _).1 hv
    obtain ⟨h1, h2, h3⟩ := h
    have hcount : ∀ x, votesOn x (s.Votes ++ [Vote.mk signer header.Number header.Coinbase b]) =
        votesOn x s.Votes + if header.Coinbase = x then 1 else 0 := by
      intro x
      rw [votesOn_append, votesOn_cons]
      simp [votesOn]
    refine ⟨?_, ?_, ?_⟩
    · intro v hv'
      rcases List.mem_append.1 hv' with hv' | hv'
      · exact h1 v hv'
      · simp only [List.mem_singleton] at hv'
        subst hv'
        exact hb
    · intro x hx
      by_cases hxa : x = header.Coinbase
      · subst hxa
        split at hx <;> simp at hx
      · have hx' : s.Tally.get? x = none := by
          split at hx <;> rwa [GoMap.get?_set_of_ne _ _ hxa] at hx
        have hne : ¬ header.Coinbase = x := fun hh => hxa hh.symm
        rw [hcount, h2 x hx']
        simp [hne]
    · intro x t hx
      by_cases hxa : x = header.Coinbase
      · subst hxa
        rw [hcount]
        simp only [if_true]
        split at hx
        · rename_i old hold
          rw [GoMap.get?_set_self] at hx
          injection hx with hx
          subst hx
          obtain ⟨ha, hn, hp⟩ := h3 _ _ hold
          refine ⟨ha, ?_, by omega⟩
          show old.Votes + 1 = _
          push_cast
          omega
        · rename_i hnone
          rw [GoMap.get?_set_self] at hx
          injection hx with hx
          subst hx
          have := h2 _ hnone
          refine ⟨hb, ?_, by omega⟩
          show (1 : Int) = _
          rw [this]
          rfl
      · have hx' : s.Tally.get? x = some t := by
          split at hx <;> rwa [GoMap.get?_set_of_ne _ _ hxa] at hx
        have hne : ¬ header.Coinbase = x := fun hh => hxa hh.symm
        rw [hcount]
        simpa [hne] using h3 x t hx'
  · simp only [hv, if_false]
    exact h

theorem votesOn_filter_subject (x c : Address) (votes : List Vote) :
    votesOn x (votes.filter (fun vote => !decide (vote.Address = c))) =
      if x = c then 0 else votesOn x votes := by
  induction votes with
  | nil => simp [votesOn]
  | cons v vs ih =>
    rw [List.filter_cons]
    by_cases hv : v.Address = c
    · simp only [hv, decide_True, Bool.not_true, Bool.false_eq_true, if_false, ih, votesOn_cons]
      by_cases hx : x = c
      · simp [hx]
      · have : ¬ c = x := fun hh => hx hh.symm
        simp [hx, this]
    · simp only [hv, decide_False, Bool.not_false, if_true, votesOn_cons, ih]
      by_cases hx : x = c
      · have : ¬ v.Address = x := fun hh => hv (hh.trans hx)
        simp [hx, this]
        intro hh
        exact absurd (hh.trans hx.symm ▸ hh) hv
      · simp [hx]

/-- Dropping the votes on `c` together with the tally of `c` keeps coherence,
also under a direction that changed at `c` only. -/
theorem Coherent.purge_subject {dir dir' : Address → Bool} {votes : List Vote}
    {tally : GoMap Address Tally} (c : Address) (hd : ∀ x, x ≠ c → dir' x = dir x)
    (h : Coherent dir votes tally) :
    Coherent dir' (votes.filter (fun vote => !decide (vote.Address = c))) (tally.delete c) := by
  obtain ⟨h1, h2, h3⟩ := h
  refine ⟨?_, ?_, ?_⟩
  · intro v hv
    simp only [List.mem_filter, Bool.not_eq_true', decide_eq_false_iff_not] at hv
    rw [hd _ hv.2]
    exact h1 v hv.1
  · intro x hx
    rw [votesOn_filter_subject]
    by_cases hxc : x = c
    · simp [hxc]
    · simp only [hxc, if_false]
      rw [GoMap.get?_delete_of_ne _ hxc] at hx
      exact h2 x hx
  · intro x t hx
    by_cases hxc : x = c
    · subst hxc
      simp at hx
    · rw [GoMap.get?_delete_of_ne _ hxc] at hx
      rw [votesOn_filter_subject, hd x hxc]
      simpa [hxc] using h3 x t hx

theorem purgeCastBy_coherent {dir : Address → Bool} (a : Address) :
    ∀ (vs pre : List Vote) (s : Snapshot), Coherent dir (pre ++ vs) s.Tally →
      Coherent dir (pre ++ (purgeCastBy a vs s).1) (purgeCastBy a vs s).2.Tally
  | [], pre, s, h => by simpa [purgeCastBy] using h
  | v :: vs, pre, s, h => by
    unfold purgeCastBy
    split
    · apply purgeCastBy_coherent a vs pre
      apply Coherent.uncast_cons
      exact Coherent.perm List.perm_middle h
    · have := purgeCastBy_coherent a vs (pre ++ [v]) s (by simpa using h)
      simpa using this

theorem Snapshot.evict_coherent {dir : Address → Bool} (snap : Snapshot) (header : Header)
    (h : Poi.Coherent dir snap.Votes snap.Tally) :
    Poi.Coherent dir (snap.evict header).Votes (snap.evict header).Tally := by
  unfold Snapshot.evict
  simp only [Snapshot.expireRecent_Votes]
  have := @purgeCastBy_coherent dir header.Coinbase snap.Votes []
    ({ snap with
        Signers := snap.Signers.delete header.Coinbase
        Health := snap.Health.delete header.Coinbase
        Performance := snap.Performance.delete header.Coinbase }.expireRecent header.Number)
    (by simpa using h)
  simpa using this

theorem voteDir_set_of_ne (signers : GoMap Address Unit) {c x : Address} (h : x ≠ c) :
    voteDir (signers.set c ()) x = voteDir signers x := by
  simp [voteDir, GoMap.has_set, h]

theorem voteDir_delete_of_ne (signers : GoMap Address Unit) {c x : Address} (h : x ≠ c) :
    voteDir (signers.delete c) x = voteDir signers x := by
  simp [voteDir, GoMap.has_delete, h]

theorem Snapshot.resolve_coherent (snap : Snapshot) (header : Header) (h : snap.Coherent) :
    (snap.resolve header).Coherent := by
  unfold Snapshot.resolve
  simp only []
  split
  · split
    · exact @Coherent.purge_subject (voteDir snap.Signers) _ _ _ header.Coinbase
        (fun x hx => voteDir_set_of_ne _ hx) h
    · unfold Snapshot.Coherent Snapshot.purgeSubject
      simp only [Snapshot.evict_Signers]
      exact @Coherent.purge_subject (voteDir snap.Signers) _ _ _ header.Coinbase
        (fun x hx => voteDir_delete_of_ne _ hx) (Snapshot.evict_coherent snap header h)
  · exact h

theorem Snapshot.clearEpoch_coherent (snap : Snapshot) (epoch number : Nat)
    (h : snap.Coherent) : (snap.clearEpoch epoch number).Coherent := by
  unfold Snapshot.clearEpoch
  split
  · refine ⟨?_, ?_, ?_⟩
    · intro v hv
      simp at hv
    · intro x _
      rfl
    · intro x t hx
      simp at hx
  · exact h

theorem Snapshot.voted_coherent (snap : Snapshot) (epoch : Nat) (header : Header)
    (signer : Address) (h : snap.Coherent) : (snap.voted epoch header signer).Coherent := by
  unfold Snapshot.voted
  apply Snapshot.tallyVote_coherent
  unfold Snapshot.Coherent
  rw [Snapshot.discardPrevious_Signers]
  apply Snapshot.discardPrevious_coherent
  have := Snapshot.clearEpoch_coherent snap epoch header.Number h
  unfold Snapshot.Coherent at this
  simpa [Snapshot.atCheck] using this

theorem Snapshot.applyHeader_coherent {ecrecover : Header → Except Error Address}
    {epoch : Nat} {snap next : Snapshot} {header : Header} (h : snap.Coherent)
    (hok : snap.applyHeader ecrecover epoch header = Except.ok next) : next.Coherent := by
  obtain ⟨mid, hmid, rfl⟩ := Snapshot.applyHeader_ok hok
  obtain ⟨_, signer, _, _, _, _, rfl⟩ := Snapshot.castHeader_ok hmid
  exact Snapshot.resolve_coherent _ _ (Snapshot.voted_coherent _ _ _ _ h)

/-- A property kept by every accepted header is kept by the loop of `apply`. -/
theorem applyHeaders_preserves {ecrecover : Header → Except Error Address} {epoch : Nat}
    (P : Snapshot → Prop)
    (hstep : ∀ snap header next, P snap →
      snap.applyHeader ecrecover epoch header = Except.ok next → P next) :
    ∀ (headers : List Header) (snap next : Snapshot), P snap →
      applyHeaders ecrecover epoch snap headers = Except.ok next → P next
  | [], snap, next, hP, h => by
    simp only [applyHeaders] at h
    injection h with h
    exact h ▸ hP
  | header :: rest, snap, next, hP, h => by
    simp only [applyHeaders] at h
    split at h
    · cases h
    · rename_i mid hmid
      exact applyHeaders_preserves P hstep rest mid next (hstep _ _ _ hP hmid) h

/-- The result of a successful `apply` on at least one header is the result
of the loop with the number and the hash replaced. -/
theorem Snapshot.apply_ok {ecrecover : Header → Except Error Address} {S S' : Snapshot}
    {headers : List Header} (h : S.apply ecrecover headers = Except.ok S') :
    (headers = [] ∧ S' = S) ∨
    ∃ last, applyHeaders ecrecover S.config.Epoch S headers = Except.ok last ∧
      S' = { last with
        Number := (last.Number + headers.length) % u64
        Hash := (headers.getLast?.map Header.Hash).getD 0 } := by
  unfold Snapshot.apply at h
  split at h
  · injection h with h
    exact Or.inl ⟨rfl, h.symm⟩
  · right
    split_ifs at h
    split at h
    · cases h
    · rename_i last hlast
      injection h with h
      exact ⟨last, hlast, h.symm⟩

/-- A property that does not read the number and the hash and is kept by
every accepted header is kept by `apply`. -/
theorem Snapshot.apply_preserves {ecrecover : Header → Except Error Address}
    (P : Snapshot → Prop)
    (hstep : ∀ epoch snap header next, P snap →
      snap.applyHeader ecrecover epoch header = Except.ok next → P next)
    (hframe : ∀ (snap : Snapshot) (n : Nat) (hash : Poi.Hash), P snap →
      P { snap with Number := n, Hash := hash })
    {S S' : Snapshot} {headers : List Header} (hP : P S)
    (h : S.apply ecrecover headers = Except.ok S') : P S' := by
  rcases Snapshot.apply_ok h with ⟨_, rfl⟩ | ⟨last, hlast, rfl⟩
  · exact hP
  · exact hframe _ _ _ (applyHeaders_preserves P (hstep _) headers S last hP hlast)

theorem initSigners_Votes (snap : Snapshot) (signers : List Address) :
    (initSigners snap signers).Votes = snap.Votes := by
  induction signers generalizing snap with
  | nil => rfl
  | cons a rest ih => simp only [initSigners, ih]

theorem initSigners_Tally (snap : Snapshot) (signers : List Address) :
    (initSigners snap signers).Tally = snap.Tally := by
  induction signers generalizing snap with
  | nil => rfl
  | cons a rest ih => simp only [initSigners, ih]

theorem initSigners_Recents (snap : Snapshot) (signers : List Address) :
    (initSigners snap signers).Recents = snap.Recents := by
  induction signers generalizing snap with
  | nil => rfl
  | cons a rest ih => simp only [initSigners, ih]

theorem newSnapshot_coherent (config : PoiConfig) (number : Nat) (hash : Hash)
    (signers : List Address) : (newSnapshot config number hash signers).Coherent := by
  unfold Snapshot.Coherent newSnapshot
  rw [initSigners_Votes, initSigners_Tally]
  refine ⟨?_, ?_, ?_⟩
  · intro v hv
    simp at hv
  · intro x _
    rfl
  · intro x t hx
    simp at hx

theorem Reachable.coherent {ecrecover : Header → Except Error Address} {S : Snapshot}
    (h : Reachable ecrecover S) : S.Coherent := by
  induction h with
  | genesis config number hash signers => exact newSnapshot_coherent _ _ _ _
  | step headers _ hok ih =>
    exact Snapshot.apply_preserves Snapshot.Coherent
      (fun _ _ _ _ hP hstep => Snapshot.applyHeader_coherent hP hstep)
      (fun _ _ _ hP => hP) ih hok

/-! ## Accepted headers and the three outcomes of the resolution -/

/-- The result of `apply` on one accepted header. -/
theorem Snapshot.apply_single_ok {ecrecover : Header → Except Error Address} (S : Snapshot)
    {h : Header} {a : Address} (hepoch : S.config.Epoch ≠ 0)
    (halign : h.Number = (S.Number + 1) % u64) (hrec : ecrecover h = Except.ok a)
    (hsigner : S.Signers.has a = true)
    (hrecent : (S.atCheck S.config.Epoch h).Recents.hasValue a = false)
    (hnonce : h.Nonce = nonceAuthVote ∨ h.Nonce = nonceDropVote) :
    S.apply ecrecover [h] =
      Except.ok { (S.voted S.config.Epoch h a).resolve h with
        Number := (S.Number + 1) % u64, Hash := h.Hash } := by
  have h3 : ¬ (h.Nonce ≠ nonceAuthVote ∧ h.Nonce ≠ nonceDropVote) := by
    rintro ⟨h5, h6⟩
    exact hnonce.elim h5 h6
  rw [Snapshot.apply_single]
  unfold Snapshot.applyHeader
  rw [Snapshot.castHeader_eq S hepoch hrec]
  simp only [halign, ne_eq, not_true_eq_false, if_false, hsigner, hrecent, h3,
    Bool.true_eq_false, Bool.false_eq_true]
  have hN : ((S.voted S.config.Epoch h a).resolve h).Number = S.Number := by
    unfold Snapshot.resolve
    simp only []
    split
    · split
      · simp [Snapshot.purgeSubject, Snapshot.admitSigner, Snapshot.voted, Snapshot.atCheck]
      · simp [Snapshot.purgeSubject, Snapshot.evict, Snapshot.voted, Snapshot.atCheck]
    · simp [Snapshot.voted, Snapshot.atCheck]
  rw [hN]

/-- An accepted single header, read backwards. -/
theorem Snapshot.apply_single_inv {ecrecover : Header → Except Error Address}
    {S S' : Snapshot} {h : Header} (hok : S.apply ecrecover [h] = Except.ok S') :
    S.config.Epoch ≠ 0 ∧ h.Number = (S.Number + 1) % u64 ∧
    ∃ a, ecrecover h = Except.ok a ∧ S.Signers.has a = true ∧
      (S.atCheck S.config.Epoch h).Recents.hasValue a = false ∧
      (h.Nonce = nonceAuthVote ∨ h.Nonce = nonceDropVote) ∧
      S' = { (S.voted S.config.Epoch h a).resolve h with
        Number := (S.Number + 1) % u64, Hash := h.Hash } := by
  have halign : h.Number = (S.Number + 1) % u64 := by
    by_contra hne
    rw [Snapshot.apply_single] at hok
    simp [hne] at hok
  rcases Snapshot.apply_ok hok with ⟨hnil, _⟩ | ⟨last, hlast, _⟩
  · cases hnil
  · simp only [applyHeaders] at hlast
    split at hlast
    · cases hlast
    · rename_i next hnext
      obtain ⟨mid, hmid, _⟩ := Snapshot.applyHeader_ok hnext
      obtain ⟨hE, a, hrec, hs, hr, hn, _⟩ := Snapshot.castHeader_ok hmid
      refine ⟨hE, halign, a, hrec, hs, hr, hn, ?_⟩
      have := Snapshot.apply_single_ok S hE halign hrec hs hr hn
      rw [hok] at this
      injection this

theorem Snapshot.resolve_admitted (mid : Snapshot) (header : Header)
    (hpass : (mid.tallyOf header.Coinbase).Votes > ((mid.Signers.len / 2 : Nat) : Int))
    (hauth : (mid.tallyOf header.Coinbase).Authorize = true) :
    mid.resolve header = (mid.admitSigner header.Coinbase).purgeSubject header.Coinbase := by
  unfold Snapshot.resolve
  simp only [hpass, hauth, if_true]

theorem Snapshot.resolve_evicted (mid : Snapshot) (header : Header)
    (hpass : (mid.tallyOf header.Coinbase).Votes > ((mid.Signers.len / 2 : Nat) : Int))
    (hauth : (mid.tallyOf header.Coinbase).Authorize = false) :
    mid.resolve header = (mid.evict header).purgeSubject header.Coinbase := by
  unfold Snapshot.resolve
  simp only [hpass, hauth, if_true, Bool.false_eq_true, if_false]

theorem Snapshot.resolve_open (mid : Snapshot) (header : Header)
    (hpass : ¬ (mid.tallyOf header.Coinbase).Votes > ((mid.Signers.len / 2 : Nat) : Int)) :
    mid.resolve header = mid := by
  unfold Snapshot.resolve
  simp only [hpass, if_false]

/-- A tally that passes is a stored tally, and in a coherent snapshot it has
the direction of valid votes on its account. -/
theorem Snapshot.Coherent.tallyOf_passed {mid : Snapshot} (hc : mid.Coherent) {c : Address}
    {n : Nat} (hpass : (mid.tallyOf c).Votes > (n : Int)) :
    mid.Tally.get? c = some (mid.tallyOf c) ∧
      (mid.tallyOf c).Authorize = voteDir mid.Signers c := by
  unfold Snapshot.tallyOf at hpass ⊢
  cases ht : mid.Tally.get? c with
  | none =>
    rw [ht] at hpass
    simp only [Option.getD_none] at hpass
    omega
  | some t =>
    simp only [Option.getD_some, true_and]
    exact (hc.2.2 c t ht).1

/-! ## Open votes are cast by signers -/

theorem Snapshot.discardPrevious_Votes_subset (s : Snapshot) (a c : Address) :
    ∀ v ∈ (s.discardPrevious a c).Votes, v ∈ s.Votes := by
  intro v hv
  unfold Snapshot.discardPrevious at hv
  split at hv
  · exact hv
  · exact List.mem_of_mem_eraseP hv

theorem Snapshot.voted_votersAuthorized (snap : Snapshot) (epoch : Nat) (header : Header)
    (signer : Address) (hs : snap.Signers.has signer = true) (h : snap.VotersAuthorized) :
    (snap.voted epoch header signer).VotersAuthorized := by
  intro v hv
  rw [Snapshot.voted_Signers]
  unfold Snapshot.voted at hv
  rw [Snapshot.tallyVote_Votes] at hv
  have hpre : ∀ w ∈ (({ snap.atCheck epoch header with
      Recents := (snap.atCheck epoch header).Recents.set header.Number signer }).discardPrevious
      signer header.Coinbase).Votes, snap.Signers.has w.Signer = true := by
    intro w hw
    have hw' := Snapshot.discardPrevious_Votes_subset _ _ _ w hw
    simp only [Snapshot.atCheck, Snapshot.expireRecent_Votes] at hw'
    unfold Snapshot.clearEpoch at hw'
    split at hw'
    · simp at hw'
    · exact h w hw'
  split at hv
  · rcases List.mem_append.1 hv with hv | hv
    · exact hpre v hv
    · simp only [List.mem_singleton] at hv
      subst hv
      exact hs
  · exact hpre v hv

theorem Snapshot.resolve_votersAuthorized (snap : Snapshot) (header : Header)
    (h : snap.VotersAuthorized) : (snap.resolve header).VotersAuthorized := by
  unfold Snapshot.resolve
  simp only []
  split
  · split
    · intro v hv
      simp only [Snapshot.purgeSubject, Snapshot.admitSigner, List.mem_filter] at hv ⊢
      rw [GoMap.has_set, h v hv.1]
      simp
    · intro v hv
      simp only [Snapshot.purgeSubject, List.mem_filter, Snapshot.evict_Votes,
        Snapshot.evict_Signers, Bool.not_eq_true', decide_eq_false_iff_not] at hv ⊢
      rw [GoMap.has_delete, h v hv.1.1]
      simp [hv.1.2]
  · exact h

theorem Snapshot.applyHeader_votersAuthorized {ecrecover : Header → Except Error Address}
    {epoch : Nat} {snap next : Snapshot} {header : Header} (h : snap.VotersAuthorized)
    (hok : snap.applyHeader ecrecover epoch header = Except.ok next) :
    next.VotersAuthorized := by
  obtain ⟨mid, hmid, rfl⟩ := Snapshot.applyHeader_ok hok
  obtain ⟨_, signer, _, hs, _, _, rfl⟩ := Snapshot.castHeader_ok hmid
  exact Snapshot.resolve_votersAuthorized _ _ (Snapshot.voted_votersAuthorized _ _ _ _ hs h)

theorem Reachable.votersAuthorized {ecrecover : Header → Except Error Address}
    {S : Snapshot} (h : Reachable ecrecover S) : S.VotersAuthorized := by
  induction h with
  | genesis config number hash signers =>
    intro v hv
    unfold newSnapshot at hv
    rw [initSigners_Votes] at hv
    simp at hv
  | step headers _ hok ih =>
    exact Snapshot.apply_preserves Snapshot.VotersAuthorized
      (fun _ _ _ _ hP hstep => Snapshot.applyHeader_votersAuthorized hP hstep)
      (fun _ _ _ hP => hP) ih hok

/-! ## The votes on other accounts across one header -/

theorem Snapshot.discardPrevious_filter (s : Snapshot) (a c : Address) :
    (s.discardPrevious a c).Votes.filter (fun vote => !decide (vote.Address = c)) =
      s.Votes.filter (fun vote => !decide (vote.Address = c)) := by
  unfold Snapshot.discardPrevious
  split
  · rfl
  · rename_i vote hfind
    obtain ⟨hp, l₁, l₂, hl, he⟩ := find?_eraseP_split _ _ _ hfind
    simp only [Bool.and_eq_true, decide_eq_true_eq] at hp
    simp only [he]
    simp only [hl, List.filter_append, List.filter_cons, hp.2, decide_True, Bool.not_true,
      Bool.false_eq_true, if_false]

/-- The votes on accounts other than the coinbase are the same before and
after the vote of a header is cast (the epoch clearing apart). -/
theorem Snapshot.voted_filter (snap : Snapshot) (epoch : Nat) (header : Header)
    (signer : Address) :
    (snap.voted epoch header signer).Votes.filter
        (fun vote => !decide (vote.Address = header.Coinbase)) =
      (snap.clearEpoch epoch header.Number).Votes.filter
        (fun vote => !decide (vote.Address = header.Coinbase)) := by
  unfold Snapshot.voted
  rw [Snapshot.tallyVote_Votes]
  have hD := Snapshot.discardPrevious_filter
    ({ snap.atCheck epoch header with
      Recents := (snap.atCheck epoch header).Recents.set header.Number signer })
    signer header.Coinbase
  simp only [Snapshot.atCheck, Snapshot.expireRecent_Votes] at hD ⊢
  split
  · rw [List.filter_append, hD]
    simp
  · exact hD

theorem votesOn_split (x y : Address) (votes : List Vote) :
    votesOn y votes =
      votesOn y (votes.filter (fun vote => !decide (vote.Signer = x))) +
        votesByOn x y votes := by
  induction votes with
  | nil => rfl
  | cons v vs ih =>
    rw [List.filter_cons]
    by_cases hs : v.Signer = x
    · by_cases ha : v.Address = y
      · simp only [hs, decide_True, Bool.not_true, Bool.false_eq_true, if_false, votesOn_cons,
          ha, if_true, ih, votesByOn, List.countP_cons, Bool.and_self]
        simp only [votesByOn] at ih
        omega
      · simp only [hs, decide_True, Bool.not_true, Bool.false_eq_true, if_false, votesOn_cons,
          ha, ih, votesByOn, List.countP_cons, decide_False, Bool.and_false]
        omega
    · by_cases ha : v.Address = y
      · simp only [hs, decide_False, Bool.not_false, if_true, votesOn_cons, ha, ih, votesByOn,
          List.countP_cons, Bool.false_and, Bool.false_eq_true, if_false]
        omega
      · simp only [hs, decide_False, Bool.not_false, if_true, votesOn_cons, ha, ih, votesByOn,
          List.countP_cons, Bool.false_and, Bool.false_eq_true, if_false]
        omega

theorem votesOn_filter_signer_subject (x y : Address) (votes : List Vote) :
    votesOn y ((votes.filter (fun vote => !decide (vote.Signer = x))).filter
        (fun vote => !decide (vote.Address = x))) =
      votesOn y ((votes.filter (fun vote => !decide (vote.Address = x))).filter
        (fun vote => !decide (vote.Signer = x))) := by
  rw [List.filter_filter, List.filter_filter]
  congr 1
  apply List.filter_congr
  intro v _
  exact Bool.and_comm _ _

theorem Snapshot.Coherent.tallyOf_votes {s : Snapshot} (hc : s.Coherent) (x : Address) :
    (s.tallyOf x).Votes = (votesOn x s.Votes : Int) := by
  unfold Snapshot.tallyOf
  cases ht : s.Tally.get? x with
  | none =>
    simp only [Option.getD_none]
    rw [hc.2.1 x ht]
    rfl
  | some t =>
    simp only [Option.getD_some]
    exact (hc.2.2 x t ht).2.1

theorem Snapshot.Coherent.tally_none_iff {s : Snapshot} (hc : s.Coherent) (x : Address) :
    s.Tally.get? x = none ↔ votesOn x s.Votes = 0 := by
  constructor
  · exact hc.2.1 x
  · intro h0
    cases ht : s.Tally.get? x with
    | none => rfl
    | some t =>
      have := (hc.2.2 x t ht).2.2
      omega

theorem GoMap.eq_of_len_le_one {K V : Type} [DecidableEq K] (m : GoMap K V) {a b : K}
    (hlen : m.len ≤ 1) (ha : m.has a = true) (hb : m.has b = true) : a = b := by
  have ha' := (GoMap.mem_keys m a).2 ha
  have hb' := (GoMap.mem_keys m b).2 hb
  unfold GoMap.len at hlen
  match hk : m.keys, ha', hb', hlen with
  | [], ha', _, _ => simp [hk] at ha'
  | [k], ha', hb', _ =>
    simp only [hk, List.mem_singleton] at ha' hb'
    rw [ha', hb']
  | _ :: _ :: _, _, _, hlen =>
    simp [hk] at hlen

theorem Snapshot.discardPrevious_Votes_length (s : Snapshot) (a c : Address) :
    (s.discardPrevious a c).Votes.length ≤ s.Votes.length := by
  unfold Snapshot.discardPrevious
  split
  · exact le_refl _
  · simp only [List.length_eraseP]
    split <;> omega

theorem Snapshot.voted_Votes_length (snap : Snapshot) (epoch : Nat) (header : Header)
    (signer : Address) :
    (snap.voted epoch header signer).Votes.length ≤
      (snap.clearEpoch epoch header.Number).Votes.length + 1 := by
  unfold Snapshot.voted
  rw [Snapshot.tallyVote_Votes]
  have hD := Snapshot.discardPrevious_Votes_length
    ({ snap.atCheck epoch header with
      Recents := (snap.atCheck epoch header).Recents.set header.Number signer })
    signer header.Coinbase
  simp only [Snapshot.atCheck, Snapshot.expireRecent_Votes] at hD ⊢
  split
  · rw [List.length_append]
    simp only [List.length_singleton]
    omega
  · omega

theorem votesOn_le_length (x : Address) (votes : List Vote) :
    votesOn x votes ≤ votes.length := List.countP_le_length _

/-- The votes on another account `y` after the eviction of `x` by `header`. -/
theorem Snapshot.evicted_votesOn (S : Snapshot) (header : Header) (a y : Address)
    (hy : y ≠ header.Coinbase) :
    votesOn y (((S.voted S.config.Epoch header a).evict header).purgeSubject
        header.Coinbase).Votes =
      votesOn y ((S.clearEpoch S.config.Epoch header.Number).Votes.filter
        (fun vote => !decide (vote.Signer = header.Coinbase))) := by
  simp only [Snapshot.purgeSubject, Snapshot.evict_Votes]
  rw [votesOn_filter_signer_subject, Snapshot.voted_filter,
    ← votesOn_filter_signer_subject, votesOn_filter_subject]
  simp [hy]

/-! ## C1: error classification of one header -/

/-- C1. One header `h` aligned with `S` (its number is `S.Number + 1` in
`uint64` arithmetic) whose signer `a` is recovered, under a non-zero epoch (the
modulus `number % epoch` is defined): `apply` fails with `errUnauthorizedSigner`
if `a` is no signer; otherwise with `errRecentlySigned` if `a` is a value of the
recents once the entry at key `h.Number - (len(signers)/2 + 1)` is removed (a
key below zero is no key); otherwise with `errInvalidVote` if the nonce is
neither the authorize nor the drop nonce; otherwise it succeeds and the result
has `Recents[h.Number] = a`. -/
theorem apply_error_classification (ecrecover : Header → Except Error Address)
    (S : Snapshot) (h : Header) (a : Address)
    (hepoch : S.config.Epoch ≠ 0)
    (halign : h.Number = (S.Number + 1) % u64)
    (hrec : ecrecover h = Except.ok a) :
    let K := S.Signers.len / 2 + 1
    let recents := if K ≤ h.Number then S.Recents.delete (h.Number - K) else S.Recents
    (S.Signers.has a = false →
      S.apply ecrecover [h] = Except.error Error.errUnauthorizedSigner) ∧
    (S.Signers.has a = true → (∃ k, recents.get? k = some a) →
      S.apply ecrecover [h] = Except.error Error.errRecentlySigned) ∧
    (S.Signers.has a = true → (¬ ∃ k, recents.get? k = some a) →
      h.Nonce ≠ nonceAuthVote → h.Nonce ≠ nonceDropVote →
      S.apply ecrecover [h] = Except.error Error.errInvalidVote) ∧
    (S.Signers.has a = true → (¬ ∃ k, recents.get? k = some a) →
      (h.Nonce = nonceAuthVote ∨ h.Nonce = nonceDropVote) →
      ∃ S', S.apply ecrecover [h] = Except.ok S' ∧ S'.Recents.get? h.Number = some a) := by
  intro K recents
  have hrecents : (S.atCheck S.config.Epoch h).Recents = recents :=
    Snapshot.atCheck_Recents S S.config.Epoch h
  have hval : (S.atCheck S.config.Epoch h).Recents.hasValue a = true ↔
      ∃ k, recents.get? k = some a := by
    rw [GoMap.hasValue_iff, hrecents]
  have happ : S.apply ecrecover [h] =
      match S.applyHeader ecrecover S.config.Epoch h with
      | Except.error err => Except.error err
      | Except.ok snap =>
        Except.ok { snap with Number := (snap.Number + 1) % u64, Hash := h.Hash } := by
    rw [Snapshot.apply_single]
    simp [halign]
  rw [happ]
  unfold Snapshot.applyHeader
  rw [Snapshot.castHeader_eq S hepoch hrec]
  refine ⟨?_, ?_, ?_, ?_⟩
  · intro h1
    simp [h1]
  · intro h1 h2
    simp [h1, hval.2 h2]
  · intro h1 h2 h3 h4
    have h2' : (S.atCheck S.config.Epoch h).Recents.hasValue a = false := by
      rw [← Bool.not_eq_true, hval]
      exact h2
    simp [h1, h2', h3, h4]
  · intro h1 h2 h3
    have h2' : (S.atCheck S.config.Epoch h).Recents.hasValue a = false := by
      rw [← Bool.not_eq_true, hval]
      exact h2
    have h3' : ¬ (h.Nonce ≠ nonceAuthVote ∧ h.Nonce ≠ nonceDropVote) := by
      rintro ⟨h5, h6⟩
      exact h3.elim h5 h6
    simp only [h1, h2', h3', Bool.true_eq_false, Bool.false_eq_true, if_false]
    refine ⟨_, rfl, ?_⟩
    show ((S.voted S.config.Epoch h a).resolve h).Recents.get? h.Number = some a
    rw [Snapshot.resolve_Recents_get?_of_le _ _ (le_refl _), Snapshot.voted_Recents]
    simp

/-- C1, worked: from the genesis of `A`, `B`, `C` a header sealed by the
stranger `9` is unauthorized; after `A` sealed block 1 its block 2 is refused as
recently signed; a nonce `5` is an invalid vote; a proper authorize vote is
accepted and recorded in the recents. -/
theorem apply_error_classification_witness :
    genesisABC.apply recoverExtra [mkHeader 1 9 4 nonceAuthVote] =
      Except.error Error.errUnauthorizedSigner ∧
    afterFirstVote.apply recoverExtra [mkHeader 2 1 4 nonceAuthVote] =
      Except.error Error.errRecentlySigned ∧
    genesisABC.apply recoverExtra [mkHeader 1 1 4 5] = Except.error Error.errInvalidVote ∧
    ∃ S', genesisABC.apply recoverExtra [mkHeader 1 1 4 nonceAuthVote] = Except.ok S' ∧
      S'.Recents.get? 1 = some 1 :=
  ⟨(apply_error_classification recoverExtra genesisABC (mkHeader 1 9 4 nonceAuthVote) 9
      (by decide) (by decide) (by decide)).1 (by decide),
   (apply_error_classification recoverExtra afterFirstVote (mkHeader 2 1 4 nonceAuthVote) 1
      (by decide) (by decide) (by decide)).2.1 (by decide) ⟨1, by decide⟩,
   (apply_error_classification recoverExtra genesisABC (mkHeader 1 1 4 5) 1
      (by decide) (by decide) (by decide)).2.2.1 (by decide)
      (mt (GoMap.hasValue_iff _ _).2 (by decide)) (by decide) (by decide),
   (apply_error_classification recoverExtra genesisABC (mkHeader 1 1 4 nonceAuthVote) 1
      (by decide) (by decide) (by decide)).2.2.2 (by decide)
      (mt (GoMap.hasValue_iff _ _).2 (by decide)) (Or.inl (by decide))⟩

/-! ## C2: tally coherence -/

/-- C2. In every snapshot reachable from a genesis snapshot by successful
calls of `apply`, and for every address `x`: the tally of `x` is present iff
some vote has subject `x`, and then its count is the number of votes with
subject `x` and every such vote has the direction of the tally. -/
theorem tally_coherence (ecrecover : Header → Except Error Address) (S : Snapshot)
    (hS : Reachable ecrecover S) (x : Address) :
    ((S.Tally.get? x).isSome = true ↔ ∃ v ∈ S.Votes, v.Address = x) ∧
    ∀ t, S.Tally.get? x = some t →
      t.Votes = (votesOn x S.Votes : Int) ∧
      ∀ v ∈ S.Votes, v.Address = x → v.Authorize = t.Authorize := by
  obtain ⟨h1, h2, h3⟩ := hS.coherent
  refine ⟨?_, ?_⟩
  · cases ht : S.Tally.get? x with
    | none =>
      have := (votesOn_eq_zero_iff x S.Votes).1 (h2 x ht)
      simp only [Option.isSome_none, Bool.false_eq_true, false_iff, not_exists, not_and]
      exact this
    | some t =>
      simp only [Option.isSome_some, true_iff]
      exact (votesOn_pos_iff x S.Votes).1 (h3 x t ht).2.2
  · intro t ht
    obtain ⟨ha, hn, _⟩ := h3 x t ht
    refine ⟨hn, ?_⟩
    intro v hv hvx
    rw [ha, ← hvx]
    exact h1 v hv

/-- C2, worked: after `A` voted to authorize `D` from the genesis of `A`, `B`,
`C`, the tally of `D` is present and counts the one vote on `D`. -/
theorem tally_coherence_witness :
    ((afterFirstVote.Tally.get? 4).isSome = true ↔ ∃ v ∈ afterFirstVote.Votes, v.Address = 4) ∧
    ∀ t, afterFirstVote.Tally.get? 4 = some t →
      t.Votes = (votesOn 4 afterFirstVote.Votes : Int) ∧
      ∀ v ∈ afterFirstVote.Votes, v.Address = 4 → v.Authorize = t.Authorize :=
  tally_coherence recoverExtra afterFirstVote
    (Reachable.step [mkHeader 1 1 4 nonceAuthVote]
      (Reachable.genesis testConfig 0 0 [1, 2, 3]) (by decide)) 4

/-! ## C3: vote admission -/

/-- C3. Let `S` be reachable and `h` an accepted header: aligned with `S`,
sealed by the authorized signer `a` that is not among the recents, carrying
the authorize nonce (the epoch being non-zero, so that `number % epoch` is
defined). If its coinbase `D` is no signer of `S` and the tally of `D`, once
the vote of `h` is cast, is strictly above `len(S.Signers) / 2`, then `apply`
succeeds and its result has `D` among the signers, `Health[D] = Healthy`,
`Performance[D] = 0`, no tally of `D` and no vote with subject `D`. -/
theorem vote_admission (ecrecover : Header → Except Error Address) (S : Snapshot)
    (h : Header) (a : Address)
    (hS : Reachable ecrecover S)
    (hepoch : S.config.Epoch ≠ 0)
    (halign : h.Number = (S.Number + 1) % u64)
    (hrec : ecrecover h = Except.ok a)
    (hsigner : S.Signers.has a = true)
    (hrecent : (S.atCheck S.config.Epoch h).Recents.hasValue a = false)
    (hnonce : h.Nonce = nonceAuthVote)
    (hD : S.Signers.has h.Coinbase = false)
    (hpass : ((S.voted S.config.Epoch h a).tallyOf h.Coinbase).Votes >
      ((S.Signers.len / 2 : Nat) : Int)) :
    ∃ S', S.apply ecrecover [h] = Except.ok S' ∧
      S'.Signers.has h.Coinbase = true ∧
      S'.Health.get? h.Coinbase = some SignerHealth.Healthy ∧
      S'.Performance.get? h.Coinbase = some 0 ∧
      S'.Tally.get? h.Coinbase = none ∧
      ∀ v ∈ S'.Votes, v.Address ≠ h.Coinbase := by
  refine ⟨_, Snapshot.apply_single_ok S hepoch halign hrec hsigner hrecent (Or.inl hnonce), ?_⟩
  have hc : (S.voted S.config.Epoch h a).Coherent :=
    Snapshot.voted_coherent _ _ _ _ hS.coherent
  have hsig : (S.voted S.config.Epoch h a).Signers = S.Signers := Snapshot.voted_Signers _ _ _ _
  rw [← hsig] at hpass
  have hauth : ((S.voted S.config.Epoch h a).tallyOf h.Coinbase).Authorize = true := by
    rw [(hc.tallyOf_passed hpass).2, hsig]
    simp [voteDir, hD]
  simp only [Snapshot.resolve_admitted _ _ hpass hauth]
  refine ⟨?_, ?_, ?_, ?_, ?_⟩
  · simp [Snapshot.purgeSubject, Snapshot.admitSigner, GoMap.has_set]
  · simp [Snapshot.purgeSubject, Snapshot.admitSigner]
  · simp [Snapshot.purgeSubject, Snapshot.admitSigner]
  · simp [Snapshot.purgeSubject, Snapshot.admitSigner]
  · intro v hv
    simp only [Snapshot.purgeSubject, List.mem_filter, Bool.not_eq_true',
      decide_eq_false_iff_not] at hv
    exact hv.2

/-- C3, worked: from the genesis of `A`, `B`, `C`, after header 1 sealed by `A`
the header 2 sealed by `B`, both authorizing `D = 4`, admits `D`. -/
theorem vote_admission_witness :
    ∃ S', afterFirstVote.apply recoverExtra [mkHeader 2 2 4 nonceAuthVote] = Except.ok S' ∧
      S'.Signers.has 4 = true ∧
      S'.Health.get? 4 = some SignerHealth.Healthy ∧
      S'.Performance.get? 4 = some 0 ∧
      S'.Tally.get? 4 = none ∧
      ∀ v ∈ S'.Votes, v.Address ≠ 4 :=
  vote_admission recoverExtra afterFirstVote (mkHeader 2 2 4 nonceAuthVote) 2
    (Reachable.step [mkHeader 1 1 4 nonceAuthVote]
      (Reachable.genesis testConfig 0 0 [1, 2, 3]) (by decide))
    (by decide) (by decide) rfl (by decide) (by decide) (by decide) (by decide) (by decide)

/-! ## C4: eviction purges votes -/

/-- C4. Let `S` be reachable and `h` an accepted header: aligned with `S`,
sealed by the authorized signer `a` that is not among the recents, carrying
the drop nonce (the epoch being non-zero). If its coinbase `X` is a signer of
`S` and the tally of `X`, once the vote of `h` is cast, is strictly above
`len(S.Signers) / 2`, then `apply` succeeds and in its result `X` is gone from
the signers, the health and the performance, no vote has signer `X` or
subject `X`, there is no tally of `X`, and for every other account `Y` the
tally count of `Y` (zero when there is no tally) is that of `S` less the
number of votes that `X` had cast on `Y`, the tally being absent exactly when
this is zero. -/
theorem eviction_purges_votes (ecrecover : Header → Except Error Address) (S : Snapshot)
    (h : Header) (a : Address)
    (hS : Reachable ecrecover S)
    (hepoch : S.config.Epoch ≠ 0)
    (halign : h.Number = (S.Number + 1) % u64)
    (hrec : ecrecover h = Except.ok a)
    (hsigner : S.Signers.has a = true)
    (hrecent : (S.atCheck S.config.Epoch h).Recents.hasValue a = false)
    (hnonce : h.Nonce = nonceDropVote)
    (hX : S.Signers.has h.Coinbase = true)
    (hpass : ((S.voted S.config.Epoch h a).tallyOf h.Coinbase).Votes >
      ((S.Signers.len / 2 : Nat) : Int)) :
    ∃ S', S.apply ecrecover [h] = Except.ok S' ∧
      S'.Signers.has h.Coinbase = false ∧
      S'.Health.get? h.Coinbase = none ∧
      S'.Performance.get? h.Coinbase = none ∧
      (∀ v ∈ S'.Votes, v.Signer ≠ h.Coinbase ∧ v.Address ≠ h.Coinbase) ∧
      S'.Tally.get? h.Coinbase = none ∧
      ∀ Y, Y ≠ h.Coinbase →
        (S'.tallyOf Y).Votes = (S.tallyOf Y).Votes - (votesByOn h.Coinbase Y S.Votes : Int) ∧
        (S'.Tally.get? Y = none ↔
          (S.tallyOf Y).Votes - (votesByOn h.Coinbase Y S.Votes : Int) = 0) := by
  refine ⟨_, Snapshot.apply_single_ok S hepoch halign hrec hsigner hrecent (Or.inr hnonce), ?_⟩
  have hc : (S.voted S.config.Epoch h a).Coherent :=
    Snapshot.voted_coherent _ _ _ _ hS.coherent
  have hsig : (S.voted S.config.Epoch h a).Signers = S.Signers := Snapshot.voted_Signers _ _ _ _
  have hpass' := hpass
  rw [← hsig] at hpass
  have hauth : ((S.voted S.config.Epoch h a).tallyOf h.Coinbase).Authorize = false := by
    rw [(hc.tallyOf_passed hpass).2, hsig]
    simp [voteDir, hX]
  have hR : ((S.voted S.config.Epoch h a).resolve h).Coherent :=
    Snapshot.resolve_coherent _ _ hc
  simp only [Snapshot.resolve_evicted _ _ hpass hauth] at hR ⊢
  refine ⟨?_, ?_, ?_, ?_, ?_, ?_⟩
  · simp [Snapshot.purgeSubject, Snapshot.evict_Signers, GoMap.has_delete]
  · simp [Snapshot.purgeSubject, Snapshot.evict_Health]
  · simp [Snapshot.purgeSubject, Snapshot.evict_Performance]
  · intro v hv
    simp only [Snapshot.purgeSubject, Snapshot.evict_Votes, List.mem_filter,
      Bool.not_eq_true', decide_eq_false_iff_not] at hv
    exact ⟨hv.1.2, hv.2⟩
  · simp [Snapshot.purgeSubject]
  · intro Y hY
    have hcount : (votesOn Y (((S.voted S.config.Epoch h a).evict h).purgeSubject
        h.Coinbase).Votes : Int) =
        (votesOn Y S.Votes : Int) - (votesByOn h.Coinbase Y S.Votes : Int) := by
      rw [Snapshot.evicted_votesOn S h a Y hY]
      have hsplit := votesOn_split h.Coinbase Y S.Votes
      by_cases hep : h.Number % S.config.Epoch = 0
      · have hlen : (S.voted S.config.Epoch h a).Votes.length ≤ 1 := by
          have := Snapshot.voted_Votes_length S S.config.Epoch h a
          simpa [Snapshot.clearEpoch, hep] using this
        have hv1 := hc.tallyOf_votes h.Coinbase
        have hv2 := votesOn_le_length h.Coinbase (S.voted S.config.Epoch h a).Votes
        have hone : S.Signers.len ≤ 1 := by
          rw [hv1] at hpass'
          omega
        have hall : S.Votes.filter (fun vote => !decide (vote.Signer = h.Coinbase)) = [] := by
          rw [List.filter_eq_nil_iff]
          intro v hv
          have := GoMap.eq_of_len_le_one S.Signers hone (hS.votersAuthorized v hv) hX
          simp [this]
        rw [hall] at hsplit
        simp only [Snapshot.clearEpoch, hep, if_true, List.filter_nil]
        simp only [votesOn, List.countP_nil, zero_add] at hsplit ⊢
        omega
      · simp only [Snapshot.clearEpoch, hep, if_false]
        omega
    have hT : ∀ (R : Snapshot) (n : Nat) (hash : Poi.Hash),
        ({ R with Number := n, Hash := hash } : Snapshot).tallyOf Y = R.tallyOf Y :=
      fun _ _ _ => rfl
    rw [hT, hR.tallyOf_votes Y, hS.coherent.tallyOf_votes Y, hcount]
    refine ⟨rfl, ?_⟩
    show (((S.voted S.config.Epoch h a).evict h).purgeSubject h.Coinbase).Tally.get? Y = none ↔ _
    rw [hR.tally_none_iff Y, ← hcount]
    exact Int.natCast_eq_zero.symm

/-- C4, worked: with the signers `A`, `B`, `C`, `D`, where `A` holds an open
authorize vote on `X = 9` and `B`, `C` have voted to drop `A`, the drop vote of
`D` evicts `A`; the vote of `A` on `X` is purged and the tally of `X` vanishes. -/
theorem eviction_purges_votes_witness :
    ∃ S', beforeEviction.apply recoverExtra [mkHeader 4 4 1 nonceDropVote] = Except.ok S' ∧
      S'.Signers.has 1 = false ∧
      S'.Health.get? 1 = none ∧
      S'.Performance.get? 1 = none ∧
      (∀ v ∈ S'.Votes, v.Signer ≠ 1 ∧ v.Address ≠ 1) ∧
      S'.Tally.get? 1 = none ∧
      ∀ Y, Y ≠ 1 →
        (S'.tallyOf Y).Votes =
          (beforeEviction.tallyOf Y).Votes - (votesByOn 1 Y beforeEviction.Votes : Int) ∧
        (S'.Tally.get? Y = none ↔
          (beforeEviction.tallyOf Y).Votes - (votesByOn 1 Y beforeEviction.Votes : Int) = 0) :=
  eviction_purges_votes recoverExtra beforeEviction (mkHeader 4 4 1 nonceDropVote) 4
    (Reachable.step
      [mkHeader 1 1 9 nonceAuthVote, mkHeader 2 2 1 nonceDropVote, mkHeader 3 3 1 nonceDropVote]
      (Reachable.genesis testConfig 0 0 [1, 2, 3, 4]) (by decide))
    (by decide) (by decide) rfl (by decide) (by decide) (by decide) (by decide) (by decide)

/-! ## C5: epoch clear -/

/-- The vote of a checkpoint header is cast on the cleared vote list. -/
theorem Snapshot.voted_checkpoint (S : Snapshot) (epoch : Nat) (h : Header) (a : Address)
    (hep : h.Number % epoch = 0) :
    (S.voted epoch h a).Votes =
      (if S.validVote h.Coinbase (decide (h.Nonce = nonceAuthVote)) = true then
        [Vote.mk a h.Number h.Coinbase (decide (h.Nonce = nonceAuthVote))]
      else []) ∧
    (S.voted epoch h a).Tally =
      (if S.validVote h.Coinbase (decide (h.Nonce = nonceAuthVote)) = true then
        GoMap.empty.set h.Coinbase ⟨decide (h.Nonce = nonceAuthVote), 1⟩
      else GoMap.empty) := by
  have hpre : ({ S.atCheck epoch h with
      Recents := (S.atCheck epoch h).Recents.set h.Number a }).discardPrevious a h.Coinbase =
      { S.atCheck epoch h with Recents := (S.atCheck epoch h).Recents.set h.Number a } := by
    unfold Snapshot.discardPrevious
    simp [Snapshot.atCheck, Snapshot.clearEpoch, hep]
  have hV : (S.atCheck epoch h).Votes = [] := by
    simp [Snapshot.atCheck, Snapshot.clearEpoch, hep]
  have hT : (S.atCheck epoch h).Tally = GoMap.empty := by
    simp [Snapshot.atCheck, Snapshot.clearEpoch, hep]
  have hvalid : ∀ b, ({ S.atCheck epoch h with
      Recents := (S.atCheck epoch h).Recents.set h.Number a } : Snapshot).validVote h.Coinbase b =
      S.validVote h.Coinbase b := by
    intro b
    simp [Snapshot.validVote, Snapshot.atCheck]
  unfold Snapshot.voted
  rw [hpre, Snapshot.tallyVote_Votes, Snapshot.tallyVote_Tally, Snapshot.cast_Tally, hvalid]
  simp only [hV, hT, GoMap.get?_empty, List.nil_append]
  exact ⟨trivial, trivial⟩

/-- C5, as amended. Let `apply` succeed on one header `h` numbered
`S.Number + 1` with `h.Number % epoch = 0`. The votes and tallies of `S` are
gone, but the vote of the checkpoint header itself is processed after the
clearing: if it is a valid vote (authorize on a non-signer, drop on a signer)
and `S` has at least two signers, the result holds exactly that vote and its
tally with count 1; otherwise both the vote list and the tally are empty. -/
theorem epoch_clear_amended (ecrecover : Header → Except Error Address) (S S' : Snapshot)
    (h : Header)
    (hok : S.apply ecrecover [h] = Except.ok S')
    (hep : h.Number % S.config.Epoch = 0) :
    h.Number = (S.Number + 1) % u64 ∧
    ∃ a, ecrecover h = Except.ok a ∧
      if S.validVote h.Coinbase (decide (h.Nonce = nonceAuthVote)) = true ∧
          2 ≤ S.Signers.len then
        S'.Votes = [Vote.mk a h.Number h.Coinbase (decide (h.Nonce = nonceAuthVote))] ∧
        S'.Tally = GoMap.empty.set h.Coinbase ⟨decide (h.Nonce = nonceAuthVote), 1⟩
      else S'.Votes = [] ∧ S'.Tally = GoMap.empty := by
  obtain ⟨_, halign, a, hrec, _, _, _, rfl⟩ := Snapshot.apply_single_inv hok
  refine ⟨halign, a, hrec, ?_⟩
  obtain ⟨hV, hT⟩ := Snapshot.voted_checkpoint S S.config.Epoch h a hep
  have hsig : (S.voted S.config.Epoch h a).Signers = S.Signers := Snapshot.voted_Signers _ _ _ _
  by_cases hvalid : S.validVote h.Coinbase (decide (h.Nonce = nonceAuthVote)) = true
  · simp only [hvalid, if_true, true_and] at hV hT ⊢
    have htally : (S.voted S.config.Epoch h a).tallyOf h.Coinbase =
        ⟨decide (h.Nonce = nonceAuthVote), 1⟩ := by
      simp [Snapshot.tallyOf, hT]
    by_cases hlen : 2 ≤ S.Signers.len
    · have hopen : ¬ ((S.voted S.config.Epoch h a).tallyOf h.Coinbase).Votes >
          (((S.voted S.config.Epoch h a).Signers.len / 2 : Nat) : Int) := by
        rw [htally, hsig]
        simp only [gt_iff_lt, not_lt]
        omega
      simp only [hlen, if_true, Snapshot.resolve_open _ _ hopen]
      exact ⟨hV, hT⟩
    · have hpass : ((S.voted S.config.Epoch h a).tallyOf h.Coinbase).Votes >
          (((S.voted S.config.Epoch h a).Signers.len / 2 : Nat) : Int) := by
        rw [htally, hsig]
        simp only [gt_iff_lt]
        omega
      simp only [hlen, if_false]
      by_cases hauth : h.Nonce = nonceAuthVote
      · have hA : ((S.voted S.config.Epoch h a).tallyOf h.Coinbase).Authorize = true := by
          rw [htally]
          simp [hauth]
        rw [Snapshot.resolve_admitted _ _ hpass hA]
        simp [Snapshot.purgeSubject, Snapshot.admitSigner, hV, hT, GoMap.delete, GoMap.set,
          GoMap.empty]
      · have hA : ((S.voted S.config.Epoch h a).tallyOf h.Coinbase).Authorize = false := by
          rw [htally]
          simp [hauth]
        rw [Snapshot.resolve_evicted _ _ hpass hA]
        simp only [Snapshot.purgeSubject, Snapshot.evict_Votes, hV]
        refine ⟨by simp, ?_⟩
        unfold Snapshot.evict
        simp only [Snapshot.expireRecent_Votes, hV, purgeCastBy]
        split
        · simp [purgeCastBy, Snapshot.uncast_Tally, hT, hauth, GoMap.delete, GoMap.set,
            GoMap.empty, GoMap.get?, GoMap.lookupList]
        · simp [purgeCastBy, hT, GoMap.delete, GoMap.set, GoMap.empty]
  · simp only [hvalid, Bool.false_eq_true, false_and, if_false] at hV hT ⊢
    have hopen : ¬ ((S.voted S.config.Epoch h a).tallyOf h.Coinbase).Votes >
        (((S.voted S.config.Epoch h a).Signers.len / 2 : Nat) : Int) := by
      have h0 : ((S.voted S.config.Epoch h a).tallyOf h.Coinbase).Votes = 0 := by
        simp [Snapshot.tallyOf, hT]
      rw [h0]
      simp only [gt_iff_lt, not_lt]
      positivity
    rw [Snapshot.resolve_open _ _ hopen]
    exact ⟨hV, hT⟩

/-- C5 fails as stated: under an epoch of 3 blocks, the checkpoint header 3
sealed by `A` with an authorize vote on the non-signer `D = 4` is accepted from
a snapshot at block 2, and its own vote and tally are in the result. -/
theorem epoch_clear_counterexample :
    (mkHeader 3 1 4 nonceAuthVote).Number = checkpointBase.Number + 1 ∧
    (mkHeader 3 1 4 nonceAuthVote).Number % checkpointBase.config.Epoch = 0 ∧
    (checkpointBase.apply recoverExtra [mkHeader 3 1 4 nonceAuthVote]).toOption.map
        (fun s => (s.Votes, s.Tally)) =
      some ([Vote.mk 1 3 4 true], GoMap.mk [(4, Tally.mk true 1)]) := by
  decide

/-- C5 as amended, worked: the checkpoint header 3 of `A` carries a valid vote
and there are three signers, so the result holds exactly that vote. -/
theorem epoch_clear_amended_witness :
    (mkHeader 3 1 4 nonceAuthVote).Number = (checkpointBase.Number + 1) % u64 ∧
    ∃ a, recoverExtra (mkHeader 3 1 4 nonceAuthVote) = Except.ok a ∧
      if checkpointBase.validVote (mkHeader 3 1 4 nonceAuthVote).Coinbase
            (decide ((mkHeader 3 1 4 nonceAuthVote).Nonce = nonceAuthVote)) = true ∧
          2 ≤ checkpointBase.Signers.len then
        afterCheckpoint.Votes =
          [Vote.mk a (mkHeader 3 1 4 nonceAuthVote).Number
            (mkHeader 3 1 4 nonceAuthVote).Coinbase
            (decide ((mkHeader 3 1 4 nonceAuthVote).Nonce = nonceAuthVote))] ∧
        afterCheckpoint.Tally =
          GoMap.empty.set (mkHeader 3 1 4 nonceAuthVote).Coinbase
            ⟨decide ((mkHeader 3 1 4 nonceAuthVote).Nonce = nonceAuthVote), 1⟩
      else afterCheckpoint.Votes = [] ∧ afterCheckpoint.Tally = GoMap.empty :=
  epoch_clear_amended recoverExtra checkpointBase afterCheckpoint
    (mkHeader 3 1 4 nonceAuthVote) (by decide) (by decide)

/-! ## C6: the size of the signer set -/

theorem Snapshot.resolve_Signers_len (mid : Snapshot) (header : Header) :
    mid.Signers.len ≤ (mid.resolve header).Signers.len + 1 := by
  unfold Snapshot.resolve
  simp only []
  split
  · split
    · simp only [Snapshot.purgeSubject, Snapshot.admitSigner, GoMap.len_set]
      split <;> omega
    · simp only [Snapshot.purgeSubject, Snapshot.evict_Signers, GoMap.len_delete]
      split <;> omega
  · omega

theorem Snapshot.applyHeader_Signers_len {ecrecover : Header → Except Error Address}
    {epoch : Nat} {snap next : Snapshot} {header : Header}
    (hok : snap.applyHeader ecrecover epoch header = Except.ok next) :
    snap.Signers.len ≤ next.Signers.len + 1 := by
  obtain ⟨mid, hmid, rfl⟩ := Snapshot.applyHeader_ok hok
  obtain ⟨_, signer, _, _, _, _, rfl⟩ := Snapshot.castHeader_ok hmid
  have := Snapshot.resolve_Signers_len (snap.voted epoch header signer) header
  rwa [Snapshot.voted_Signers] at this

theorem applyHeaders_Signers_len {ecrecover : Header → Except Error Address} {epoch : Nat} :
    ∀ (headers : List Header) (snap last : Snapshot),
      applyHeaders ecrecover epoch snap headers = Except.ok last →
      snap.Signers.len ≤ last.Signers.len + headers.length
  | [], snap, last, h => by
    simp only [applyHeaders] at h
    injection h with h
    simp [h]
  | header :: rest, snap, last, h => by
    simp only [applyHeaders] at h
    split at h
    · cases h
    · rename_i mid hmid
      have h1 := Snapshot.applyHeader_Signers_len hmid
      have h2 := applyHeaders_Signers_len rest mid last h
      simp only [List.length_cons]
      omega

/-- C6, as amended. A successful `apply` removes at most one signer per
header: the result has at least `len(S.Signers) - len(H)` signers, so its
signer set is non-empty whenever `S` has more signers than `H` has headers.
(A sole signer that seals a drop vote against itself is evicted.) -/
theorem signers_lower_bound (ecrecover : Header → Except Error Address) (S S' : Snapshot)
    (H : List Header) (hok : S.apply ecrecover H = Except.ok S') :
    S.Signers.len ≤ S'.Signers.len + H.length ∧
    (H.length < S.Signers.len → 0 < S'.Signers.len) := by
  have hle : S.Signers.len ≤ S'.Signers.len + H.length := by
    rcases Snapshot.apply_ok hok with ⟨_, rfl⟩ | ⟨last, hlast, rfl⟩
    · omega
    · exact applyHeaders_Signers_len H S last hlast
  exact ⟨hle, fun h => by omega⟩

/-- C6 fails as stated: the sole signer `A` seals header 1 with a drop vote
against itself; the header is accepted and leaves no signer. -/
theorem signers_nonempty_counterexample :
    genesisA.Signers.len = 1 ∧
    (genesisA.apply recoverExtra [mkHeader 1 1 1 nonceDropVote]).toOption.map
        (fun s => s.Signers.len) = some 0 := by
  decide

/-- C6 as amended, worked: of the four signers `A`, `B`, `C`, `D` the header
that evicts `A` leaves three, one less and not none. -/
theorem signers_lower_bound_witness :
    beforeEviction.Signers.len = 4 ∧ afterEviction.Signers.len = 3 ∧
    beforeEviction.Signers.len ≤ afterEviction.Signers.len + 1 ∧
    (1 < beforeEviction.Signers.len → 0 < afterEviction.Signers.len) :=
  ⟨by decide, by decide,
   signers_lower_bound recoverExtra beforeEviction afterEviction
    [mkHeader 4 4 1 nonceDropVote] (by decide)⟩

/-! ## C7: recent signers and the signer set -/

theorem ReachableBy.reachable {ecrecover : Header → Except Error Address}
    {past : List Header} {S : Snapshot} (h : ReachableBy ecrecover past S) :
    Reachable ecrecover S := by
  induction h with
  | genesis config number hash signers => exact Reachable.genesis config number hash signers
  | step headers _ hok ih => exact Reachable.step headers ih hok

theorem contiguous_numberedFrom :
    ∀ (rest : List Header) (header : Header) (n : Nat),
      contiguous (header :: rest) = true → header.Number = n + 1 →
      n + (rest.length + 1) < u64 → numberedFrom n (header :: rest)
  | [], header, n, _, hn, _ => ⟨hn, trivial⟩
  | next :: rest, header, n, hc, hn, hlt => by
    simp only [contiguous, ne_eq, ite_not, Bool.if_false_right, Bool.and_eq_true,
      decide_eq_true_eq] at hc
    refine ⟨hn, contiguous_numberedFrom rest next (n + 1) hc.2 ?_ ?_⟩
    · rw [hc.1, hn]
      apply Nat.mod_eq_of_lt
      simp only [List.length_cons] at hlt
      omega
    · simp only [List.length_cons] at hlt
      omega

theorem Snapshot.voted_window (snap : Snapshot) (epoch : Nat) (header : Header)
    (signer : Address) {n : Nat} (hn : header.Number = n + 1)
    (hwin : snap.RecentsWindowAt n) :
    ∀ k, (snap.voted epoch header signer).Recents.has k = true →
      n + 2 - (snap.Signers.len / 2 + 1) ≤ k ∧ k ≤ n + 1 := by
  intro k hk
  rw [Snapshot.voted_Recents, GoMap.has_set, Snapshot.atCheck_Recents, hn] at hk
  by_cases hkn : k = n + 1
  · omega
  · simp only [hkn, decide_False, Bool.false_or] at hk
    split at hk
    · rename_i hle
      rw [GoMap.has_delete] at hk
      simp only [ne_eq, Bool.and_eq_true, decide_eq_true_eq] at hk
      have := hwin k hk.2
      omega
    · have := hwin k hk
      omega

theorem Snapshot.resolve_window (mid : Snapshot) (header : Header) {n L : Nat}
    (hn : header.Number = n + 1) (hL : mid.Signers.len = L)
    (hwin : ∀ k, mid.Recents.has k = true → n + 2 - (L / 2 + 1) ≤ k ∧ k ≤ n + 1) :
    (mid.resolve header).RecentsWindowAt (n + 1) := by
  intro k hk
  by_cases hpass : (mid.tallyOf header.Coinbase).Votes > ((mid.Signers.len / 2 : Nat) : Int)
  · cases hauth : (mid.tallyOf header.Coinbase).Authorize
    · rw [Snapshot.resolve_evicted _ _ hpass hauth] at hk ⊢
      have hk' : (mid.evict header).Recents.has k = true := hk
      have hlen : ((mid.evict header).purgeSubject header.Coinbase).Signers.len =
          if mid.Signers.has header.Coinbase = true then L - 1 else L := by
        simp only [Snapshot.purgeSubject, Snapshot.evict_Signers, GoMap.len_delete, hL]
      have hlen2 : ({ mid with Signers := mid.Signers.delete header.Coinbase } :
          Snapshot).Signers.len =
          if mid.Signers.has header.Coinbase = true then L - 1 else L := by
        simp only [GoMap.len_delete, hL]
      rw [hlen]
      unfold GoMap.has at hk'
      rw [Snapshot.evict_Recents, Snapshot.expireRecent_get?, hlen2, hn] at hk'
      have hold : mid.Recents.has k = true := by
        unfold GoMap.has
        by_cases hdel : (if mid.Signers.has header.Coinbase = true then L - 1 else L) / 2 + 1 ≤
            n + 1 ∧ k = n + 1 -
              ((if mid.Signers.has header.Coinbase = true then L - 1 else L) / 2 + 1)
        · rw [if_pos hdel] at hk'
          simp at hk'
        · rw [if_neg hdel] at hk'
          exact hk'
      have hkept : ¬ ((if mid.Signers.has header.Coinbase = true then L - 1 else L) / 2 + 1 ≤
            n + 1 ∧ k = n + 1 -
              ((if mid.Signers.has header.Coinbase = true then L - 1 else L) / 2 + 1)) := by
        intro hdel
        rw [if_pos hdel] at hk'
        simp at hk'
      have := hwin k hold
      by_cases hc : mid.Signers.has header.Coinbase = true
      · simp only [if_pos hc] at hkept ⊢
        omega
      · simp only [if_neg hc] at hkept ⊢
        omega
    · rw [Snapshot.resolve_admitted _ _ hpass hauth] at hk ⊢
      have hk' : mid.Recents.has k = true := hk
      have hlen : ((mid.admitSigner header.Coinbase).purgeSubject header.Coinbase).Signers.len =
          if mid.Signers.has header.Coinbase = true then L else L + 1 := by
        simp only [Snapshot.purgeSubject, Snapshot.admitSigner, GoMap.len_set, hL]
      rw [hlen]
      have := hwin k hk'
      split <;> omega
  · rw [Snapshot.resolve_open _ _ hpass] at hk ⊢
    have := hwin k hk
    rw [hL]
    omega

theorem Snapshot.applyHeader_window {ecrecover : Header → Except Error Address}
    {epoch : Nat} {snap next : Snapshot} {header : Header} {n : Nat}
    (hn : header.Number = n + 1) (hwin : snap.RecentsWindowAt n)
    (hok : snap.applyHeader ecrecover epoch header = Except.ok next) :
    next.RecentsWindowAt (n + 1) := by
  obtain ⟨mid, hmid, rfl⟩ := Snapshot.applyHeader_ok hok
  obtain ⟨_, signer, _, _, _, _, rfl⟩ := Snapshot.castHeader_ok hmid
  exact Snapshot.resolve_window (L := snap.Signers.len) _ _ hn
    (by rw [Snapshot.voted_Signers])
    (Snapshot.voted_window snap epoch header signer hn hwin)

theorem applyHeaders_window {ecrecover : Header → Except Error Address} {epoch : Nat} :
    ∀ (headers : List Header) (snap last : Snapshot) (n : Nat),
      numberedFrom n headers → snap.RecentsWindowAt n →
      applyHeaders ecrecover epoch snap headers = Except.ok last →
      last.RecentsWindowAt (n + headers.length)
  | [], snap, last, n, _, hwin, h => by
    simp only [applyHeaders] at h
    injection h with h
    subst h
    exact hwin
  | header :: rest, snap, last, n, hnum, hwin, h => by
    simp only [applyHeaders] at h
    split at h
    · cases h
    · rename_i next hnext
      have := applyHeaders_window rest next last (n + 1) hnum.2
        (Snapshot.applyHeader_window hnum.1 hwin hnext) h
      simp only [List.length_cons]
      rwa [Nat.add_assoc, Nat.add_comm 1] at this

theorem Snapshot.applyHeader_Number {ecrecover : Header → Except Error Address}
    {epoch : Nat} {snap next : Snapshot} {header : Header}
    (hok : snap.applyHeader ecrecover epoch header = Except.ok next) :
    next.Number = snap.Number := by
  obtain ⟨mid, hmid, rfl⟩ := Snapshot.applyHeader_ok hok
  obtain ⟨_, signer, _, _, _, _, rfl⟩ := Snapshot.castHeader_ok hmid
  unfold Snapshot.resolve
  simp only []
  split
  · split
    · simp [Snapshot.purgeSubject, Snapshot.admitSigner, Snapshot.voted, Snapshot.atCheck]
    · simp [Snapshot.purgeSubject, Snapshot.evict, Snapshot.voted, Snapshot.atCheck]
  · simp [Snapshot.voted, Snapshot.atCheck]

/-- C8. If the keys of the recents of `S` lie in the window
`[S.Number - K + 1, S.Number]` (clamped at zero, `K = len(S.Signers)/2 + 1`)
and `apply` succeeds on `H`, the heights staying below `2 ^ 64`, then the keys
of the recents of the result lie in the window of the result, taken with its
own number and its own signer count. -/
theorem recents_window (ecrecover : Header → Except Error Address) (S S' : Snapshot)
    (H : List Header)
    (hwin : S.RecentsWindow)
    (hok : S.apply ecrecover H = Except.ok S')
    (hno : S.Number + H.length < u64) :
    S'.RecentsWindow := by
  rcases Snapshot.apply_ok hok with ⟨_, rfl⟩ | ⟨last, hlast, rfl⟩
  · exact hwin
  · have hN : last.Number = S.Number :=
      applyHeaders_preserves (fun s => s.Number = S.Number)
        (fun _ _ _ hP hstep => (Snapshot.applyHeader_Number hstep).trans hP) H S last rfl hlast
    have hnum : numberedFrom S.Number H := by
      match H, hok, hno with
      | [], _, _ => trivial
      | first :: rest, hok, hno =>
        unfold Snapshot.apply at hok
        simp only [] at hok
        split_ifs at hok with h1 h2
        have h1' : contiguous (first :: rest) = true := by simpa using h1
        simp only [ne_eq, not_not] at h2
        simp only [List.length_cons] at hno
        refine contiguous_numberedFrom rest first S.Number h1' ?_ hno
        rw [h2]
        apply Nat.mod_eq_of_lt
        omega
    have := applyHeaders_window H S last S.Number hnum hwin hlast
    unfold Snapshot.RecentsWindow
    simp only [hN, Nat.mod_eq_of_lt hno]
    exact this

/-- C8, worked: the two headers voting `D` in raise the signer count from 3 to
4 and `K` from 2 to 3; the recents of the result lie in its window. -/
theorem recents_window_witness : afterAdmission.RecentsWindow :=
  recents_window recoverExtra genesisABC afterAdmission
    [mkHeader 1 1 4 nonceAuthVote, mkHeader 2 2 4 nonceAuthVote]
    (fun k hk => by
      simp [genesisABC, newSnapshot, initSigners_Recents, GoMap.has, GoMap.get?_empty] at hk)
    (by decide) (by decide)

/-! ## C9: the recents throttle -/

theorem Snapshot.resolve_config (mid : Snapshot) (header : Header) :
    (mid.resolve header).config = mid.config := by
  unfold Snapshot.resolve
  simp only []
  split
  · split
    · simp [Snapshot.purgeSubject, Snapshot.admitSigner]
    · simp [Snapshot.purgeSubject, Snapshot.evict]
  · rfl

theorem Snapshot.voted_config (snap : Snapshot) (epoch : Nat) (header : Header)
    (signer : Address) : (snap.voted epoch header signer).config = snap.config := by
  simp [Snapshot.voted, Snapshot.atCheck]

/-- C9. Let `S` be a snapshot with a non-zero epoch in which `a` is a signer
and the recent signer of block `S.Number`. (1) If `S` has at least two
signers, a header numbered `S.Number + 1` (in `uint64` arithmetic) whose
recovered signer is `a` fails with `errRecentlySigned`. (2) If `S` has exactly
three signers, its recents lie in the window of the snapshot invariant, and the
heights stay below `2 ^ 64`: after another signer `b` has sealed block
`S.Number + 1` without changing the signer set, a header numbered
`S.Number + 2`, sealed by `a` with a valid nonce, is accepted. -/
theorem recents_throttle (ecrecover : Header → Except Error Address) (S : Snapshot)
    (a : Address)
    (hepoch : S.config.Epoch ≠ 0)
    (hlast : S.Recents.get? S.Number = some a)
    (ha : S.Signers.has a = true) :
    (∀ h, 2 ≤ S.Signers.len → h.Number = (S.Number + 1) % u64 →
      ecrecover h = Except.ok a →
      S.apply ecrecover [h] = Except.error Error.errRecentlySigned) ∧
    (∀ (h1 h2 : Header) (b : Address) (S1 : Snapshot),
      S.Signers.len = 3 → S.RecentsWindow → S.Number + 2 < u64 →
      h1.Number = S.Number + 1 → ecrecover h1 = Except.ok b → b ≠ a →
      S.apply ecrecover [h1] = Except.ok S1 →
      (∀ x, S1.Signers.has x = S.Signers.has x) →
      h2.Number = S.Number + 2 → ecrecover h2 = Except.ok a →
      (h2.Nonce = nonceAuthVote ∨ h2.Nonce = nonceDropVote) →
      ∃ S2, S1.apply ecrecover [h2] = Except.ok S2) := by
  constructor
  · intro h hlen halign hrec
    have hle : h.Number ≤ S.Number + 1 := halign ▸ Nat.mod_le _ _
    have hval : (S.atCheck S.config.Epoch h).Recents.hasValue a = true := by
      rw [GoMap.hasValue_iff]
      refine ⟨S.Number, ?_⟩
      rw [Snapshot.atCheck_Recents]
      split
      · rw [GoMap.get?_delete_of_ne _ (by omega)]
        exact hlast
      · exact hlast
    rw [Snapshot.apply_single]
    unfold Snapshot.applyHeader
    rw [Snapshot.castHeader_eq S hepoch hrec]
    simp [halign, ha, hval]
  · intro h1 h2 b S1 hlen hwin hno hn1 hrec1 hba hok1 hsig hn2 hrec2 hnonce
    obtain ⟨_, _, b', hrec1', _, _, _, hS1⟩ := Snapshot.apply_single_inv hok1
    have hb' : b' = b := by
      rw [hrec1] at hrec1'
      injection hrec1' with hb
      exact hb.symm
    subst hb'
    have hmod1 : (S.Number + 1) % u64 = S.Number + 1 := Nat.mod_eq_of_lt (by omega)
    have hN1 : S1.Number = S.Number + 1 := by rw [hS1]; exact hmod1
    have hC1 : S1.config = S.config := by
      rw [hS1]
      show ((S.voted S.config.Epoch h1 b').resolve h1).config = S.config
      rw [Snapshot.resolve_config, Snapshot.voted_config]
    have hR1 : S1.Recents = ((S.voted S.config.Epoch h1 b').resolve h1).Recents := by
      rw [hS1]
    have hL1 : S1.Signers.len = 3 := by
      rw [← hlen]
      exact GoMap.len_congr _ _ hsig
    have hwin1 : ((S.voted S.config.Epoch h1 b').resolve h1).RecentsWindowAt (S.Number + 1) :=
      Snapshot.resolve_window (L := S.Signers.len) _ _ hn1
        (by rw [Snapshot.voted_Signers])
        (Snapshot.voted_window S S.config.Epoch h1 b' hn1 hwin)
    have hS1sig : ((S.voted S.config.Epoch h1 b').resolve h1).Signers = S1.Signers := by
      rw [hS1]
    have hnew : S1.Recents.get? (S.Number + 1) = some b' := by
      rw [hR1, Snapshot.resolve_Recents_get?_of_le _ _ (by omega), Snapshot.voted_Recents, hn1]
      simp
    have hval : (S1.atCheck S1.config.Epoch h2).Recents.hasValue a = false := by
      rw [← Bool.not_eq_true, GoMap.hasValue_iff]
      rintro ⟨k, hk⟩
      rw [Snapshot.atCheck_Recents, hL1, hn2] at hk
      simp only [show 3 / 2 + 1 ≤ S.Number + 2 from by omega, if_true] at hk
      rw [GoMap.get?_delete] at hk
      split at hk
      · cases hk
      · rename_i hne
        have hhas : ((S.voted S.config.Epoch h1 b').resolve h1).Recents.has k = true := by
          rw [← hR1]
          simp [GoMap.has, hk]
        have hb := hwin1 k hhas
        rw [hS1sig, hL1] at hb
        have hk1 : k = S.Number + 1 := by omega
        rw [hk1, hnew] at hk
        injection hk with hk
        exact hba hk
    refine ⟨_, Snapshot.apply_single_ok S1 (hC1 ▸ hepoch) ?_ hrec2 ?_ hval hnonce⟩
    · rw [hn2, hN1]
      exact (Nat.mod_eq_of_lt (by omega)).symm
    · rw [hsig]
      exact ha

/-- C9, worked: three signers, `A` has sealed block 1; its block 2 is refused
as recently signed; after `B` has sealed block 2 with a vote that changes no
signer, the block 3 sealed by `A` is accepted. -/
theorem recents_throttle_witness :
    afterFirstVote.apply recoverExtra [mkHeader 2 1 0 nonceDropVote] =
      Except.error Error.errRecentlySigned ∧
    ∃ S2, afterSecondSeal.apply recoverExtra [mkHeader 3 1 0 nonceDropVote] = Except.ok S2 :=
  ⟨(recents_throttle recoverExtra afterFirstVote 1 (by decide) (by decide) (by decide)).1
      (mkHeader 2 1 0 nonceDropVote) (by decide) (by decide) rfl,
   (recents_throttle recoverExtra afterFirstVote 1 (by decide) (by decide) (by decide)).2
      (mkHeader 2 2 0 nonceDropVote) (mkHeader 3 1 0 nonceDropVote) 2 afterSecondSeal
      (by decide)
      (fun k hk => by
        have hk1 : k = 1 := by
          by_contra hne
          have : afterFirstVote.Recents = GoMap.mk [(1, 1)] := by decide
          rw [this] at hk
          simp [GoMap.has, GoMap.get?, GoMap.lookupList] at hk
          exact hne hk.symm
        subst hk1
        decide)
      (by decide) (by decide) rfl (by decide) (by decide)
      (fun x => by
        have h1 : afterSecondSeal.Signers = afterFirstVote.Signers := by decide
        rw [h1])
      (by decide) rfl (Or.inr (by decide))⟩

/-! ## C10: health and performance are well formed -/

theorem GetPerformance_set (s : Snapshot) (c a : Address) (p : Int) :
    ({ s with Performance := s.Performance.set c p } : Snapshot).GetPerformance a =
      if a = c then p else s.GetPerformance a := by
  unfold Snapshot.GetPerformance
  simp only [GoMap.get?_set]
  split <;> rfl

theorem Snapshot.HealthPerfWF.admitSigner {s : Snapshot} (h : s.HealthPerfWF) (c : Address) :
    (s.admitSigner c).HealthPerfWF := by
  obtain ⟨h1, h2, h3⟩ := h
  refine ⟨?_, ?_, ?_⟩
  · intro a
    simp only [Snapshot.admitSigner, GoMap.has_set, h1]
  · intro a
    simp only [Snapshot.admitSigner, GoMap.has_set, h2]
  · intro a ha
    simp only [Snapshot.admitSigner, GoMap.has_set, Bool.or_eq_true, decide_eq_true_eq] at ha
    unfold Snapshot.GetPerformance
    simp only [Snapshot.admitSigner, GoMap.get?_set]
    split
    · exact le_refl _
    · rename_i hne
      rcases ha with ha | ha
      · exact absurd ha hne
      · exact h3 a ha

theorem Snapshot.HealthPerfWF.evict {s : Snapshot} (h : s.HealthPerfWF) (header : Header) :
    (s.evict header).HealthPerfWF := by
  obtain ⟨h1, h2, h3⟩ := h
  refine ⟨?_, ?_, ?_⟩
  · intro a
    rw [Snapshot.evict_Health, Snapshot.evict_Signers, GoMap.has_delete, GoMap.has_delete, h1]
  · intro a
    rw [Snapshot.evict_Performance, Snapshot.evict_Signers, GoMap.has_delete,
      GoMap.has_delete, h2]
  · intro a ha
    rw [Snapshot.evict_Signers, GoMap.has_delete] at ha
    simp only [ne_eq, Bool.and_eq_true, decide_eq_true_eq] at ha
    unfold Snapshot.GetPerformance
    rw [Snapshot.evict_Performance, GoMap.get?_delete_of_ne _ ha.1]
    exact h3 a ha.2

theorem Snapshot.HealthPerfWF.resolve {s : Snapshot} (h : s.HealthPerfWF) (header : Header) :
    (s.resolve header).HealthPerfWF := by
  unfold Snapshot.resolve
  simp only []
  split
  · split
    · exact h.admitSigner header.Coinbase
    · exact h.evict header
  · exact h

theorem Snapshot.voted_Health (snap : Snapshot) (epoch : Nat) (header : Header)
    (signer : Address) : (snap.voted epoch header signer).Health = snap.Health := by
  simp [Snapshot.voted, Snapshot.atCheck]

theorem Snapshot.voted_Performance (snap : Snapshot) (epoch : Nat) (header : Header)
    (signer : Address) : (snap.voted epoch header signer).Performance = snap.Performance := by
  simp [Snapshot.voted, Snapshot.atCheck]

theorem Snapshot.applyHeader_healthPerfWF {ecrecover : Header → Except Error Address}
    {epoch : Nat} {snap next : Snapshot} {header : Header} (h : snap.HealthPerfWF)
    (hok : snap.applyHeader ecrecover epoch header = Except.ok next) :
    next.HealthPerfWF := by
  obtain ⟨mid, hmid, rfl⟩ := Snapshot.applyHeader_ok hok
  obtain ⟨_, signer, _, _, _, _, rfl⟩ := Snapshot.castHeader_ok hmid
  apply Snapshot.HealthPerfWF.resolve
  unfold Snapshot.HealthPerfWF Snapshot.GetPerformance
  rw [Snapshot.voted_Health, Snapshot.voted_Performance, Snapshot.voted_Signers]
  exact h

theorem initSigners_healthPerfWF (signers : List Address) :
    ∀ snap : Snapshot, snap.HealthPerfWF → (initSigners snap signers).HealthPerfWF := by
  induction signers with
  | nil => exact fun _ h => h
  | cons c rest ih =>
    intro snap h
    exact ih _ (h.admitSigner c)

theorem SetPerformance_healthPerfWF (s : Snapshot) (a : Address) (p : Int)
    (h : s.HealthPerfWF) : (s.SetPerformance a p).1.HealthPerfWF := by
  unfold Snapshot.SetPerformance
  by_cases ha : s.Signers.has a = true
  · by_cases hp : p < 0
    · simp only [ha, Bool.not_true, Bool.false_eq_true, if_false, hp, if_true]
      exact h
    · simp only [ha, Bool.not_true, Bool.false_eq_true, if_false, hp]
      obtain ⟨h1, h2, h3⟩ := h
      refine ⟨h1, ?_, ?_⟩
      · intro x
        simp only [GoMap.has_set, h2]
        by_cases hx : x = a
        · simp [hx, ha]
        · simp [hx]
      · intro x hx
        rw [GetPerformance_set]
        split
        · omega
        · exact h3 x hx
  · simp only [Bool.not_eq_true] at ha
    simp only [ha, Bool.not_false, if_true]
    exact h

theorem MarkHealth_healthPerfWF (s : Snapshot) (a : Address) (v : SignerHealth)
    (h : s.HealthPerfWF) (ha : s.Signers.has a = true) :
    ({ s with Health := s.Health.set a v } : Snapshot).HealthPerfWF := by
  obtain ⟨h1, h2, h3⟩ := h
  refine ⟨?_, h2, h3⟩
  intro x
  simp only [GoMap.has_set, h1]
  by_cases hx : x = a
  · simp [hx, ha]
  · simp [hx]

/-- C10. The predicate "the key set of `Health` and the key set of
`Performance` are the signer set, and the performance of every signer is not
negative" holds for every snapshot built by `newSnapshot` and is preserved by
every successful `apply` and by `MarkHealthy`, `MarkUnhealthy` and
`SetPerformance`, whether they succeed or fail. -/
theorem health_performance_wellformed (ecrecover : Header → Except Error Address) :
    (∀ (config : PoiConfig) (number : Nat) (hash : Hash) (signers : List Address),
      (newSnapshot config number hash signers).HealthPerfWF) ∧
    (∀ (S S' : Snapshot) (H : List Header), S.HealthPerfWF →
      S.apply ecrecover H = Except.ok S' → S'.HealthPerfWF) ∧
    (∀ (S : Snapshot) (a : Address), S.HealthPerfWF → (S.MarkHealthy a).HealthPerfWF) ∧
    (∀ (S : Snapshot) (a : Address), S.HealthPerfWF → (S.MarkUnhealthy a).HealthPerfWF) ∧
    (∀ (S : Snapshot) (a : Address) (p : Int), S.HealthPerfWF →
      (S.SetPerformance a p).1.HealthPerfWF) := by
  refine ⟨?_, ?_, ?_, ?_, ?_⟩
  · intro config number hash signers
    apply initSigners_healthPerfWF
    refine ⟨fun a => rfl, fun a => rfl, ?_⟩
    intro a ha
    simp at ha
  · intro S S' H hS hok
    exact Snapshot.apply_preserves Snapshot.HealthPerfWF
      (fun _ _ _ _ hP hstep => Snapshot.applyHeader_healthPerfWF hP hstep)
      (fun _ _ _ hP => hP) hS hok
  · intro S a hS
    unfold Snapshot.MarkHealthy
    split
    · rename_i ha
      exact MarkHealth_healthPerfWF S a _ hS ha
    · exact hS
  · intro S a hS
    unfold Snapshot.MarkUnhealthy
    split
    · rename_i ha
      exact MarkHealth_healthPerfWF S a _ hS ha
    · exact hS
  · intro S a p hS
    exact SetPerformance_healthPerfWF S a p hS

/-- C10, worked: the snapshot in which `D` has been admitted, then marked
unhealthy and given the performance 7, is well formed; so is it after a
refused negative performance. -/
theorem health_performance_wellformed_witness :
    (((afterAdmission.MarkUnhealthy 4).SetPerformance 4 7).1).HealthPerfWF ∧
    ((afterAdmission.SetPerformance 4 (-1)).1).HealthPerfWF :=
  have hA : afterAdmission.HealthPerfWF :=
    (health_performance_wellformed recoverExtra).2.1 genesisABC afterAdmission
      [mkHeader 1 1 4 nonceAuthVote, mkHeader 2 2 4 nonceAuthVote]
      ((health_performance_wellformed recoverExtra).1 testConfig 0 0 [1, 2, 3]) (by decide)
  ⟨(health_performance_wellformed recoverExtra).2.2.2.2 _ 4 7
      ((health_performance_wellformed recoverExtra).2.2.2.1 _ 4 hA),
   (health_performance_wellformed recoverExtra).2.2.2.2 _ 4 (-1) hA⟩

/-! ## C11: at most one open vote per signer and subject -/

theorem Snapshot.discardPrevious_none_left (s : Snapshot) (a c : Address)
    (h : UniqueVotes s.Votes) :
    ∀ v ∈ (s.discardPrevious a c).Votes, ¬ (v.Signer = a ∧ v.Address = c) := by
  unfold Snapshot.discardPrevious
  split
  · rename_i hfind
    intro v hv hp
    have := List.find?_eq_none.1 hfind v hv
    simp [hp.1, hp.2] at this
  · rename_i vote hfind
    obtain ⟨hp, l₁, l₂, hl, he⟩ := find?_eraseP_split _ _ _ hfind
    simp only [Bool.and_eq_true, decide_eq_true_eq] at hp
    simp only [he]
    unfold UniqueVotes at h
    rw [hl, List.pairwise_append] at h
    obtain ⟨_, h2, h3⟩ := h
    rw [List.pairwise_cons] at h2
    intro v hv hpv
    rcases List.mem_append.1 hv with hv | hv
    · exact h3 v hv vote (List.mem_cons_self _ _) ⟨hpv.1.trans hp.1.symm, hpv.2.trans hp.2.symm⟩
    · exact h2.1 v hv ⟨hp.1.trans hpv.1.symm, hp.2.trans hpv.2.symm⟩

theorem Snapshot.discardPrevious_unique (s : Snapshot) (a c : Address)
    (h : UniqueVotes s.Votes) : UniqueVotes (s.discardPrevious a c).Votes := by
  unfold Snapshot.discardPrevious
  split
  · exact h
  · exact List.Pairwise.sublist (List.eraseP_sublist _) h

theorem Snapshot.voted_unique (snap : Snapshot) (epoch : Nat) (header : Header)
    (signer : Address) (h : UniqueVotes snap.Votes) :
    UniqueVotes (snap.voted epoch header signer).Votes := by
  have hpre : UniqueVotes ({ snap.atCheck epoch header with
      Recents := (snap.atCheck epoch header).Recents.set header.Number signer } :
      Snapshot).Votes := by
    simp only [Snapshot.atCheck, Snapshot.expireRecent_Votes]
    unfold Snapshot.clearEpoch
    split
    · exact List.Pairwise.nil
    · exact h
  unfold Snapshot.voted
  rw [Snapshot.tallyVote_Votes]
  split
  · unfold UniqueVotes
    rw [List.pairwise_append]
    refine ⟨Snapshot.discardPrevious_unique _ _ _ hpre, List.pairwise_singleton _ _, ?_⟩
    intro v hv w hw
    simp only [List.mem_singleton] at hw
    subst hw
    exact Snapshot.discardPrevious_none_left _ _ _ hpre v hv
  · exact Snapshot.discardPrevious_unique _ _ _ hpre

theorem Snapshot.resolve_Votes_sublist (mid : Snapshot) (header : Header) :
    (mid.resolve header).Votes.Sublist mid.Votes := by
  unfold Snapshot.resolve
  simp only []
  split
  · split
    · exact List.filter_sublist _
    · simp only [Snapshot.purgeSubject, Snapshot.evict_Votes]
      exact (List.filter_sublist _).trans (List.filter_sublist _)
  · exact List.Sublist.refl _

theorem Snapshot.applyHeader_unique {ecrecover : Header → Except Error Address}
    {epoch : Nat} {snap next : Snapshot} {header : Header} (h : UniqueVotes snap.Votes)
    (hok : snap.applyHeader ecrecover epoch header = Except.ok next) :
    UniqueVotes next.Votes := by
  obtain ⟨mid, hmid, rfl⟩ := Snapshot.applyHeader_ok hok
  obtain ⟨_, signer, _, _, _, _, rfl⟩ := Snapshot.castHeader_ok hmid
  exact List.Pairwise.sublist (Snapshot.resolve_Votes_sublist _ _)
    (Snapshot.voted_unique snap epoch header signer h)

theorem UniqueVotes.votesByOn_le_one {votes : List Vote} (h : UniqueVotes votes)
    (a c : Address) : votesByOn a c votes ≤ 1 := by
  induction votes with
  | nil => simp [votesByOn]
  | cons v vs ih =>
    unfold UniqueVotes at h
    rw [List.pairwise_cons] at h
    have ih' := ih h.2
    unfold votesByOn at ih' ⊢
    rw [List.countP_cons]
    by_cases hv : v.Signer = a ∧ v.Address = c
    · have hzero : List.countP (fun v => decide (v.Signer = a) && decide (v.Address = c)) vs = 0 := by
        rw [List.countP_eq_zero]
        intro w hw hp
        simp only [Bool.and_eq_true, decide_eq_true_eq] at hp
        exact h.1 w hw ⟨hv.1.trans hp.1.symm, hv.2.trans hp.2.symm⟩
      rw [hzero]
      split <;> omega
    · have : ¬ ((decide (v.Signer = a) && decide (v.Address = c)) = true) := by
        simpa using hv
      rw [if_neg this]
      omega

/-- C11. If no two votes of `S` share the same (signer, subject) pair and
`apply` succeeds on `H`, then no two votes of the result share the same pair:
for every signer `a` and subject `c` the result holds at most one vote of `a`
on `c` (a signer who votes again on a subject replaces the earlier vote). -/
theorem unique_votes (ecrecover : Header → Except Error Address) (S S' : Snapshot)
    (H : List Header)
    (hS : UniqueVotes S.Votes)
    (hok : S.apply ecrecover H = Except.ok S') :
    UniqueVotes S'.Votes ∧ ∀ a c, votesByOn a c S'.Votes ≤ 1 := by
  have h : UniqueVotes S'.Votes :=
    Snapshot.apply_preserves (fun s => UniqueVotes s.Votes)
      (fun _ _ _ _ hP hstep => Snapshot.applyHeader_unique hP hstep)
      (fun _ _ _ hP => hP) hS hok
  exact ⟨h, fun a c => h.votesByOn_le_one a c⟩

/-- C11, worked: `A` holds the vote of block 1 on `D = 4`; when `A` votes again
on `D` in block 3, the result holds the vote of block 3 alone. -/
theorem unique_votes_witness :
    afterSecondSeal.Votes = [Vote.mk 1 1 4 true] ∧
    afterRevote.Votes = [Vote.mk 1 3 4 true] ∧
    UniqueVotes afterRevote.Votes ∧ ∀ a c, votesByOn a c afterRevote.Votes ≤ 1 :=
  ⟨by decide, by decide,
   unique_votes recoverExtra afterSecondSeal afterRevote [mkHeader 3 1 4 nonceAuthVote]
    (by
      have h : afterSecondSeal.Votes = [Vote.mk 1 1 4 true] := by decide
      rw [h]
      exact List.pairwise_singleton _ _)
    (by decide)⟩

/-! ## C12: the number and the hash of the result -/

/-- A successful `apply` on at least one header has passed the two checks of
lines 194-201. -/
theorem Snapshot.apply_aligned {ecrecover : Header → Except Error Address}
    {S S' : Snapshot} {first : Header} {rest : List Header}
    (hok : S.apply ecrecover (first :: rest) = Except.ok S') :
    contiguous (first :: rest) = true ∧ first.Number = (S.Number + 1) % u64 := by
  unfold Snapshot.apply at hok
  simp only [] at hok
  split_ifs at hok with h1 h2
  exact ⟨by simpa using h1, by simpa using h2⟩

theorem contiguous_getLast :
    ∀ (rest : List Header) (first : Header) (n : Nat),
      contiguous (first :: rest) = true → first.Number = (n + 1) % u64 →
      ∀ last, (first :: rest).getLast? = some last →
        last.Number = (n + (rest.length + 1)) % u64
  | [], first, n, _, hn, last, hlast => by
    simp only [List.getLast?_singleton, Option.some.injEq] at hlast
    subst hlast
    simpa using hn
  | next :: rest, first, n, hc, hn, last, hlast => by
    simp only [contiguous, ne_eq, ite_not, Bool.if_false_right, Bool.and_eq_true,
      decide_eq_true_eq] at hc
    have hnext : next.Number = (n + 1 + 1) % u64 := by
      rw [hc.1, hn, Nat.add_mod, Nat.mod_mod, ← Nat.add_mod]
    have hlast' : (next :: rest).getLast? = some last := by
      simpa [List.getLast?_cons_cons] using hlast
    have := contiguous_getLast rest next (n + 1) hc.2 hnext last hlast'
    rw [this]
    simp only [List.length_cons]
    congr 1
    omega

theorem applyHeaders_Number {ecrecover : Header → Except Error Address} {epoch : Nat}
    {headers : List Header} {snap last : Snapshot}
    (h : applyHeaders ecrecover epoch snap headers = Except.ok last) :
    last.Number = snap.Number :=
  applyHeaders_preserves (fun s => s.Number = snap.Number)
    (fun _ _ _ hP hstep => (Snapshot.applyHeader_Number hstep).trans hP) headers snap last rfl h

/-- C12. If `apply` succeeds on a non-empty header sequence `H`, the result
has the number `S.Number + len(H)` computed in `uint64` arithmetic, which is
the number of the last header of `H` and, as long as the sum stays below
`2 ^ 64`, the sum itself; and it has the hash of the last header of `H`. -/
theorem apply_number_hash (ecrecover : Header → Except Error Address) (S S' : Snapshot)
    (H : List Header) (last : Header)
    (hlast : H.getLast? = some last)
    (hok : S.apply ecrecover H = Except.ok S') :
    S'.Number = (S.Number + H.length) % u64 ∧
    S'.Number = last.Number ∧
    (S.Number + H.length < u64 → S'.Number = S.Number + H.length) ∧
    S'.Hash = last.Hash := by
  match H, hlast, hok with
  | [], hlast, _ => simp at hlast
  | first :: rest, hlast, hok =>
    obtain ⟨hc, hfirst⟩ := Snapshot.apply_aligned hok
    rcases Snapshot.apply_ok hok with ⟨hnil, _⟩ | ⟨final, hfinal, rfl⟩
    · cases hnil
    · have hN := applyHeaders_Number hfinal
      have hnum : (final.Number + (first :: rest).length) % u64 =
          (S.Number + (first :: rest).length) % u64 := by rw [hN]
      refine ⟨hnum, ?_, ?_, ?_⟩
      · rw [contiguous_getLast rest first S.Number hc hfirst last hlast]
        exact hnum
      · intro hlt
        show (final.Number + (first :: rest).length) % u64 = _
        rw [hnum]
        exact Nat.mod_eq_of_lt hlt
      · show ((first :: rest).getLast?.map Header.Hash).getD 0 = last.Hash
        rw [hlast]
        rfl

/-- C12, worked: the two headers 1 and 2 applied to the genesis at block 0
give a snapshot at block 2 with the hash of header 2. -/
theorem apply_number_hash_witness :
    afterAdmission.Number = (genesisABC.Number + 2) % u64 ∧
    afterAdmission.Number = (mkHeader 2 2 4 nonceAuthVote).Number ∧
    (genesisABC.Number + 2 < u64 → afterAdmission.Number = genesisABC.Number + 2) ∧
    afterAdmission.Hash = (mkHeader 2 2 4 nonceAuthVote).Hash :=
  apply_number_hash recoverExtra genesisABC afterAdmission
    [mkHeader 1 1 4 nonceAuthVote, mkHeader 2 2 4 nonceAuthVote]
    (mkHeader 2 2 4 nonceAuthVote) rfl (by decide)

/-! ## C13: the alignment precheck -/

theorem contiguous_eq_false_iff :
    ∀ (H : List Header), contiguous H = false ↔
      ∃ i a b, H.get? i = some a ∧ H.get? (i + 1) = some b ∧
        b.Number ≠ (a.Number + 1) % u64
  | [] => by simp [contiguous]
  | [h] => by simp [contiguous]
  | h1 :: h2 :: rest => by
    have ih := contiguous_eq_false_iff (h2 :: rest)
    simp only [contiguous, ne_eq, ite_not, Bool.if_false_right, Bool.and_eq_false_imp,
      decide_eq_true_eq]
    constructor
    · intro h
      by_cases h12 : h2.Number = (h1.Number + 1) % u64
      · obtain ⟨i, a, b, ha, hb, hne⟩ := ih.1 (h h12)
        exact ⟨i + 1, a, b, by simpa using ha, by simpa using hb, hne⟩
      · exact ⟨0, h1, h2, rfl, rfl, h12⟩
    · rintro ⟨i, a, b, ha, hb, hne⟩ h12
      cases i with
      | zero =>
        simp only [List.get?_cons_zero, Option.some.injEq, zero_add, List.get?_cons_succ] at ha hb
        subst ha
        subst hb
        exact absurd h12 hne
      | succ i =>
        exact ih.2 ⟨i, a, b, by simpa using ha, by simpa using hb, hne⟩

/-- The errors `apply` raises by itself while it processes headers are never
`errInvalidVotingChain`: such an error of one header is that of `ecrecover`. -/
theorem Snapshot.castHeader_chain_error {ecrecover : Header → Except Error Address}
    {epoch : Nat} {snap : Snapshot} {header : Header}
    (h : snap.castHeader ecrecover epoch header = Except.error Error.errInvalidVotingChain) :
    ecrecover header = Except.error Error.errInvalidVotingChain := by
  by_cases hE : epoch = 0
  · simp [Snapshot.castHeader, hE] at h
  · cases hrec : ecrecover header with
    | error err =>
      simp only [Snapshot.castHeader, hE, if_false, hrec] at h
      injection h with h
      rw [h]
    | ok signer =>
      rw [Snapshot.castHeader_eq snap hE hrec] at h
      split_ifs at h <;> cases h

theorem applyHeaders_chain_error {ecrecover : Header → Except Error Address} {epoch : Nat} :
    ∀ (headers : List Header) (snap : Snapshot),
      applyHeaders ecrecover epoch snap headers = Except.error Error.errInvalidVotingChain →
      ∃ h ∈ headers, ecrecover h = Except.error Error.errInvalidVotingChain
  | [], snap, h => by simp [applyHeaders] at h
  | header :: rest, snap, h => by
    simp only [applyHeaders] at h
    split at h
    · rename_i err herr
      injection h with h
      subst h
      unfold Snapshot.applyHeader at herr
      split at herr
      · rename_i err' herr'
        injection herr with herr
        subst herr
        exact ⟨header, List.mem_cons_self _ _, Snapshot.castHeader_chain_error herr'⟩
      · cases herr
    · rename_i next _
      obtain ⟨h', hmem, hh⟩ := applyHeaders_chain_error rest next h
      exact ⟨h', List.mem_cons_of_mem _ hmem, hh⟩

/-- C13. For a non-empty header sequence `H` with first header `first`: if
some header does not follow its predecessor (its number is not the
predecessor's plus one, in `uint64` arithmetic) or `first` does not follow
`S`, then `apply` returns `errInvalidVotingChain`, whatever the headers hold
otherwise, whatever `ecrecover` answers and whatever the epoch. If on the
contrary every header follows its predecessor and `first` follows `S`, then
`apply` returns `errInvalidVotingChain` only when `ecrecover` itself returned
that error for a header of `H`. -/
theorem alignment_precheck (ecrecover : Header → Except Error Address) (S : Snapshot)
    (first : Header) (rest : List Header) :
    (((∃ i a b, (first :: rest).get? i = some a ∧ (first :: rest).get? (i + 1) = some b ∧
          b.Number ≠ (a.Number + 1) % u64) ∨
        first.Number ≠ (S.Number + 1) % u64) →
      S.apply ecrecover (first :: rest) = Except.error Error.errInvalidVotingChain) ∧
    ((¬ ∃ i a b, (first :: rest).get? i = some a ∧ (first :: rest).get? (i + 1) = some b ∧
          b.Number ≠ (a.Number + 1) % u64) →
      first.Number = (S.Number + 1) % u64 →
      S.apply ecrecover (first :: rest) = Except.error Error.errInvalidVotingChain →
      ∃ h ∈ first :: rest, ecrecover h = Except.error Error.errInvalidVotingChain) := by
  constructor
  · intro h
    unfold Snapshot.apply
    simp only []
    by_cases hc : contiguous (first :: rest) = true
    · rcases h with h | h
      · have := (contiguous_eq_false_iff (first :: rest)).2 h
        rw [hc] at this
        cases this
      · simp [hc, h]
    · simp [hc]
  · intro hpairs hfirst herr
    have hc : contiguous (first :: rest) = true := by
      by_contra hne
      simp only [Bool.not_eq_true] at hne
      exact hpairs ((contiguous_eq_false_iff _).1 hne)
    unfold Snapshot.apply at herr
    simp only [hc, Bool.not_true, Bool.false_eq_true, if_false, hfirst, ne_eq,
      not_true_eq_false] at herr
    split at herr
    · rename_i err herr'
      injection herr with herr
      subst herr
      exact applyHeaders_chain_error _ _ herr'
    · cases herr

/-- C13, worked: header 3 after header 1 is refused as an invalid voting
chain although the extra-data `0` of header 1 cannot be recovered; so is a
first header 2 on the genesis at block 0. -/
theorem alignment_precheck_witness :
    genesisABC.apply recoverExtra [mkHeader 1 0 4 nonceAuthVote, mkHeader 3 2 4 nonceAuthVote] =
      Except.error Error.errInvalidVotingChain ∧
    genesisABC.apply recoverExtra [mkHeader 2 0 4 nonceAuthVote] =
      Except.error Error.errInvalidVotingChain :=
  ⟨(alignment_precheck recoverExtra genesisABC (mkHeader 1 0 4 nonceAuthVote)
      [mkHeader 3 2 4 nonceAuthVote]).1
      (Or.inl ⟨0, mkHeader 1 0 4 nonceAuthVote, mkHeader 3 2 4 nonceAuthVote, rfl, rfl,
        by decide⟩),
   (alignment_precheck recoverExtra genesisABC (mkHeader 2 0 4 nonceAuthVote) []).1
      (Or.inr (by decide))⟩

/-! ## C14: the empty header sequence -/

/-- C14. On the empty header sequence `apply` succeeds and returns the
snapshot it was called on, equal to it in every field, whatever the snapshot
and its epoch. -/
theorem apply_nil (ecrecover : Header → Except Error Address) (S : Snapshot) :
    S.apply ecrecover [] = Except.ok S := rfl

/-! ## Sorting by insertion -/

theorem insertBy_perm {α : Type} (less : α → α → Bool) (x : α) :
    ∀ l : List α, (insertBy less x l).Perm (x :: l)
  | [] => List.Perm.refl _
  | y :: l => by
    unfold insertBy
    split
    · exact List.Perm.refl _
    · exact ((insertBy_perm less x l).cons y).trans (List.Perm.swap x y l)

theorem sortBy_perm {α : Type} (less : α → α → Bool) :
    ∀ l : List α, (sortBy less l).Perm l
  | [] => List.Perm.refl _
  | x :: l => (insertBy_perm less x (sortBy less l)).trans ((sortBy_perm less l).cons x)

theorem insertBy_pairwise {α : Type} {less : α → α → Bool}
    (htrans : ∀ a b c, less a b = true → less b c = true → less a c = true) (x : α) :
    ∀ l : List α, l.Pairwise (fun a b => less a b = true) →
      (∀ y ∈ l, less x y = true ∨ less y x = true) →
      (insertBy less x l).Pairwise (fun a b => less a b = true)
  | [], _, _ => List.pairwise_singleton _ _
  | y :: l, hl, hx => by
    unfold insertBy
    rw [List.pairwise_cons] at hl
    split
    · rename_i hxy
      refine List.Pairwise.cons ?_ (List.Pairwise.cons hl.1 hl.2)
      intro z hz
      rcases List.mem_cons.1 hz with hz | hz
      · rw [hz]; exact hxy
      · exact htrans _ _ _ hxy (hl.1 z hz)
    · rename_i hxy
      have hyx : less y x = true := by
        rcases hx y (List.mem_cons_self _ _) with h | h
        · exact absurd h hxy
        · exact h
      refine List.Pairwise.cons ?_
        (insertBy_pairwise htrans x l hl.2 (fun z hz => hx z (List.mem_cons_of_mem _ hz)))
      intro z hz
      rcases List.mem_cons.1 ((insertBy_perm less x l).mem_iff.1 hz) with hz | hz
      · rw [hz]; exact hyx
      · exact hl.1 z hz

theorem sortBy_pairwise {α : Type} {less : α → α → Bool}
    (htrans : ∀ a b c, less a b = true → less b c = true → less a c = true) :
    ∀ l : List α, l.Pairwise (fun a b => less a b = true ∨ less b a = true) →
      (sortBy less l).Pairwise (fun a b => less a b = true)
  | [], _ => List.Pairwise.nil
  | x :: l, h => by
    rw [List.pairwise_cons] at h
    exact insertBy_pairwise htrans x (sortBy less l) (sortBy_pairwise htrans l h.2)
      (fun y hy => h.1 y ((sortBy_perm less l).mem_iff.1 hy))

/-- Two lists with the same elements, both sorted by a `less` that never
holds in both directions, are equal. -/
theorem sorted_perm_unique {α : Type} {less : α → α → Bool}
    (hasymm : ∀ a b, less a b = true → less b a = true → False) {l₁ l₂ : List α}
    (hp : l₁.Perm l₂) (h₁ : l₁.Pairwise (fun a b => less a b = true))
    (h₂ : l₂.Pairwise (fun a b => less a b = true)) : l₁ = l₂ := by
  haveI : IsAntisymm α (fun a b => less a b = true) :=
    ⟨fun a b hab hba => (hasymm a b hab hba).elim⟩
  exact List.eq_of_perm_of_sorted hp h₁ h₂

/-- Sorting does not depend on the order in which the elements come. -/
theorem sortBy_perm_eq {α : Type} {less : α → α → Bool}
    (htrans : ∀ a b c, less a b = true → less b c = true → less a c = true)
    (hasymm : ∀ a b, less a b = true → less b a = true → False)
    (htotal : ∀ a b, a ≠ b → less a b = true ∨ less b a = true)
    {l₁ l₂ : List α} (hp : l₁.Perm l₂) (hnd : l₂.Nodup) :
    sortBy less l₁ = sortBy less l₂ := by
  have hnd₁ : l₁.Nodup := hp.nodup_iff.2 hnd
  have hc : ∀ l : List α, l.Nodup → l.Pairwise (fun a b => less a b = true ∨ less b a = true) :=
    fun l hl => List.Pairwise.imp (fun hab => htotal _ _ hab) hl
  exact sorted_perm_unique hasymm
    (((sortBy_perm less l₁).trans hp).trans (sortBy_perm less l₂).symm)
    (sortBy_pairwise htrans l₁ (hc l₁ hnd₁)) (sortBy_pairwise htrans l₂ (hc l₂ hnd))

/-! ## C20: the sorted signer list -/

theorem ltAddress_trans (a b c : Nat) (h1 : decide (a < b) = true)
    (h2 : decide (b < c) = true) : decide (a < c) = true := by
  simp only [decide_eq_true_eq] at *
  omega

theorem ltAddress_asymm (a b : Nat) (h1 : decide (a < b) = true)
    (h2 : decide (b < a) = true) : False := by
  simp only [decide_eq_true_eq] at *
  omega

theorem ltAddress_total (a b : Nat) (h : a ≠ b) :
    decide (a < b) = true ∨ decide (b < a) = true := by
  simp only [decide_eq_true_eq]
  omega

/-- C20. The list returned by `signers` holds every element of the signer
set exactly once and nothing else, it is strictly ascending in the order of
the address bytes, and it is the same in whatever order the map is iterated. -/
theorem signers_sorted (s : Snapshot) :
    (∀ x, x ∈ s.signers ↔ s.Signers.has x = true) ∧
    s.signers.Nodup ∧
    s.signers.Pairwise (fun a b => a < b) ∧
    ∀ order : List Address, order.Perm s.Signers.keys → s.signersIn order = s.signers := by
  have hperm : s.signers.Perm s.Signers.keys := sortBy_perm _ _
  have hnd : s.Signers.keys.Nodup := GoMap.nodup_keys _
  refine ⟨?_, ?_, ?_, ?_⟩
  · intro x
    rw [hperm.mem_iff, GoMap.mem_keys]
  · exact hperm.nodup_iff.2 hnd
  · have := sortBy_pairwise ltAddress_trans s.Signers.keys
      (List.Pairwise.imp (fun hab => ltAddress_total _ _ hab) hnd)
    exact List.Pairwise.imp (fun hab => by simpa using hab) this
  · intro order hp
    exact sortBy_perm_eq ltAddress_trans ltAddress_asymm ltAddress_total hp hnd

/-- C20, worked: the genesis built from the list `C`, `A`, `B` returns the
signers `A`, `B`, `C`, also when the map is iterated in the order `B`, `C`, `A`. -/
theorem signers_sorted_witness :
    genesisCAB.signers = [1, 2, 3] ∧ genesisCAB.signersIn [2, 3, 1] = genesisCAB.signers :=
  ⟨by decide, (signers_sorted genesisCAB).2.2.2 [2, 3, 1] (by decide)⟩

/-! ## C15: the active signers -/

theorem lessInfo_iff (a b : SignerInfo) :
    lessInfo a b = true ↔
      a.Performance > b.Performance ∨
        (a.Performance = b.Performance ∧ a.Address < b.Address) := by
  unfold lessInfo
  by_cases h : a.Performance = b.Performance
  · simp [h]
  · simp only [ne_eq, h, not_false_eq_true, if_true, decide_eq_true_eq, false_and, or_false]

theorem lessInfo_trans (a b c : SignerInfo) (h1 : lessInfo a b = true)
    (h2 : lessInfo b c = true) : lessInfo a c = true := by
  rw [lessInfo_iff] at *
  have ha : ∀ x y : Nat, x < y → y < c.Address → x < c.Address := fun _ _ h h' => by omega
  rcases h1 with h1 | ⟨h1, h1'⟩ <;> rcases h2 with h2 | ⟨h2, h2'⟩
  · left; omega
  · left; omega
  · left; omega
  · right; exact ⟨h1.trans h2, ha _ _ h1' h2'⟩

theorem lessInfo_asymm (a b : SignerInfo) (h1 : lessInfo a b = true)
    (h2 : lessInfo b a = true) : False := by
  rw [lessInfo_iff] at *
  have ha : ∀ x y : Nat, x < y → y < x → False := fun _ _ h h' => by omega
  rcases h1 with h1 | ⟨h1, h1'⟩ <;> rcases h2 with h2 | ⟨h2, h2'⟩
  · omega
  · omega
  · omega
  · exact ha _ _ h1' h2'

theorem lessInfo_total (a b : SignerInfo) (h : a ≠ b) :
    lessInfo a b = true ∨ lessInfo b a = true := by
  rw [lessInfo_iff, lessInfo_iff]
  have ha : ∀ x y : Nat, x ≠ y → x < y ∨ y < x := fun _ _ h => by omega
  by_cases hp : a.Performance = b.Performance
  · have hne : a.Address ≠ b.Address := by
      intro hadr
      apply h
      cases a
      cases b
      simp only at hp hadr
      rw [hp, hadr]
    rcases ha _ _ hne with h' | h'
    · exact Or.inl (Or.inr ⟨hp, h'⟩)
    · exact Or.inr (Or.inr ⟨hp.symm, h'⟩)
  · rcases lt_or_gt_of_ne hp with h' | h'
    · exact Or.inr (Or.inl h')
    · exact Or.inl (Or.inl h')

theorem Snapshot.signerInfosIn_map (s : Snapshot) (order : List Address) :
    (s.signerInfosIn order).map SignerInfo.Address =
      order.filter (fun signer => s.IsHealthy signer) := by
  unfold Snapshot.signerInfosIn
  rw [List.map_map]
  exact List.map_id _

theorem Snapshot.signerInfosIn_nodup (s : Snapshot) {order : List Address}
    (h : order.Nodup) : (s.signerInfosIn order).Nodup := by
  have := s.signerInfosIn_map order
  have hnd : ((s.signerInfosIn order).map SignerInfo.Address).Nodup := by
    rw [this]
    exact h.filter _
  exact List.Nodup.of_map _ hnd

theorem Snapshot.signerInfosIn_performance (s : Snapshot) (order : List Address) :
    ∀ i ∈ s.signerInfosIn order, i.Performance = s.GetPerformance i.Address := by
  intro i hi
  unfold Snapshot.signerInfosIn at hi
  rw [List.mem_map] at hi
  obtain ⟨a, _, rfl⟩ := hi
  rfl

theorem Snapshot.activeSignersIn_perm (s : Snapshot) (order : List Address) :
    (s.activeSignersIn order).Perm (order.filter (fun signer => s.IsHealthy signer)) := by
  unfold Snapshot.activeSignersIn
  rw [← s.signerInfosIn_map order]
  exact (sortBy_perm lessInfo _).map _

/-- C15. `GetActiveSigners` returns exactly the healthy signers, each once;
of two consecutive entries the first has the higher performance, or the same
performance and the smaller address in byte order; and the result is the
same in whatever order the map of signers is iterated. -/
theorem active_signers_sorted (s : Snapshot) :
    (∀ x, x ∈ s.GetActiveSigners ↔ s.Signers.has x = true ∧ s.IsHealthy x = true) ∧
    s.GetActiveSigners.Nodup ∧
    s.GetActiveSigners.Chain' (fun x y =>
      s.GetPerformance x > s.GetPerformance y ∨
        (s.GetPerformance x = s.GetPerformance y ∧ x < y)) ∧
    ∀ order : List Address, order.Perm s.Signers.keys →
      s.activeSignersIn order = s.GetActiveSigners := by
  have hperm := s.activeSignersIn_perm s.Signers.keys
  have hnd : s.Signers.keys.Nodup := GoMap.nodup_keys _
  refine ⟨?_, ?_, ?_, ?_⟩
  · intro x
    unfold Snapshot.GetActiveSigners
    rw [hperm.mem_iff, List.mem_filter, GoMap.mem_keys]
  · unfold Snapshot.GetActiveSigners
    exact hperm.nodup_iff.2 (hnd.filter _)
  · apply List.Pairwise.chain'
    unfold Snapshot.GetActiveSigners Snapshot.activeSignersIn
    rw [List.pairwise_map]
    have hsorted := sortBy_pairwise lessInfo_trans (s.signerInfosIn s.Signers.keys)
      (List.Pairwise.imp (fun hab => lessInfo_total _ _ hab) (s.signerInfosIn_nodup hnd))
    have hmem : ∀ i ∈ sortBy lessInfo (s.signerInfosIn s.Signers.keys),
        i.Performance = s.GetPerformance i.Address := fun i hi =>
      s.signerInfosIn_performance _ i ((sortBy_perm _ _).mem_iff.1 hi)
    refine List.Pairwise.imp_of_mem ?_ hsorted
    intro a b ha hb hab
    rw [lessInfo_iff, hmem a ha, hmem b hb] at hab
    exact hab
  · intro order hp
    unfold Snapshot.GetActiveSigners Snapshot.activeSignersIn
    congr 1
    apply sortBy_perm_eq lessInfo_trans lessInfo_asymm lessInfo_total
    · unfold Snapshot.signerInfosIn
      exact (hp.filter _).map _
    · exact s.signerInfosIn_nodup hnd

/-- C15, worked on `TestGetActiveSigners`: the performances 50, 100, 100 and 25
with the fourth signer unhealthy give the second, the third and the first
signer, also when the map is iterated in another order. -/
theorem active_signers_sorted_witness :
    activeTest.GetActiveSigners = [addr22, addr33, addr11] ∧
    activeTest.activeSignersIn [addr33, addr11, addr44, addr22] =
      activeTest.GetActiveSigners :=
  ⟨by decide,
   (active_signers_sorted activeTest).2.2.2 [addr33, addr11, addr44, addr22] (by decide)⟩

/-! ## C16: the rotation rule of `inturn` -/

theorem inturnOffset_eq_indexOf (signer : Address) :
    ∀ l : List Address, inturnOffset signer l = List.indexOf signer l
  | [] => rfl
  | a :: rest => by
    unfold inturnOffset
    by_cases h : a = signer
    · simp [h]
    · rw [List.indexOf_cons_ne _ h, inturnOffset_eq_indexOf signer rest]
      simp [h]

/-- C16. In a snapshot whose list `A` of active signers is not empty,
`inturn(number, signer)` returns a boolean, and it is true iff `number mod |A|`
is the index of `signer` in `A`, the index being `|A|` when `signer` is not in
`A`. -/
theorem inturn_rotation (s : Snapshot) (number : Nat) (signer : Address)
    (hA : s.GetActiveSigners ≠ []) :
    ∃ b, s.inturn number signer = Except.ok b ∧
      (b = true ↔
        number % s.GetActiveSigners.length = List.indexOf signer s.GetActiveSigners) := by
  have hlen : s.GetActiveSigners.length ≠ 0 := fun h => hA (List.length_eq_zero.1 h)
  refine ⟨decide (number % s.GetActiveSigners.length =
    List.indexOf signer s.GetActiveSigners), ?_, by simp⟩
  unfold Snapshot.inturn
  simp only [hlen, if_false, inturnOffset_eq_indexOf]

/-- C16, worked: at the genesis of the healthy signers `A < B < C` of equal
performance, `A` is in turn at the blocks 0 and 3, `B` at block 1 and `C` at
block 2. -/
theorem inturn_rotation_witness :
    genesisABC.inturn 0 1 = Except.ok true ∧ genesisABC.inturn 1 2 = Except.ok true ∧
    genesisABC.inturn 2 3 = Except.ok true ∧ genesisABC.inturn 3 1 = Except.ok true ∧
    ∃ b, genesisABC.inturn 3 1 = Except.ok b ∧
      (b = true ↔
        3 % genesisABC.GetActiveSigners.length = List.indexOf 1 genesisABC.GetActiveSigners) :=
  ⟨by decide, by decide, by decide, by decide,
   inturn_rotation genesisABC 3 1 (by decide)⟩

/-! ## C17: the backup signer -/

theorem inTurnIndex_eq (signer : Address) :
    ∀ l : List Address, inTurnIndex signer l =
      if signer ∈ l then some (List.indexOf signer l) else none
  | [] => rfl
  | a :: rest => by
    unfold inTurnIndex
    by_cases h : a = signer
    · simp [h]
    · have h' : ¬ signer = a := fun hh => h hh.symm
      rw [List.indexOf_cons_ne _ h, inTurnIndex_eq signer rest]
      simp only [List.mem_cons, h', false_or, h, if_false]
      by_cases hm : signer ∈ rest
      · simp [hm]
      · simp [hm]

theorem getD_eq_of_lt (l : List Address) {i : Nat} (h : i < l.length) :
    l.get? i = some (l.getD i 0) := by
  rw [List.getD_eq_getElem?_getD, List.get?_eq_getElem?, List.getElem?_eq_getElem h]
  rfl

/-- C17. With `A` the list of active signers: `GetBackupSigner` returns the
zero address and `false` if `A` is empty; the entry of `A` at the index
`(i + 1) mod |A|` and `true` if the in-turn signer is in `A` at the index `i`;
and the first entry of `A` and `true` if `A` is not empty and the in-turn
signer is not in `A`. The block number plays no part. -/
theorem backup_signer (s : Snapshot) (number : Nat) (inTurnSigner : Address) :
    (s.GetActiveSigners = [] → s.GetBackupSigner number inTurnSigner = (0, false)) ∧
    (inTurnSigner ∈ s.GetActiveSigners →
      ∃ r, s.GetActiveSigners.get?
          ((List.indexOf inTurnSigner s.GetActiveSigners + 1) % s.GetActiveSigners.length) =
            some r ∧
        s.GetBackupSigner number inTurnSigner = (r, true)) ∧
    (s.GetActiveSigners ≠ [] → inTurnSigner ∉ s.GetActiveSigners →
      ∃ r, s.GetActiveSigners.get? 0 = some r ∧
        s.GetBackupSigner number inTurnSigner = (r, true)) := by
  refine ⟨?_, ?_, ?_⟩
  · intro hA
    unfold Snapshot.GetBackupSigner
    simp [hA]
  · intro hmem
    have hpos : 0 < s.GetActiveSigners.length := List.length_pos_of_mem hmem
    have hlen : s.GetActiveSigners.length ≠ 0 := by omega
    refine ⟨_, getD_eq_of_lt _ (Nat.mod_lt _ hpos), ?_⟩
    unfold Snapshot.GetBackupSigner
    simp only [hlen, if_false, inTurnIndex_eq, hmem, if_true]
  · intro hA hmem
    have hlen : s.GetActiveSigners.length ≠ 0 := fun h => hA (List.length_eq_zero.1 h)
    refine ⟨_, getD_eq_of_lt _ (by omega), ?_⟩
    unfold Snapshot.GetBackupSigner
    simp only [hlen, if_false, inTurnIndex_eq, hmem]

/-- C17, worked on `TestGetBackupSigner`: with the performances 100, 50, 25 the
backup of the first signer is the second; it still is once the first signer
is unhealthy; with every signer unhealthy there is none. -/
theorem backup_signer_witness :
    backupTest.GetBackupSigner 1 addr11 = (addr22, true) ∧
    backupTestOneDown.GetBackupSigner 1 addr11 = (addr22, true) ∧
    backupTestAllDown.GetBackupSigner 1 addr11 = (0, false) :=
  ⟨by
    obtain ⟨r, hr, h⟩ := (backup_signer backupTest 1 addr11).2.1 (by decide)
    have : r = addr22 := by
      have h2 : backupTest.GetActiveSigners.get?
          ((List.indexOf addr11 backupTest.GetActiveSigners + 1) %
            backupTest.GetActiveSigners.length) = some addr22 := by decide
      rw [h2] at hr
      injection hr with hr
      exact hr.symm
    rw [h, this],
   by decide,
   (backup_signer backupTestAllDown 1 addr11).1 (by decide)⟩

/-! ## C18: the contract of `SetPerformance` -/

/-- C18. `SetPerformance(a, p)` fails with `errUnauthorizedSigner` iff `a` is
no signer (also when `p < 0`), fails with `errInvalidPerformance` iff `a` is a
signer and `p < 0`, and leaves the snapshot as it is when it fails. Otherwise
it succeeds, `GetPerformance(a)` is then `p`, and nothing else changes: the
result is `S` with the field `Performance` replaced, and the stored
performance of every other address is that of `S`. `GetPerformance` of an
address without a stored entry is `0`. -/
theorem set_performance_contract (S : Snapshot) (a : Address) (p : Int) :
    ((S.SetPerformance a p).2 = some Error.errUnauthorizedSigner ↔
      S.Signers.has a = false) ∧
    ((S.SetPerformance a p).2 = some Error.errInvalidPerformance ↔
      (S.Signers.has a = true ∧ p < 0)) ∧
    ((S.SetPerformance a p).2 ≠ none → (S.SetPerformance a p).1 = S) ∧
    (S.Signers.has a = true → 0 ≤ p →
      (S.SetPerformance a p).2 = none ∧
      (S.SetPerformance a p).1.GetPerformance a = p ∧
      (S.SetPerformance a p).1 =
        { S with Performance := (S.SetPerformance a p).1.Performance } ∧
      ∀ b, b ≠ a →
        (S.SetPerformance a p).1.Performance.get? b = S.Performance.get? b) ∧
    (S.Performance.get? a = none → S.GetPerformance a = 0) := by
  have hget : S.Performance.get? a = none → S.GetPerformance a = 0 := by
    intro hn
    simp [Snapshot.GetPerformance, hn]
  by_cases ha : S.Signers.has a = true
  · by_cases hp : p < 0
    · have heq : S.SetPerformance a p = (S, some Error.errInvalidPerformance) := by
        simp [Snapshot.SetPerformance, ha, hp]
      rw [heq]
      refine ⟨?_, ?_, fun _ => rfl, ?_, hget⟩
      · simp [ha]
      · simp [ha, hp]
      · intro _ h0
        omega
    · have heq : S.SetPerformance a p =
          ({ S with Performance := S.Performance.set a p }, none) := by
        simp [Snapshot.SetPerformance, ha, hp]
      rw [heq]
      refine ⟨?_, ?_, fun h => absurd rfl h, ?_, hget⟩
      · simp [ha]
      · simp [hp]
      · intro _ _
        refine ⟨rfl, ?_, rfl, ?_⟩
        · simp [Snapshot.GetPerformance]
        · intro b hb
          exact GoMap.get?_set_of_ne _ _ hb
  · have ha' : S.Signers.has a = false := by simpa using ha
    have heq : S.SetPerformance a p = (S, some Error.errUnauthorizedSigner) := by
      simp [Snapshot.SetPerformance, ha']
    rw [heq]
    refine ⟨?_, ?_, fun _ => rfl, ?_, hget⟩
    · simp [ha']
    · simp [ha']
    · intro h
      rw [ha'] at h
      cases h

/-- C18, worked on `TestSignerPerformance`: setting 100 for the first signer
succeeds and is read back; `-10` is refused as an invalid performance and a
stranger as unauthorized, the snapshot staying as it was. -/
theorem set_performance_contract_witness :
    (performanceTest.SetPerformance addr11 100).2 = none ∧
    (performanceTest.SetPerformance addr11 100).1.GetPerformance addr11 = 100 ∧
    ((performanceTest.SetPerformance addr11 (-10)).2 = some Error.errInvalidPerformance) ∧
    ((performanceTest.SetPerformance addr44 50).2 = some Error.errUnauthorizedSigner) ∧
    (performanceTest.SetPerformance addr44 50).1 = performanceTest :=
  ⟨((set_performance_contract performanceTest addr11 100).2.2.2.1 (by decide) (by decide)).1,
   ((set_performance_contract performanceTest addr11 100).2.2.2.1 (by decide) (by decide)).2.1,
   (set_performance_contract performanceTest addr11 (-10)).2.1.2 ⟨by decide, by decide⟩,
   (set_performance_contract performanceTest addr44 50).1.2 (by decide),
   (set_performance_contract performanceTest addr44 50).2.2.1 (by decide)⟩

/-! ## C19: `MarkHealthy` and `MarkUnhealthy` -/

theorem initSigners_Health_get? (signers : List Address) (x : Address) :
    ∀ snap : Snapshot, (initSigners snap signers).Health.get? x =
      if x ∈ signers then some SignerHealth.Healthy else snap.Health.get? x := by
  induction signers with
  | nil => intro snap; simp [initSigners]
  | cons c rest ih =>
    intro snap
    simp only [initSigners, ih, GoMap.get?_set, List.mem_cons]
    by_cases hr : x ∈ rest
    · simp [hr]
    · by_cases hc : x = c
      · simp [hc]
      · simp [hr, hc]

/-- C19. If `a` is no signer, `MarkHealthy(a)` and `MarkUnhealthy(a)` leave the
snapshot as it is. If `a` is a signer, `IsHealthy(a)` is true after
`MarkHealthy(a)` and false after `MarkUnhealthy(a)`, and nothing else changes:
the result is `S` with the field `Health` replaced, and the health entry of
every other address is that of `S`. In a snapshot built by `newSnapshot` an
address is healthy exactly if it is in the list of signers. -/
theorem mark_health_frame (S : Snapshot) (a : Address) :
    (S.Signers.has a = false → S.MarkHealthy a = S ∧ S.MarkUnhealthy a = S) ∧
    (S.Signers.has a = true →
      (S.MarkHealthy a).IsHealthy a = true ∧
      (S.MarkUnhealthy a).IsHealthy a = false ∧
      S.MarkHealthy a = { S with Health := (S.MarkHealthy a).Health } ∧
      S.MarkUnhealthy a = { S with Health := (S.MarkUnhealthy a).Health } ∧
      ∀ b, b ≠ a →
        (S.MarkHealthy a).Health.get? b = S.Health.get? b ∧
        (S.MarkUnhealthy a).Health.get? b = S.Health.get? b) ∧
    (∀ (config : PoiConfig) (number : Nat) (hash : Hash) (signers : List Address)
        (x : Address),
      (newSnapshot config number hash signers).IsHealthy x = decide (x ∈ signers)) := by
  refine ⟨?_, ?_, ?_⟩
  · intro ha
    simp [Snapshot.MarkHealthy, Snapshot.MarkUnhealthy, ha]
  · intro ha
    have h1 : S.MarkHealthy a = { S with Health := S.Health.set a SignerHealth.Healthy } := by
      simp [Snapshot.MarkHealthy, ha]
    have h2 : S.MarkUnhealthy a =
        { S with Health := S.Health.set a SignerHealth.Unhealthy } := by
      simp [Snapshot.MarkUnhealthy, ha]
    rw [h1, h2]
    refine ⟨?_, ?_, rfl, rfl, ?_⟩
    · simp [Snapshot.IsHealthy]
    · simp [Snapshot.IsHealthy]
    · intro b hb
      exact ⟨GoMap.get?_set_of_ne _ _ hb, GoMap.get?_set_of_ne _ _ hb⟩
  · intro config number hash signers x
    unfold Snapshot.IsHealthy newSnapshot
    rw [initSigners_Health_get?]
    by_cases hx : x ∈ signers
    · simp [hx]
    · simp [hx]

/-- C19, worked on `TestSignerHealth`: the first signer is healthy at first,
not after `MarkUnhealthy`, and again after `MarkHealthy`; marking a stranger
changes nothing, and a stranger is not healthy. -/
theorem mark_health_frame_witness :
    performanceTest.IsHealthy addr11 = true ∧
    (performanceTest.MarkUnhealthy addr11).IsHealthy addr11 = false ∧
    ((performanceTest.MarkUnhealthy addr11).MarkHealthy addr11).IsHealthy addr11 = true ∧
    performanceTest.MarkUnhealthy addr44 = performanceTest ∧
    performanceTest.IsHealthy addr44 = false :=
  ⟨by decide,
   ((mark_health_frame performanceTest addr11).2.1 (by decide)).2.1,
   ((mark_health_frame (performanceTest.MarkUnhealthy addr11) addr11).2.1 (by decide)).1,
   ((mark_health_frame performanceTest addr44).1 (by decide)).2,
   by decide⟩

/-! ## C22: the window of `Status` -/

/-- C22. With `current` the current height, a `uint64`: when `current < 64`,
`Status` sets `start = 1` and `numBlocks = current - start` in `uint64`
arithmetic, which is `current - 1` from height 1 on, `2 ^ 64 - 1` at height 0,
and `0` at height 1, where the divisor `numBlocks` of `InturnPercent` is thus
zero; when `current ≥ 64`, `numBlocks = 64` and `start = current - 64`. -/
theorem status_window (current : Nat) (hcur : current < u64) :
    (current < 64 →
      (statusWindow current).1 = 1 ∧
      (statusWindow current).2 = (current + u64 - 1) % u64 ∧
      (1 ≤ current → (statusWindow current).2 = current - 1) ∧
      (current = 0 → (statusWindow current).2 = u64 - 1) ∧
      (current = 1 → (statusWindow current).2 = 0)) ∧
    (64 ≤ current →
      (statusWindow current).2 = 64 ∧ (statusWindow current).1 = current - 64) := by
  unfold statusWindow
  unfold u64 at *
  constructor
  · intro h
    have h' : 64 > current := h
    simp only [h', if_true, true_and]
    refine ⟨fun h1 => ?_, fun h0 => ?_, fun h1 => ?_⟩
    · omega
    · subst h0; rfl
    · subst h1; rfl
  · intro h
    have h' : ¬ 64 > current := by omega
    simp only [h', if_false, true_and]
    omega

/-- C22, worked: at height 1 the window starts at block 1 and has no block;
at height 100 it starts at block 36 and has 64 blocks. -/
theorem status_window_witness :
    statusWindow 1 = (1, 0) ∧ statusWindow 100 = (36, 64) ∧
    (statusWindow 1).2 = 0 ∧ ((statusWindow 100).2 = 64 ∧ (statusWindow 100).1 = 100 - 64) :=
  ⟨by decide, by decide,
   ((status_window 1 (by decide)).1 (by decide)).2.2.2.2 rfl,
   (status_window 100 (by decide)).2 (by decide)⟩

/-! ## C24: one signer in turn at every height -/

theorem Snapshot.mem_GetActiveSigners (s : Snapshot) (x : Address) :
    x ∈ s.GetActiveSigners ↔ s.Signers.has x = true ∧ s.IsHealthy x = true := by
  unfold Snapshot.GetActiveSigners
  rw [(s.activeSignersIn_perm s.Signers.keys).mem_iff, List.mem_filter, GoMap.mem_keys]

theorem Snapshot.GetActiveSigners_nodup (s : Snapshot) : s.GetActiveSigners.Nodup := by
  unfold Snapshot.GetActiveSigners
  exact (s.activeSignersIn_perm s.Signers.keys).nodup_iff.2 ((GoMap.nodup_keys _).filter _)

theorem Snapshot.inturn_eq (s : Snapshot) (number : Nat) (signer : Address)
    (hA : s.GetActiveSigners ≠ []) :
    s.inturn number signer =
      Except.ok (decide (number % s.GetActiveSigners.length =
        List.indexOf signer s.GetActiveSigners)) := by
  have hlen : s.GetActiveSigners.length ≠ 0 := fun h => hA (List.length_eq_zero.1 h)
  unfold Snapshot.inturn
  simp only [hlen, if_false, inturnOffset_eq_indexOf]

theorem Snapshot.inturn_empty (s : Snapshot) (number : Nat) (signer : Address)
    (hA : s.GetActiveSigners = []) :
    s.inturn number signer = Except.error Error.panicDivideByZero := by
  unfold Snapshot.inturn
  simp [hA]

/-- C24. In a snapshot with at least one healthy signer and at every block
number `n`, exactly one address is in turn: `inturn(n, b)` is true for `b` the
entry of `GetActiveSigners()` at the index `n mod |A|` and false for every other
address; so it is false for an unhealthy signer and for a non-signer. -/
theorem unique_inturn (s : Snapshot) (x : Address) (n : Nat)
    (hx : s.Signers.has x = true) (hh : s.IsHealthy x = true) :
    ∃ a, s.GetActiveSigners.get? (n % s.GetActiveSigners.length) = some a ∧
      (∀ b, s.inturn n b = Except.ok (decide (b = a))) ∧
      (∀ b, (s.Signers.has b = false ∨ s.IsHealthy b = false) →
        s.inturn n b = Except.ok false) := by
  have hmem : x ∈ s.GetActiveSigners := (s.mem_GetActiveSigners x).2 ⟨hx, hh⟩
  have hA : s.GetActiveSigners ≠ [] := List.ne_nil_of_mem hmem
  have hpos : 0 < s.GetActiveSigners.length := List.length_pos_of_mem hmem
  have hi : n % s.GetActiveSigners.length < s.GetActiveSigners.length := Nat.mod_lt _ hpos
  have hnd := s.GetActiveSigners_nodup
  have hall : ∀ b, s.inturn n b =
      Except.ok (decide (b = s.GetActiveSigners[n % s.GetActiveSigners.length])) := by
    intro b
    rw [s.inturn_eq n b hA]
    congr 1
    rw [decide_eq_decide]
    constructor
    · intro h
      have hlt : List.indexOf b s.GetActiveSigners < s.GetActiveSigners.length := h ▸ hi
      have := List.getElem_indexOf hlt
      simp only [← h] at this
      exact this.symm
    · intro h
      rw [h, List.indexOf_getElem hnd]
  refine ⟨s.GetActiveSigners[n % s.GetActiveSigners.length], ?_, hall, ?_⟩
  · rw [List.get?_eq_getElem?, List.getElem?_eq_getElem hi]
  · intro b hb
    rw [hall b]
    congr 1
    rw [decide_eq_false_iff_not]
    intro hba
    have hbm : b ∈ s.GetActiveSigners := hba ▸ List.getElem_mem _
    have := (s.mem_GetActiveSigners b).1 hbm
    rcases hb with hb | hb
    · rw [this.1] at hb; cases hb
    · rw [this.2] at hb; cases hb

/-- C24, worked on `TestGetBackupSigner` with the first signer unhealthy: at
block 3 the signer in turn is the third address (index 1 of the two active
signers), and the unhealthy first signer is not in turn. -/
theorem unique_inturn_witness :
    backupTestOneDown.inturn 3 addr33 = Except.ok true ∧
    backupTestOneDown.inturn 3 addr11 = Except.ok false ∧
    ∃ a, backupTestOneDown.GetActiveSigners.get?
        (3 % backupTestOneDown.GetActiveSigners.length) = some a ∧
      (∀ b, backupTestOneDown.inturn 3 b = Except.ok (decide (b = a))) ∧
      (∀ b, (backupTestOneDown.Signers.has b = false ∨ backupTestOneDown.IsHealthy b = false) →
        backupTestOneDown.inturn 3 b = Except.ok false) :=
  ⟨by decide, by decide,
   unique_inturn backupTestOneDown addr22 3 (by decide) (by decide)⟩

/-! ## C25: the modulus of `inturn` -/

theorem Snapshot.GetActiveSigners_eq_nil_iff (s : Snapshot) :
    s.GetActiveSigners = [] ↔ ¬ ∃ x, s.Signers.has x = true ∧ s.IsHealthy x = true := by
  constructor
  · rintro hA ⟨x, hx⟩
    have := (s.mem_GetActiveSigners x).2 hx
    rw [hA] at this
    cases this
  · intro h
    apply List.eq_nil_iff_forall_not_mem.2
    intro x hx
    exact h ⟨x, (s.mem_GetActiveSigners x).1 hx⟩

theorem initSigners_Signers_has (signers : List Address) (x : Address) :
    ∀ snap : Snapshot, (initSigners snap signers).Signers.has x =
      (decide (x ∈ signers) || snap.Signers.has x) := by
  induction signers with
  | nil => intro snap; simp [initSigners]
  | cons c rest ih =>
    intro snap
    simp only [initSigners, ih, GoMap.has_set, List.mem_cons]
    by_cases hr : x ∈ rest
    · simp [hr]
    · by_cases hc : x = c
      · simp [hc]
      · simp [hr, hc]

theorem markAllUnhealthy_Signers (l : List Address) :
    ∀ s : Snapshot, (markAllUnhealthy s l).Signers = s.Signers := by
  induction l with
  | nil => intro s; rfl
  | cons a rest ih =>
    intro s
    simp only [markAllUnhealthy, ih]
    unfold Snapshot.MarkUnhealthy
    split <;> rfl

theorem Snapshot.MarkUnhealthy_Health_get? (s : Snapshot) (a x : Address) :
    (s.MarkUnhealthy a).Health.get? x =
      if x = a ∧ s.Signers.has a = true then some SignerHealth.Unhealthy
      else s.Health.get? x := by
  unfold Snapshot.MarkUnhealthy
  by_cases ha : s.Signers.has a = true
  · simp only [ha, if_true, and_true, GoMap.get?_set]
  · simp [ha]

theorem markAllUnhealthy_Health (l : List Address) (x : Address) :
    ∀ s : Snapshot, (markAllUnhealthy s l).Health.get? x =
      if x ∈ l ∧ s.Signers.has x = true then some SignerHealth.Unhealthy
      else s.Health.get? x := by
  induction l with
  | nil => intro s; simp [markAllUnhealthy]
  | cons a rest ih =>
    intro s
    have hS : (s.MarkUnhealthy a).Signers = s.Signers := by
      unfold Snapshot.MarkUnhealthy
      split <;> rfl
    simp only [markAllUnhealthy, ih, hS, List.mem_cons, Snapshot.MarkUnhealthy_Health_get?]
    by_cases hx : s.Signers.has x = true
    · by_cases hr : x ∈ rest
      · simp [hx, hr]
      · by_cases hc : x = a
        · subst hc
          simp [hx, hr]
        · simp [hx, hr, hc]
    · have hxa : ¬ (x = a ∧ s.Signers.has a = true) := fun h => hx (h.1 ▸ h.2)
      simp [hx, hxa]

/-- C25. `inturn(number, signer)` computes `number mod |GetActiveSigners()|`:
it returns a boolean for every number and signer exactly when some signer is
healthy; when no signer is healthy the modulus is zero and the call ends in
the division-by-zero panic. This is the case of every genesis snapshot once
`MarkUnhealthy` has been called for each of its signers. -/
theorem inturn_division (s : Snapshot) (config : PoiConfig) (number : Nat) (hash : Hash)
    (signers : List Address) :
    (∀ n a, (∃ b, s.inturn n a = Except.ok b) ↔
      ∃ x, s.Signers.has x = true ∧ s.IsHealthy x = true) ∧
    ((¬ ∃ x, s.Signers.has x = true ∧ s.IsHealthy x = true) →
      ∀ n a, s.inturn n a = Except.error Error.panicDivideByZero) ∧
    (∀ n a, (markAllUnhealthy (newSnapshot config number hash signers) signers).inturn n a =
      Except.error Error.panicDivideByZero) := by
  refine ⟨?_, ?_, ?_⟩
  · intro n a
    constructor
    · rintro ⟨b, hb⟩
      by_contra hnone
      rw [s.inturn_empty n a ((s.GetActiveSigners_eq_nil_iff).2 hnone)] at hb
      cases hb
    · intro hsome
      have hA : s.GetActiveSigners ≠ [] := fun h =>
        (s.GetActiveSigners_eq_nil_iff).1 h hsome
      exact ⟨_, s.inturn_eq n a hA⟩
  · intro hnone n a
    exact s.inturn_empty n a ((s.GetActiveSigners_eq_nil_iff).2 hnone)
  · intro n a
    apply Snapshot.inturn_empty
    rw [Snapshot.GetActiveSigners_eq_nil_iff]
    rintro ⟨x, hx, hh⟩
    rw [markAllUnhealthy_Signers] at hx
    have hmem : x ∈ signers := by
      unfold newSnapshot at hx
      rw [initSigners_Signers_has] at hx
      simpa using hx
    unfold Snapshot.IsHealthy at hh
    rw [markAllUnhealthy_Health] at hh
    simp [hmem, hx] at hh

/-- C25, worked on `TestGetBackupSigner`: once the three signers are marked
unhealthy, `inturn` ends in the division by zero; so does it at the genesis of
`A`, `B`, `C` after `MarkUnhealthy` for `A`, `B` and `C`. -/
theorem inturn_division_witness :
    backupTestAllDown.inturn 1 addr11 = Except.error Error.panicDivideByZero ∧
    (markAllUnhealthy genesisABC [1, 2, 3]).inturn 0 1 =
      Except.error Error.panicDivideByZero :=
  ⟨(inturn_division backupTestAllDown testConfig 0 0 [1, 2, 3]).2.1
      (fun ⟨x, hx, hh⟩ => by
        have hA : backupTestAllDown.GetActiveSigners = [] := by decide
        exact (backupTestAllDown.GetActiveSigners_eq_nil_iff).1 hA ⟨x, hx, hh⟩) 1 addr11,
   (inturn_division backupTestAllDown testConfig 0 0 [1, 2, 3]).2.2 0 1⟩

/-! ## The fields that one header does not read -/

theorem Snapshot.uncast_withFrame (s : Snapshot) (n : Nat) (h : Poi.Hash)
    (H : GoMap Address SignerHealth) (P : GoMap Address Int) (a : Address) (b : Bool) :
    (s.withFrame n h H P).uncast a b =
      ((s.uncast a b).1.withFrame n h H P, (s.uncast a b).2) := by
  unfold Snapshot.uncast Snapshot.withFrame
  simp only []
  cases s.Tally.get? a with
  | none => rfl
  | some t =>
    simp only []
    split_ifs <;> rfl

theorem Snapshot.cast_withFrame (s : Snapshot) (n : Nat) (h : Poi.Hash)
    (H : GoMap Address SignerHealth) (P : GoMap Address Int) (a : Address) (b : Bool) :
    (s.withFrame n h H P).cast a b =
      ((s.cast a b).1.withFrame n h H P, (s.cast a b).2) := by
  unfold Snapshot.cast Snapshot.validVote Snapshot.withFrame
  simp only []
  split_ifs
  · rfl
  · cases s.Tally.get? a <;> rfl

theorem Snapshot.clearEpoch_withFrame (s : Snapshot) (n : Nat) (h : Poi.Hash)
    (H : GoMap Address SignerHealth) (P : GoMap Address Int) (e k : Nat) :
    (s.withFrame n h H P).clearEpoch e k = (s.clearEpoch e k).withFrame n h H P := by
  unfold Snapshot.clearEpoch Snapshot.withFrame
  split <;> rfl

theorem Snapshot.expireRecent_withFrame (s : Snapshot) (n : Nat) (h : Poi.Hash)
    (H : GoMap Address SignerHealth) (P : GoMap Address Int) (k : Nat) :
    (s.withFrame n h H P).expireRecent k = (s.expireRecent k).withFrame n h H P := by
  unfold Snapshot.expireRecent Snapshot.withFrame
  simp only []
  split <;> rfl

theorem Snapshot.discardPrevious_withFrame (s : Snapshot) (n : Nat) (h : Poi.Hash)
    (H : GoMap Address SignerHealth) (P : GoMap Address Int) (a c : Address) :
    (s.withFrame n h H P).discardPrevious a c = (s.discardPrevious a c).withFrame n h H P := by
  unfold Snapshot.discardPrevious
  have hV : (s.withFrame n h H P).Votes = s.Votes := rfl
  rw [hV]
  cases s.Votes.find? (fun vote => decide (vote.Signer = a) && decide (vote.Address = c)) with
  | none => rfl
  | some vote =>
    simp only [Snapshot.uncast_withFrame]
    rfl

theorem Snapshot.tallyVote_withFrame (s : Snapshot) (n : Nat) (h : Poi.Hash)
    (H : GoMap Address SignerHealth) (P : GoMap Address Int) (a : Address) (hd : Header)
    (b : Bool) :
    (s.withFrame n h H P).tallyVote a hd b = (s.tallyVote a hd b).withFrame n h H P := by
  unfold Snapshot.tallyVote
  simp only [Snapshot.cast_withFrame]
  split <;> rfl

theorem Snapshot.atCheck_withFrame (s : Snapshot) (n : Nat) (h : Poi.Hash)
    (H : GoMap Address SignerHealth) (P : GoMap Address Int) (e : Nat) (hd : Header) :
    (s.withFrame n h H P).atCheck e hd = (s.atCheck e hd).withFrame n h H P := by
  unfold Snapshot.atCheck
  rw [Snapshot.clearEpoch_withFrame, Snapshot.expireRecent_withFrame]

theorem Snapshot.voted_withFrame (s : Snapshot) (n : Nat) (h : Poi.Hash)
    (H : GoMap Address SignerHealth) (P : GoMap Address Int) (e : Nat) (hd : Header)
    (a : Address) :
    (s.withFrame n h H P).voted e hd a = (s.voted e hd a).withFrame n h H P := by
  unfold Snapshot.voted
  rw [Snapshot.atCheck_withFrame, ← Snapshot.tallyVote_withFrame,
    ← Snapshot.discardPrevious_withFrame]
  rfl

/-- The vote of a header is cast in the same way, with the same error if
any, whatever the number, the hash, the health and the performance. -/
theorem Snapshot.castHeader_withFrame {ecrecover : Header → Except Error Address}
    (s : Snapshot) (n : Nat) (h : Poi.Hash) (H : GoMap Address SignerHealth)
    (P : GoMap Address Int) (e : Nat) (hd : Header) :
    (s.withFrame n h H P).castHeader ecrecover e hd =
      (s.castHeader ecrecover e hd).map (fun r => r.withFrame n h H P) := by
  by_cases hE : e = 0
  · simp [Snapshot.castHeader, hE, Except.map]
  · cases hrec : ecrecover hd with
    | error err => simp [Snapshot.castHeader, hE, hrec, Except.map]
    | ok a =>
      rw [Snapshot.castHeader_eq _ hE hrec, Snapshot.castHeader_eq _ hE hrec,
        Snapshot.atCheck_withFrame, Snapshot.voted_withFrame]
      have hS : (s.withFrame n h H P).Signers = s.Signers := rfl
      have hR : ((s.atCheck e hd).withFrame n h H P).Recents = (s.atCheck e hd).Recents := rfl
      rw [hS, hR]
      split_ifs <;> rfl

theorem purgeCastBy_withFrame (a : Address) (n : Nat) (h : Poi.Hash)
    (H : GoMap Address SignerHealth) (P : GoMap Address Int) :
    ∀ (vs : List Vote) (s : Snapshot),
      purgeCastBy a vs (s.withFrame n h H P) =
        ((purgeCastBy a vs s).1, (purgeCastBy a vs s).2.withFrame n h H P)
  | [], _ => rfl
  | v :: vs, s => by
    unfold purgeCastBy
    split
    · rw [Snapshot.uncast_withFrame]
      exact purgeCastBy_withFrame a n h H P vs _
    · rw [purgeCastBy_withFrame a n h H P vs s]

theorem Snapshot.evict_withFrame (s : Snapshot) (n : Nat) (h : Poi.Hash)
    (H : GoMap Address SignerHealth) (P : GoMap Address Int) (hd : Header) :
    (s.withFrame n h H P).evict hd =
      (s.evict hd).withFrame n h (H.delete hd.Coinbase) (P.delete hd.Coinbase) := by
  unfold Snapshot.evict
  simp only []
  have h1 : ({ s.withFrame n h H P with
      Signers := (s.withFrame n h H P).Signers.delete hd.Coinbase
      Health := (s.withFrame n h H P).Health.delete hd.Coinbase
      Performance := (s.withFrame n h H P).Performance.delete hd.Coinbase } : Snapshot) =
      ({ s with
        Signers := s.Signers.delete hd.Coinbase
        Health := s.Health.delete hd.Coinbase
        Performance := s.Performance.delete hd.Coinbase } : Snapshot).withFrame n h
          (H.delete hd.Coinbase) (P.delete hd.Coinbase) := rfl
  rw [h1, Snapshot.expireRecent_withFrame]
  have hV : ∀ t : Snapshot, (t.withFrame n h (H.delete hd.Coinbase)
      (P.delete hd.Coinbase)).Votes = t.Votes := fun _ => rfl
  rw [hV, purgeCastBy_withFrame]
  simp only [purgeCastBy_Health, purgeCastBy_Performance, Snapshot.expireRecent_Health,
    Snapshot.expireRecent_Performance]
  rfl

/-- The resolution of a vote reads neither the number nor the hash, and the
health and the performance only to update them. -/
theorem Snapshot.resolve_withFrame (s : Snapshot) (n : Nat) (h : Poi.Hash)
    (H : GoMap Address SignerHealth) (P : GoMap Address Int) (hd : Header) :
    ∃ H' P', (s.withFrame n h H P).resolve hd = (s.resolve hd).withFrame n h H' P' := by
  have hT : (s.withFrame n h H P).tallyOf hd.Coinbase = s.tallyOf hd.Coinbase := rfl
  have hS : (s.withFrame n h H P).Signers = s.Signers := rfl
  by_cases hpass : (s.tallyOf hd.Coinbase).Votes > ((s.Signers.len / 2 : Nat) : Int)
  · cases hauth : (s.tallyOf hd.Coinbase).Authorize
    · rw [Snapshot.resolve_evicted _ _ (by rw [hT, hS]; exact hpass) (by rw [hT]; exact hauth),
        Snapshot.resolve_evicted _ _ hpass hauth, Snapshot.evict_withFrame]
      exact ⟨_, _, rfl⟩
    · rw [Snapshot.resolve_admitted _ _ (by rw [hT, hS]; exact hpass) (by rw [hT]; exact hauth),
        Snapshot.resolve_admitted _ _ hpass hauth]
      exact ⟨H.set hd.Coinbase SignerHealth.Healthy, P.set hd.Coinbase 0, rfl⟩
  · rw [Snapshot.resolve_open _ _ (by rw [hT, hS]; exact hpass),
      Snapshot.resolve_open _ _ hpass]
    exact ⟨H, P, rfl⟩

theorem Snapshot.resolve_withPlace (s : Snapshot) (n : Nat) (h : Poi.Hash) (hd : Header) :
    (s.withPlace n h).resolve hd = (s.resolve hd).withPlace n h := by
  have hT : (s.withPlace n h).tallyOf hd.Coinbase = s.tallyOf hd.Coinbase := rfl
  have hS : (s.withPlace n h).Signers = s.Signers := rfl
  have hF : s.withPlace n h = s.withFrame n h s.Health s.Performance := rfl
  by_cases hpass : (s.tallyOf hd.Coinbase).Votes > ((s.Signers.len / 2 : Nat) : Int)
  · cases hauth : (s.tallyOf hd.Coinbase).Authorize
    · rw [Snapshot.resolve_evicted _ _ (by rw [hT, hS]; exact hpass) (by rw [hT]; exact hauth),
        Snapshot.resolve_evicted _ _ hpass hauth, hF, Snapshot.evict_withFrame]
      unfold Snapshot.purgeSubject Snapshot.withFrame Snapshot.withPlace
      simp only [Snapshot.evict_Health, Snapshot.evict_Performance]
    · rw [Snapshot.resolve_admitted _ _ (by rw [hT, hS]; exact hpass) (by rw [hT]; exact hauth),
        Snapshot.resolve_admitted _ _ hpass hauth]
      rfl
  · rw [Snapshot.resolve_open _ _ (by rw [hT, hS]; exact hpass),
      Snapshot.resolve_open _ _ hpass]

theorem Snapshot.applyHeader_withPlace {ecrecover : Header → Except Error Address}
    (s : Snapshot) (n : Nat) (h : Poi.Hash) (e : Nat) (hd : Header) :
    (s.withPlace n h).applyHeader ecrecover e hd =
      (s.applyHeader ecrecover e hd).map (fun r => r.withPlace n h) := by
  have hF : s.withPlace n h = s.withFrame n h s.Health s.Performance := rfl
  unfold Snapshot.applyHeader
  rw [hF, Snapshot.castHeader_withFrame]
  cases hc : s.castHeader ecrecover e hd with
  | error err => rfl
  | ok mid =>
    obtain ⟨_, a, _, _, _, _, hmid⟩ := Snapshot.castHeader_ok hc
    have hH : mid.Health = s.Health := by rw [hmid, Snapshot.voted_Health]
    have hP : mid.Performance = s.Performance := by rw [hmid, Snapshot.voted_Performance]
    have hmidF : mid.withFrame n h s.Health s.Performance = mid.withPlace n h := by
      rw [← hH, ← hP]
      rfl
    simp only [Except.map, hmidF, Snapshot.resolve_withPlace]

theorem Snapshot.applyHeader_withFrame {ecrecover : Header → Except Error Address}
    (s : Snapshot) (n : Nat) (h : Poi.Hash) (H : GoMap Address SignerHealth)
    (P : GoMap Address Int) (e : Nat) (hd : Header) :
    ∃ H' P', (s.withFrame n h H P).applyHeader ecrecover e hd =
      (s.applyHeader ecrecover e hd).map (fun r => r.withFrame n h H' P') := by
  unfold Snapshot.applyHeader
  rw [Snapshot.castHeader_withFrame]
  cases hc : s.castHeader ecrecover e hd with
  | error err => exact ⟨H, P, rfl⟩
  | ok mid =>
    obtain ⟨H', P', hr⟩ := Snapshot.resolve_withFrame mid n h H P hd
    exact ⟨H', P', by simp only [Except.map, hr]⟩

theorem applyHeaders_withPlace {ecrecover : Header → Except Error Address} {e : Nat}
    (n : Nat) (h : Poi.Hash) :
    ∀ (headers : List Header) (s : Snapshot),
      applyHeaders ecrecover e (s.withPlace n h) headers =
        (applyHeaders ecrecover e s headers).map (fun r => r.withPlace n h)
  | [], _ => rfl
  | hd :: rest, s => by
    simp only [applyHeaders]
    rw [Snapshot.applyHeader_withPlace]
    cases hc : s.applyHeader ecrecover e hd with
    | error err => rfl
    | ok next =>
      simp only [Except.map]
      exact applyHeaders_withPlace n h rest next

theorem applyHeaders_withFrame {ecrecover : Header → Except Error Address} {e : Nat}
    (n : Nat) (h : Poi.Hash) :
    ∀ (headers : List Header) (s : Snapshot) (H : GoMap Address SignerHealth)
      (P : GoMap Address Int),
      ∃ H' P', applyHeaders ecrecover e (s.withFrame n h H P) headers =
        (applyHeaders ecrecover e s headers).map (fun r => r.withFrame n h H' P')
  | [], _, H, P => ⟨H, P, rfl⟩
  | hd :: rest, s, H, P => by
    obtain ⟨H1, P1, h1⟩ := @Snapshot.applyHeader_withFrame ecrecover s n h H P e hd
    simp only [applyHeaders]
    rw [h1]
    cases hc : s.applyHeader ecrecover e hd with
    | error err => exact ⟨H, P, rfl⟩
    | ok next =>
      simp only [Except.map]
      exact applyHeaders_withFrame n h rest next H1 P1

theorem applyHeaders_append {ecrecover : Header → Except Error Address} {e : Nat} :
    ∀ (H1 H2 : List Header) (s last : Snapshot),
      applyHeaders ecrecover e s (H1 ++ H2) = Except.ok last →
      ∃ mid, applyHeaders ecrecover e s H1 = Except.ok mid ∧
        applyHeaders ecrecover e mid H2 = Except.ok last
  | [], _, s, _, h => ⟨s, rfl, h⟩
  | hd :: rest, H2, s, last, h => by
    simp only [List.cons_append, applyHeaders] at h ⊢
    cases hc : s.applyHeader ecrecover e hd with
    | error err => rw [hc] at h; cases h
    | ok next =>
      rw [hc] at h
      exact applyHeaders_append rest H2 next last h

theorem contiguous_append :
    ∀ (H1 H2 : List Header), contiguous (H1 ++ H2) = true →
      contiguous H1 = true ∧ contiguous H2 = true ∧
      ∀ a b, H1.getLast? = some a → H2.head? = some b → b.Number = (a.Number + 1) % u64
  | [], H2, h => ⟨rfl, h, fun a _ ha => by simp at ha⟩
  | [x], [], _ => ⟨rfl, rfl, fun _ b _ hb => by simp at hb⟩
  | [x], y :: H2, h => by
    simp only [List.singleton_append, contiguous, ne_eq, ite_not, Bool.if_false_right,
      Bool.and_eq_true, decide_eq_true_eq] at h
    refine ⟨rfl, h.2, ?_⟩
    intro a b ha hb
    simp only [List.getLast?_singleton, Option.some.injEq, List.head?_cons] at ha hb
    subst ha
    subst hb
    exact h.1
  | x :: y :: rest, H2, h => by
    simp only [List.cons_append, contiguous, ne_eq, ite_not, Bool.if_false_right,
      Bool.and_eq_true, decide_eq_true_eq] at h
    obtain ⟨h1, h2, h3⟩ := contiguous_append (y :: rest) H2 h.2
    refine ⟨?_, h2, ?_⟩
    · simp only [contiguous, ne_eq, ite_not, Bool.if_false_right, Bool.and_eq_true,
        decide_eq_true_eq]
      exact ⟨h.1, h1⟩
    · intro a b ha hb
      exact h3 a b (by simpa [List.getLast?_cons_cons] using ha) hb

theorem Snapshot.apply_cons {ecrecover : Header → Except Error Address} (S last : Snapshot)
    (first : Header) (rest : List Header)
    (hc : contiguous (first :: rest) = true)
    (hf : first.Number = (S.Number + 1) % u64)
    (hloop : applyHeaders ecrecover S.config.Epoch S (first :: rest) = Except.ok last) :
    S.apply ecrecover (first :: rest) =
      Except.ok (last.withPlace ((last.Number + (first :: rest).length) % u64)
        (((first :: rest).getLast?.map Header.Hash).getD 0)) := by
  unfold Snapshot.apply
  have hcopy : S.copy = S := rfl
  simp only [hc, Bool.not_true, Bool.false_eq_true, if_false, hf, ne_eq, not_true_eq_false,
    hcopy, hloop]
  rfl

theorem applyHeaders_config {ecrecover : Header → Except Error Address} {epoch : Nat}
    {headers : List Header} {snap last : Snapshot}
    (h : applyHeaders ecrecover epoch snap headers = Except.ok last) :
    last.config = snap.config :=
  applyHeaders_preserves (fun s => s.config = snap.config)
    (fun s hd next hP hstep => by
      obtain ⟨mid, hmid, rfl⟩ := Snapshot.applyHeader_ok hstep
      obtain ⟨_, a, _, _, _, _, rfl⟩ := Snapshot.castHeader_ok hmid
      rw [Snapshot.resolve_config, Snapshot.voted_config]
      exact hP) headers snap last rfl h

/-! ## C21: batch splitting -/

/-- C21. If `apply` succeeds on `H1 ++ H2`, then it succeeds on `H1` with some
snapshot `S1`, and it succeeds on `H2` from `S1` with the very result of the
single call: the same snapshot, equal in every field. -/
theorem batch_splitting (ecrecover : Header → Except Error Address) (S S' : Snapshot)
    (H1 H2 : List Header)
    (hok : S.apply ecrecover (H1 ++ H2) = Except.ok S') :
    ∃ S1, S.apply ecrecover H1 = Except.ok S1 ∧ S1.apply ecrecover H2 = Except.ok S' := by
  match H1, H2, hok with
  | [], H2, hok => exact ⟨S, rfl, hok⟩
  | f1 :: r1, [], hok =>
    rw [List.append_nil] at hok
    exact ⟨S', hok, rfl⟩
  | f1 :: r1, f2 :: r2, hok =>
    obtain ⟨hc, hf⟩ := @Snapshot.apply_aligned ecrecover S S' f1 (r1 ++ f2 :: r2) hok
    rcases Snapshot.apply_ok hok with ⟨hnil, _⟩ | ⟨last, hlast, hS'⟩
    · cases hnil
    · obtain ⟨mid, hmid, hrest⟩ := applyHeaders_append (f1 :: r1) (f2 :: r2) S last hlast
      obtain ⟨hc1, hc2, hadj⟩ := contiguous_append (f1 :: r1) (f2 :: r2) hc
      have hmidN : mid.Number = S.Number := applyHeaders_Number hmid
      have hlastN : last.Number = mid.Number := applyHeaders_Number hrest
      have hmidC : mid.config = S.config := applyHeaders_config hmid
      have h1 := Snapshot.apply_cons S mid f1 r1 hc1 hf hmid
      refine ⟨_, h1, ?_⟩
      obtain ⟨l1, hl1⟩ : ∃ l1, (f1 :: r1).getLast? = some l1 :=
        ⟨(f1 :: r1).getLast (by simp), List.getLast?_eq_getLast _ _⟩
      have hl1N := contiguous_getLast r1 f1 S.Number hc1 hf l1 hl1
      have hf2 : f2.Number =
          ((mid.withPlace ((mid.Number + (f1 :: r1).length) % u64)
            (((f1 :: r1).getLast?.map Header.Hash).getD 0)).Number + 1) % u64 := by
        rw [hadj l1 f2 hl1 rfl, hl1N, hmidN]
        rfl
      have hloop2 : applyHeaders ecrecover
          (mid.withPlace ((mid.Number + (f1 :: r1).length) % u64)
            (((f1 :: r1).getLast?.map Header.Hash).getD 0)).config.Epoch
          (mid.withPlace ((mid.Number + (f1 :: r1).length) % u64)
            (((f1 :: r1).getLast?.map Header.Hash).getD 0)) (f2 :: r2) =
          Except.ok (last.withPlace ((mid.Number + (f1 :: r1).length) % u64)
            (((f1 :: r1).getLast?.map Header.Hash).getD 0)) := by
        rw [applyHeaders_withPlace]
        have hcfg : (mid.withPlace ((mid.Number + (f1 :: r1).length) % u64)
            (((f1 :: r1).getLast?.map Header.Hash).getD 0)).config = S.config := hmidC
        rw [hcfg, hrest]
        rfl
      rw [Snapshot.apply_cons _ _ f2 r2 hc2 hf2 hloop2, hS']
      congr 1
      have hnum : (((mid.Number + (f1 :: r1).length) % u64) + (f2 :: r2).length) % u64 =
          (last.Number + (f1 :: r1 ++ f2 :: r2).length) % u64 := by
        rw [hlastN, List.length_append, Nat.add_mod, Nat.mod_mod, ← Nat.add_mod]
        congr 1
        omega
      have hhash : (f2 :: r2).getLast? = (f1 :: r1 ++ f2 :: r2).getLast? := by
        rw [List.getLast?_append_of_ne_nil (f1 :: r1) (List.cons_ne_nil f2 r2)]
      unfold Snapshot.withPlace
      simp only [hnum, hhash]

/-- C21, worked: the four headers that end in the eviction of `A`, applied in
one call, give the snapshot obtained by applying the first three and then the
fourth. -/
theorem batch_splitting_witness :
    genesisABCD.apply recoverExtra
        [mkHeader 1 1 9 nonceAuthVote, mkHeader 2 2 1 nonceDropVote,
         mkHeader 3 3 1 nonceDropVote] = Except.ok beforeEviction ∧
    afterFourHeaders.Number = 4 ∧ afterFourHeaders.signers = [2, 3, 4] ∧
    ∃ S1, genesisABCD.apply recoverExtra
        [mkHeader 1 1 9 nonceAuthVote, mkHeader 2 2 1 nonceDropVote,
         mkHeader 3 3 1 nonceDropVote] = Except.ok S1 ∧
      S1.apply recoverExtra [mkHeader 4 4 1 nonceDropVote] = Except.ok afterFourHeaders :=
  ⟨by decide, by decide, by decide,
   batch_splitting recoverExtra genesisABCD afterFourHeaders
    [mkHeader 1 1 9 nonceAuthVote, mkHeader 2 2 1 nonceDropVote, mkHeader 3 3 1 nonceDropVote]
    [mkHeader 4 4 1 nonceDropVote] (by decide)⟩

/-! ## C23: the advisory state does not influence the consensus state -/

theorem Snapshot.apply_withAdvisory {ecrecover : Header → Except Error Address}
    (s : Snapshot) (H : GoMap Address SignerHealth) (P : GoMap Address Int)
    (headers : List Header) :
    ∃ H' P', (s.withAdvisory H P).apply ecrecover headers =
      (s.apply ecrecover headers).map (fun r => r.withAdvisory H' P') := by
  cases headers with
  | nil => exact ⟨H, P, rfl⟩
  | cons first rest =>
    have hF : s.withAdvisory H P = s.withFrame s.Number s.Hash H P := rfl
    obtain ⟨H', P', hloop⟩ := @applyHeaders_withFrame ecrecover
      s.config.Epoch s.Number s.Hash (first :: rest) s H P
    refine ⟨H', P', ?_⟩
    unfold Snapshot.apply
    have hcopy : ∀ t : Snapshot, t.copy = t := fun _ => rfl
    have hcfg : (s.withAdvisory H P).config = s.config := rfl
    have hnum : (s.withAdvisory H P).Number = s.Number := rfl
    simp only [hcopy, hcfg, hnum]
    by_cases hc : contiguous (first :: rest) = true
    · by_cases hf : first.Number = (s.Number + 1) % u64
      · simp only [hc, Bool.not_true, Bool.false_eq_true, if_false, hf, ne_eq,
          not_true_eq_false]
        rw [hF, hloop]
        cases hl : applyHeaders ecrecover s.config.Epoch s (first :: rest) with
        | error err => rfl
        | ok last =>
          have hN : last.Number = s.Number := applyHeaders_Number hl
          simp only [Except.map]
          congr 1
          unfold Snapshot.withFrame Snapshot.withAdvisory
          simp only [hN]
      · simp only [hc, Bool.not_true, Bool.false_eq_true, if_false, ne_eq, hf,
          not_false_eq_true, if_true]
        rfl
    · simp only [hc, Bool.not_false, if_true]
      rfl

/-- C23. Two snapshots that agree on the configuration, the number, the hash,
the signers, the recents, the votes and the tally, and differ at will in health
and performance, give under `apply` on the same headers either the same error,
or two snapshots that agree on number, hash, signers, recents, votes and tally.
Equal Go maps are equal lists of bindings here. -/
theorem advisory_independence (ecrecover : Header → Except Error Address)
    (S1 S2 : Snapshot) (H : List Header)
    (hconfig : S1.config = S2.config) (hNumber : S1.Number = S2.Number)
    (hHash : S1.Hash = S2.Hash) (hSigners : S1.Signers = S2.Signers)
    (hRecents : S1.Recents = S2.Recents) (hVotes : S1.Votes = S2.Votes)
    (hTally : S1.Tally = S2.Tally) :
    (∃ err, S1.apply ecrecover H = Except.error err ∧
        S2.apply ecrecover H = Except.error err) ∨
    (∃ R1 R2, S1.apply ecrecover H = Except.ok R1 ∧ S2.apply ecrecover H = Except.ok R2 ∧
        R1.Number = R2.Number ∧ R1.Hash = R2.Hash ∧ R1.Signers = R2.Signers ∧
        R1.Recents = R2.Recents ∧ R1.Votes = R2.Votes ∧ R1.Tally = R2.Tally ∧
        R1.config = R2.config) := by
  have h2 : S2 = S1.withAdvisory S2.Health S2.Performance := by
    cases S1
    cases S2
    simp only [Snapshot.withAdvisory] at *
    simp only [hconfig, hNumber, hHash, hSigners, hRecents, hVotes, hTally]
  obtain ⟨H', P', happ⟩ := @Snapshot.apply_withAdvisory ecrecover S1
    S2.Health S2.Performance H
  rw [← h2] at happ
  cases h1 : S1.apply ecrecover H with
  | error err =>
    rw [h1] at happ
    exact Or.inl ⟨err, rfl, happ⟩
  | ok R1 =>
    rw [h1] at happ
    exact Or.inr ⟨R1, R1.withAdvisory H' P', rfl, happ, rfl, rfl, rfl, rfl, rfl, rfl, rfl⟩

/-- C23, worked: `beforeEviction` and the copy of it in which `A` is unhealthy
and `B` has the performance 40 differ in health and in performance, and header
4, which evicts `A`, takes both to snapshots with the same consensus fields. -/
theorem advisory_independence_witness :
    beforeEvictionDegraded.Health ≠ beforeEviction.Health ∧
    beforeEvictionDegraded.Performance ≠ beforeEviction.Performance ∧
    beforeEviction.apply recoverExtra [mkHeader 4 4 1 nonceDropVote] =
      Except.ok afterEviction ∧
    ((∃ err, beforeEviction.apply recoverExtra [mkHeader 4 4 1 nonceDropVote] =
          Except.error err ∧
        beforeEvictionDegraded.apply recoverExtra [mkHeader 4 4 1 nonceDropVote] =
          Except.error err) ∨
     (∃ R1 R2, beforeEviction.apply recoverExtra [mkHeader 4 4 1 nonceDropVote] =
          Except.ok R1 ∧
        beforeEvictionDegraded.apply recoverExtra [mkHeader 4 4 1 nonceDropVote] =
          Except.ok R2 ∧
        R1.Number = R2.Number ∧ R1.Hash = R2.Hash ∧ R1.Signers = R2.Signers ∧
        R1.Recents = R2.Recents ∧ R1.Votes = R2.Votes ∧ R1.Tally = R2.Tally ∧
        R1.config = R2.config)) :=
  ⟨by decide, by decide, by decide,
   advisory_independence recoverExtra beforeEviction beforeEvictionDegraded
    [mkHeader 4 4 1 nonceDropVote] (by decide) (by decide) (by decide) (by decide)
    (by decide) (by decide) (by decide)⟩

end Poi
